import Mathlib

/-!
Verification development for the mystique-icon codemod.

The definitions below are a shallow embedding of the transform engine found in
`src/transforms/icon-prop-to-component-transform.cjs` (the most complete
variant, second document of that file) together with the helper variants it
shares with `src/unnamed/part_000`.  JSX syntax trees are modelled by a family
of mutually inductive types; the engine functions mirror the JavaScript
statement by statement.  Machine strings are modelled by `String` with all
computations performed structurally on `String.data` so that every definition
evaluates inside the kernel.

Modelling scope (noted where relevant):
* object-literal keys are identifier keys (the source ignores computed and
  string keys when scanning an icon object);
* opaque expressions (identifiers, member expressions such as `theme.blue`,
  template literals, numbers other than synthesized size literals) are
  represented by `JExpr.other` with a numeric tag;
* reference equality used by `Array.prototype.includes` in the source is
  modelled by tracking, with a boolean, whether the very push that would make
  the reference check succeed has happened (fresh nodes built with
  `j.jsxAttribute` are never reference-equal to an outer attribute node).
-/

/-! ## Character and string machinery (structural, kernel-computable) -/

/-- Split a character list at every delimiter accepted by `p`, mirroring
JavaScript `String.prototype.split` with a character-class regex: the empty
string yields one empty segment, and consecutive delimiters yield empty
segments between them. -/
def splitChars (p : Char → Bool) : List Char → List (List Char)
  | [] => [[]]
  | c :: cs =>
    if p c then [] :: splitChars p cs
    else
      match splitChars p cs with
      | [] => [[c]]
      | s :: rest => (c :: s) :: rest

/-- Capitalize the first character and lowercase the rest of a segment,
mirroring `part.charAt(0).toUpperCase() + part.slice(1).toLowerCase()`. -/
def capSegLower : List Char → List Char
  | [] => []
  | c :: cs => c.toUpper :: cs.map Char.toLower

/-- Capitalize the first character and keep the rest of a segment unchanged,
mirroring `part.charAt(0).toUpperCase() + part.slice(1)` (the older variant). -/
def capSegKeep : List Char → List Char
  | [] => []
  | c :: cs => c.toUpper :: cs

/-- Boolean lexicographic comparison on character lists via code points; agrees
with the JavaScript default `Array.prototype.sort` comparator on the ASCII
identifiers this codemod produces. -/
def strLeB : List Char → List Char → Bool
  | [], _ => true
  | _ :: _, [] => false
  | a :: as, b :: bs =>
    if a.toNat = b.toNat then strLeB as bs
    else Nat.ble a.toNat b.toNat

/-- String-level wrapper for `strLeB`. -/
def sLe (a b : String) : Bool := strLeB a.data b.data

/-- Insert a string into a `sLe`-sorted list, keeping it sorted. -/
def insertStr (s : String) : List String → List String
  | [] => [s]
  | t :: ts => if sLe s t then s :: t :: ts else t :: insertStr s ts

/-- Insertion sort by `sLe`; models `Array.prototype.sort()` on the
duplicate-free name arrays the engine sorts. -/
def sortStrs : List String → List String
  | [] => []
  | s :: ss => insertStr s (sortStrs ss)

/-- Boolean sortedness of a string list under `sLe`. -/
def sortedB : List String → Bool
  | [] => true
  | [_] => true
  | a :: b :: rest => sLe a b && sortedB (b :: rest)

/-- Boolean membership in a string list (JavaScript `Set.prototype.has` /
`Array.prototype.includes` on strings). -/
def elemB (s : String) : List String → Bool
  | [] => false
  | t :: ts => s == t || elemB s ts

/-- Drop later duplicates, keeping the first occurrence of each string; models
the insertion order of a JavaScript `Set` fed from a list.  `seen` collects the
strings already emitted. -/
def dedupFirstAux (seen : List String) : List String → List String
  | [] => []
  | s :: ss =>
    if elemB s seen then dedupFirstAux seen ss
    else s :: dedupFirstAux (seen ++ [s]) ss

/-- Duplicate removal keeping first occurrences. -/
def dedupFirst : List String → List String := dedupFirstAux []

/-- Boolean "no duplicates" check for string lists. -/
def nodupB : List String → Bool
  | [] => true
  | s :: ss => !(elemB s ss) && nodupB ss

/-- Prefix test for one character list at the head of another. -/
def isPfxOf : List Char → List Char → Bool
  | [], _ => true
  | _ :: _, [] => false
  | a :: as, b :: bs => a == b && isPfxOf as bs

/-- Substring containment on character lists, mirroring
`String.prototype.includes`. -/
def containsSub (needle : List Char) : List Char → Bool
  | [] => needle.isEmpty
  | h :: hs => isPfxOf needle (h :: hs) || containsSub needle hs

/-! ## The identifier mapper -/

/-- Delimiter class of the most complete mapper variant: the regex `[_-]`. -/
def iconDelim (c : Char) : Bool := c == '_' || c == '-'

/-- The identifier mapper `getNewIconComponentName` of the most complete
variant (`icon-prop-to-component-transform.cjs`, second document, and
`src/unnamed/part_000`, first document): a missing or empty input maps to
the sentinel, the prefix `ic_basic_` is stripped, else the prefix `ic_`,
the remainder is split on `_` or `-`, each segment is capitalized with the
rest lowercased, and an empty concatenation maps to the sentinel. -/
def getNewIconComponentName (iconString : Option String) : String :=
  match iconString with
  | none => "UnknownIcon"
  | some s =>
    if s = "" then "UnknownIcon"
    else
      let base := s.data
      let namePart :=
        if isPfxOf "ic_basic_".data base then base.drop 9
        else if isPfxOf "ic_".data base then base.drop 3
        else base
      let componentName := ((splitChars iconDelim namePart).map capSegLower).flatten
      if componentName.isEmpty then "UnknownIcon" else String.mk componentName

/-- The older mapper variant (first document of
`icon-prop-to-component-transform.cjs`): identical prefix handling, but the
remainder is split on `_` only and segment tails keep their case. -/
def getNewIconComponentNameV1 (iconString : Option String) : String :=
  match iconString with
  | none => "UnknownIcon"
  | some s =>
    if s = "" then "UnknownIcon"
    else
      let base := s.data
      let namePart :=
        if isPfxOf "ic_basic_".data base then base.drop 9
        else if isPfxOf "ic_".data base then base.drop 3
        else base
      let componentName := ((splitChars (fun c => c == '_') namePart).map capSegKeep).flatten
      if componentName.isEmpty then "UnknownIcon" else String.mk componentName

/-- Spec-side mapper pipeline, following the specification's words: strip the
first matching prefix from a given known-prefix list (tried in the list's
order), split the remainder on `_` or `-`, capitalize each segment's first
character and lowercase the rest, concatenate, and fall back to the sentinel
for an empty input or empty concatenation. -/
def stripFirstMatching : List String → List Char → List Char
  | [], s => s
  | p :: ps, s => if isPfxOf p.data s then s.drop p.data.length else stripFirstMatching ps s

/-- Spec-side mapper built on `stripFirstMatching`; `mapperPolicy pfxs` is the
mapper whose known-prefix list is `pfxs`. -/
def mapperPolicy (pfxs : List String) (s : String) : String :=
  if s = "" then "UnknownIcon"
  else
    let r := ((splitChars iconDelim (stripFirstMatching pfxs s.data)).map capSegLower).flatten
    if r.isEmpty then "UnknownIcon" else String.mk r

theorem map_eq_mapperPolicy (s : String) :
    getNewIconComponentName (some s) = mapperPolicy ["ic_basic_", "ic_"] s := by
  have e1 : ("ic_basic_".data).length = 9 := rfl
  have e2 : ("ic_".data).length = 3 := rfl
  unfold getNewIconComponentName mapperPolicy
  by_cases h0 : s = ""
  · simp [h0]
  · by_cases h1 : isPfxOf "ic_basic_".data s.data = true
    · simp [stripFirstMatching, h0, h1, e1]
    · simp only [Bool.not_eq_true] at h1
      by_cases h2 : isPfxOf "ic_".data s.data = true
      · simp [stripFirstMatching, h0, h1, h2, e2]
      · simp only [Bool.not_eq_true] at h2
        simp [stripFirstMatching, h0, h1, h2]

/-! ## JSX syntax trees

Mutually inductive model of the tree fragments the engine inspects or builds:
elements, attributes, attribute values, expressions, and object-literal
properties.  Children of elements are irrelevant to the engine (it only ever
reads and writes opening-element attribute lists), so elements carry a name
and an attribute list. -/

/-- Name of a JSX element: a plain identifier or a one-level member
expression such as `ListItem.SupportingIcon` (all configured targets are at
most one level deep; a deeper chain can never match a configured rule). -/
inductive EName where
  | ident (s : String)
  | member (obj pr : String)
deriving DecidableEq

mutual
/-- A JSX element: name plus opening-element attributes. -/
inductive JElem where
  | mk (name : EName) (attrs : List JAttr)

/-- A JSX attribute: a named attribute with a value, or a spread attribute
with an opaque argument. -/
inductive JAttr where
  | attr (name : String) (value : AVal)
  | spreadAttr (arg : Nat)

/-- A JSX attribute value: absent (bare attribute), a plain string literal,
or an expression container. -/
inductive AVal where
  | novalue
  | str (s : String)
  | container (e : JExpr)

/-- An expression as far as the engine distinguishes shapes: string literal,
numeric literal, object literal, JSX element, or anything else (opaque). -/
inductive JExpr where
  | strLit (s : String)
  | numLit (n : Nat)
  | obj (props : List JProp)
  | elem (e : JElem)
  | other (tag : Nat)

/-- An object-literal property: an identifier-keyed property or a spread
element with an opaque argument. -/
inductive JProp where
  | prop (key : String) (value : JExpr)
  | spread (arg : Nat)
end

/-- Attributes of an element. -/
def JElem.attrs : JElem → List JAttr
  | .mk _ as => as

/-- Name of an element. -/
def JElem.name : JElem → EName
  | .mk n _ => n

/-- The source's `getComponentName`: dotted name of an element. -/
def getComponentName (e : JElem) : String :=
  match e.name with
  | .ident s => s
  | .member o p => o ++ "." ++ p

/-! ## Attribute classification (`parseComponentAttributes`) -/

/-- Record returned by `parseComponentAttributes`, mirroring the source's
result object field by field.  `directColor` and `directSize` model the
`directAttributes` map (later duplicates overwrite earlier ones, exactly as
assignment to `directAttributes[attrName]` does). -/
structure ParsedProps where
  iconPropValue : Option String
  iconObjectAttributes : List JAttr
  directColor : Option JAttr
  directSize : Option JAttr
  remainingAttributes : List JAttr
  isUnhandledIconProp : Bool
  iconAttributeNode : Option JAttr

/-- Translation of an icon-object property value into a JSX attribute value:
string literals become plain string attribute values (`j.stringLiteral`),
everything else is wrapped in an expression container
(`j.jsxExpressionContainer`). -/
def toJsxValue : JExpr → AVal
  | .strLit s => .str s
  | v => .container v

/-- Does the property list contain an identifier-keyed `icon` property
(`properties.some(p => p.type === 'ObjectProperty' && p.key.name === 'icon')`)? -/
def hasIconKey (props : List JProp) : Bool :=
  props.any (fun p => match p with | .prop k _ => k == "icon" | .spread _ => false)

/-- Does the property list contain a spread element? -/
def hasSpreadProp (props : List JProp) : Bool :=
  props.any (fun p => match p with | .prop _ _ => false | .spread _ => true)

/-- One step of the `properties.forEach` loop inside the object branch of
`parseComponentAttributes`: threads `(iconPropValue, foundIconStringInObject,
pushed attributes)`. -/
def scanIconObjectStep (st : Option String × Bool × List JAttr) (p : JProp) :
    Option String × Bool × List JAttr :=
  match p with
  | .prop k v =>
    if k == "icon" then
      match v with
      | .strLit s => (some s, true, st.2.2)
      | _ => (st.1, st.2.1, st.2.2 ++ [.attr k (toJsxValue v)])
    else (st.1, st.2.1, st.2.2 ++ [.attr k (toJsxValue v)])
  | .spread arg => (st.1, st.2.1, st.2.2 ++ [.spreadAttr arg])

/-- One step of the outer `allAttributes.forEach` loop of
`parseComponentAttributes`. -/
def parseAttrStep (acc : ParsedProps) (a : JAttr) : ParsedProps :=
  match a with
  | .attr attrName valueNode =>
    if attrName == "icon" then
      let acc1 := { acc with iconAttributeNode := some a }
      match valueNode with
      | .str s => { acc1 with iconPropValue := some s }
      | .container (.obj props) =>
        if props.length > 0 then
          let scanned := props.foldl scanIconObjectStep (acc1.iconPropValue, false, [])
          let found := scanned.2.1
          let unhandled :=
            acc1.isUnhandledIconProp
              || (!found && hasIconKey props)
              || (!found && !hasSpreadProp props)
          { acc1 with
              iconPropValue := scanned.1,
              iconObjectAttributes := acc1.iconObjectAttributes ++ scanned.2.2,
              isUnhandledIconProp := unhandled }
        else { acc1 with isUnhandledIconProp := true }
      | _ => { acc1 with isUnhandledIconProp := true }
    else if attrName == "color" then { acc with directColor := some a }
    else if attrName == "size" then { acc with directSize := some a }
    else { acc with remainingAttributes := acc.remainingAttributes ++ [a] }
  | .spreadAttr _ => { acc with remainingAttributes := acc.remainingAttributes ++ [a] }

/-- The source's `parseComponentAttributes`, as a fold of `parseAttrStep`
over the attribute list. -/
def parseComponentAttributes (allAttributes : List JAttr) : ParsedProps :=
  allAttributes.foldl parseAttrStep
    { iconPropValue := none
      iconObjectAttributes := []
      directColor := none
      directSize := none
      remainingAttributes := []
      isUnhandledIconProp := false
      iconAttributeNode := none }

/-! ## Per-element decision and rewrite (the non-TextButton icon path) -/

/-- Four-way outcome of visiting one element on the icon path. -/
inductive IconOutcome where
  | noIconProp
  | skipBenign
  | skipProblem
  | rewritten (newName : String)
deriving DecidableEq

/-- Is the recorded icon attribute's value a JSX-element expression container
(the `isProblem = false` test of the transformer)? -/
def isJsxContainerVal : Option JAttr → Bool
  | some (.attr _ (.container (.elem _))) => true
  | _ => false

/-- Decision logic of the transformer for one element on the icon path:
absent icon prop halts; an unhandled shape or missing string value is a skip
(benign exactly when the icon value is already a JSX element container);
a mapped name of `UnknownIcon` is a problem skip; otherwise the element is
rewritten under the mapped name. -/
def iconOutcome (parsed : ParsedProps) : IconOutcome :=
  match parsed.iconAttributeNode with
  | none => .noIconProp
  | some _ =>
    if parsed.isUnhandledIconProp || parsed.iconPropValue.isNone then
      if parsed.isUnhandledIconProp && isJsxContainerVal parsed.iconAttributeNode then
        .skipBenign
      else .skipProblem
    else
      match parsed.iconPropValue with
      | some s =>
        let n := getNewIconComponentName (some s)
        if n == "UnknownIcon" then .skipProblem else .rewritten n
      | none => .skipProblem

/-- Does the attribute list contain a named attribute called `n`
(`innerIconElementProps.some(p => p.name && p.name.name === n)`)? -/
def hasAttrNamed (n : String) (l : List JAttr) : Bool :=
  l.any (fun a => match a with | .attr m _ => m == n | .spreadAttr _ => false)

/-- The synthesized default size attribute `size={20}`
(`j.jsxAttribute(j.jsxIdentifier('size'), j.jsxExpressionContainer(j.literal(20)))`). -/
def defaultSizeAttr : JAttr := .attr "size" (.container (.numLit 20))

/-- Result of building the inner icon element's attribute list.  The two
booleans record whether the outer element's direct `color` / `size` node was
pushed into the inner list; the source tests the same fact afterwards with a
reference-equality `includes`, and the node is pushed exactly under these
conditions. -/
structure SynthResult where
  innerProps : List JAttr
  colorConsumed : Bool
  sizeConsumed : Bool

/-- Inner-props synthesis: object-form attributes first; then the transferable
direct props (the configured list is exactly `['color']`) when not already
present by name; then the size resolution (object size wins, else direct size
is consumed, else the default `size={20}` unless the component is exempt). -/
def synthesizeInnerProps (exempt : Bool) (parsed : ParsedProps) : SynthResult :=
  let p0 := parsed.iconObjectAttributes
  let step1 : List JAttr × Bool :=
    match parsed.directColor with
    | some ca => if !hasAttrNamed "color" p0 then (p0 ++ [ca], true) else (p0, false)
    | none => (p0, false)
  let p1 := step1.1
  let sizeProvidedByIconObject := hasAttrNamed "size" p1
  let step2 : List JAttr × Bool :=
    if !sizeProvidedByIconObject then
      match parsed.directSize with
      | some sa => (p1 ++ [sa], true)
      | none => if !exempt then (p1 ++ [defaultSizeAttr], false) else (p1, false)
    else (p1, false)
  { innerProps := step2.1, colorConsumed := step1.2, sizeConsumed := step2.2 }

/-- Final outer attribute list after a rewrite: the remainder, then the new
`icon` attribute holding the self-closing inner element, then any direct
`color` / `size` node that was not consumed by the inner element.  (The
source's `filter(Boolean)` drops nothing here: every entry is a node.) -/
def rewriteIconAttrs (exempt : Bool) (newName : String) (parsed : ParsedProps) : List JAttr :=
  let syn := synthesizeInnerProps exempt parsed
  let inner : JElem := .mk (.ident newName) syn.innerProps
  parsed.remainingAttributes
    ++ [.attr "icon" (.container (.elem inner))]
    ++ (match parsed.directColor with
        | some ca => if !syn.colorConsumed then [ca] else []
        | none => [])
    ++ (match parsed.directSize with
        | some sa => if !syn.sizeConsumed then [sa] else []
        | none => [])

/-- One element's processing on the icon path, as a pure function from the
attribute list to the resulting attribute list and outcome; every non-rewrite
outcome leaves the attribute list untouched (the transformer returns before
assigning `openingElement.attributes`). -/
def processIconElement (exempt : Bool) (attrs : List JAttr) : List JAttr × IconOutcome :=
  let parsed := parseComponentAttributes attrs
  match iconOutcome parsed with
  | .rewritten n => (rewriteIconAttrs exempt n parsed, .rewritten n)
  | o => (attrs, o)

/-! ## The TextButton path (`prefixIcon` / `suffixIcon`) -/

/-- Result of the TextButton attribute loop: final attribute list, the two
ledger flag deltas, and the names added to the import registry (in push
order). -/
structure TBResult where
  attrs : List JAttr
  skipped : Bool
  problem : Bool
  regAdds : List String

/-- One step of the TextButton `attributes.forEach` loop.  For an attribute
named `prefixIcon` or `suffixIcon`: a nonempty string value either becomes a
container holding a self-closing element of the mapped name with no props
(registering the name) or, when the mapped name is `UnknownIcon`, is kept
with both ledger flags set; an empty string value is kept silently (the
`if (iconValue)` test is falsy and the fallback push fires); a value that is
already a JSX element container is kept silently; every other value shape is
kept with both ledger flags set.  All other attributes pass through. -/
def textButtonStep (acc : TBResult) (a : JAttr) : TBResult :=
  match a with
  | .attr n v =>
    if n == "prefixIcon" || n == "suffixIcon" then
      match v with
      | .str s =>
        if s != "" then
          let m := getNewIconComponentName (some s)
          if m == "UnknownIcon" then
            { acc with attrs := acc.attrs ++ [a], skipped := true, problem := true }
          else
            { acc with
                attrs := acc.attrs ++ [.attr n (.container (.elem (.mk (.ident m) [])))],
                regAdds := acc.regAdds ++ [m] }
        else { acc with attrs := acc.attrs ++ [a] }
      | .container (.elem _) => { acc with attrs := acc.attrs ++ [a] }
      | _ => { acc with attrs := acc.attrs ++ [a], skipped := true, problem := true }
    else { acc with attrs := acc.attrs ++ [a] }
  | .spreadAttr _ => { acc with attrs := acc.attrs ++ [a] }

/-- The TextButton attribute rewrite pass over one element's attributes.
(The source reassigns the attribute array only when something changed, but
each loop iteration pushes exactly one attribute, so the unreassigned array
equals the rebuilt one.) -/
def processTextButtonAttrs (attrs : List JAttr) : TBResult :=
  attrs.foldl textButtonStep { attrs := [], skipped := false, problem := false, regAdds := [] }

/-! ## Whole-file engine (rules, traversal, state) -/

/-- Per-file mutable engine state: the `importedIconNamesFromNewPackage` set
(as an insertion-ordered duplicate-free list) and the two ledger flags. -/
structure XfmState where
  registry : List String
  fileHasSkippedItems : Bool
  trulyProblematicSkipOccurred : Bool
deriving DecidableEq

/-- Initial per-file state. -/
def initialState : XfmState :=
  { registry := [], fileHasSkippedItems := false, trulyProblematicSkipOccurred := false }

/-- Add a name to the registry (JavaScript `Set.prototype.add`). -/
def addIconName (n : String) (st : XfmState) : XfmState :=
  if elemB n st.registry then st else { st with registry := st.registry ++ [n] }

/-- Set the `fileHasSkippedItems` flag. -/
def markSkipped (st : XfmState) : XfmState := { st with fileHasSkippedItems := true }

/-- Set both ledger flags. -/
def markProblem (st : XfmState) : XfmState :=
  { st with fileHasSkippedItems := true, trulyProblematicSkipOccurred := true }

/-- A configured target rule: a plain component name matched against
identifier-named elements, or a dotted name matched against one-level member
expressions, exactly as the transformer splits on `'.'` and branches between
a member-expression `find` and `findJSXElements`. -/
inductive Rule where
  | simple (name : String)
  | memberRule (obj pr : String)
deriving DecidableEq

/-- Build a rule from a configured component-name string: two nonempty
dot-separated parts give a member rule, anything else a simple rule. -/
def toRule (s : String) : Rule :=
  match splitChars (fun c => c == '.') s.data with
  | [a, b] =>
    if a.isEmpty || b.isEmpty then .simple s
    else .memberRule (String.mk a) (String.mk b)
  | _ => .simple s

/-- Does a rule match an element name? -/
def ruleMatches (r : Rule) (n : EName) : Bool :=
  match r, n with
  | .simple s, .ident m => m == s
  | .memberRule a b, .member o p => o == a && p == b
  | _, _ => false

/-- The `TARGET_COMPONENTS` list of the most complete variant, in its
traversal order. -/
def TARGET_COMPONENTS : List String :=
  ["ListItem.SupportingIcon", "CardHeader.Icon", "NavBar.Icon", "TextButton",
   "TopNavigation.IconButton", "BottomNavItem", "BasicCardHeader"]

/-- The components exempt from default-size injection in the most complete
variant (`COMPONENTS_THAT_DO_NOT_NEED_DEFAULT_SIZE_PROP_FOR_INNER_ICON`). -/
def DEFAULT_SIZE_EXEMPT : List String :=
  ["BasicCardHeader", "CardHeader.Icon", "ListItem.SupportingIcon", "TextButton",
   "NavBar.Icon", "TopNavigation.IconButton"]

/-- Membership in the exemption set. -/
def isExemptFromDefaultSize (n : String) : Bool := DEFAULT_SIZE_EXEMPT.contains n

/-- The rule list, in traversal order. -/
def engineRules : List Rule := TARGET_COMPONENTS.map toRule

mutual
/-- One traversal pass for one rule over an element.  jscodeshift collects a
snapshot of matching paths in preorder and mutates each in place; here the
pass is computed bottom-up: the attribute subtrees are processed first and the
top-level decision for the element is applied to the result.  This coincides
with the snapshot semantics because (i) the classification read by
`parseComponentAttributes`, `iconOutcome` and the TextButton loop depends only
on top-level shapes (attribute names, value constructors, object keys and
string contents), all preserved by processing subtrees; (ii) a rewrite carries
every original subtree of the element exactly once (the object shell and the
consumed icon string are the only discarded parts and contain no elements),
so processing them before or after the carry yields the same tree; (iii) the
freshly synthesized wrapper element is never visited by the pass that created
it, matching the snapshot; and (iv) the registry is a set that is sorted at
file end and the ledger flags are disjunctions, so accumulation order is
invisible in the output. -/
def passElem (r : Rule) (e : JElem) (st : XfmState) : JElem × XfmState :=
  match e with
  | .mk n attrs =>
    let rec0 := passAttrList r attrs st
    let attrs1 := rec0.1
    let st0 := rec0.2
    if ruleMatches r n then
      if getComponentName (.mk n attrs) == "TextButton" then
        let tb := processTextButtonAttrs attrs1
        let st1 := tb.regAdds.foldl (fun s m => addIconName m s) st0
        let st2 :=
          { st1 with
              fileHasSkippedItems := st1.fileHasSkippedItems || tb.skipped,
              trulyProblematicSkipOccurred := st1.trulyProblematicSkipOccurred || tb.problem }
        (.mk n tb.attrs, st2)
      else
        let parsed := parseComponentAttributes attrs1
        match iconOutcome parsed with
        | .noIconProp => (.mk n attrs1, st0)
        | .skipBenign => (.mk n attrs1, markSkipped st0)
        | .skipProblem => (.mk n attrs1, markProblem st0)
        | .rewritten newName =>
          let st1 := addIconName newName st0
          (.mk n (rewriteIconAttrs (isExemptFromDefaultSize (getComponentName (.mk n attrs))) newName parsed),
           st1)
    else (.mk n attrs1, st0)

/-- Pass over an attribute list. -/
def passAttrList (r : Rule) (l : List JAttr) (st : XfmState) : List JAttr × XfmState :=
  match l with
  | [] => ([], st)
  | a :: rest =>
    let ra := passAttr r a st
    let rr := passAttrList r rest ra.2
    (ra.1 :: rr.1, rr.2)

/-- Pass over one attribute: descend into its value. -/
def passAttr (r : Rule) (a : JAttr) (st : XfmState) : JAttr × XfmState :=
  match a with
  | .attr n v =>
    let rv := passAVal r v st
    (.attr n rv.1, rv.2)
  | .spreadAttr k => (.spreadAttr k, st)

/-- Pass over an attribute value. -/
def passAVal (r : Rule) (v : AVal) (st : XfmState) : AVal × XfmState :=
  match v with
  | .novalue => (.novalue, st)
  | .str s => (.str s, st)
  | .container e =>
    let re := passExpr r e st
    (.container re.1, re.2)

/-- Pass over an expression: elements are visited, object properties are
descended into, leaves are untouched. -/
def passExpr (r : Rule) (x : JExpr) (st : XfmState) : JExpr × XfmState :=
  match x with
  | .strLit s => (.strLit s, st)
  | .numLit k => (.numLit k, st)
  | .other t => (.other t, st)
  | .obj props =>
    let rp := passPropList r props st
    (.obj rp.1, rp.2)
  | .elem e =>
    let re := passElem r e st
    (.elem re.1, re.2)

/-- Pass over an object-property list. -/
def passPropList (r : Rule) (l : List JProp) (st : XfmState) : List JProp × XfmState :=
  match l with
  | [] => ([], st)
  | p :: rest =>
    let rp := passProp r p st
    let rr := passPropList r rest rp.2
    (rp.1 :: rr.1, rr.2)

/-- Pass over one object property. -/
def passProp (r : Rule) (p : JProp) (st : XfmState) : JProp × XfmState :=
  match p with
  | .prop k v =>
    let rv := passExpr r v st
    (.prop k rv.1, rv.2)
  | .spread a => (.spread a, st)
end

/-! ## File-level model: statements, imports, comments -/

/-- A top-level program statement as far as the engine distinguishes them:
an import declaration (source string plus named-import specifier list — the
engine reads `spec.imported.name` of named specifiers), a statement containing
a JSX element, or any other statement (opaque). -/
inductive Stmt where
  | importStmt (source : String) (specifiers : List String)
  | elemStmt (e : JElem)
  | otherStmt (tag : Nat)

/-- Is a statement an import declaration (of any source)? -/
def isImportStmt : Stmt → Bool
  | .importStmt _ _ => true
  | _ => false

/-- The new icon package path. -/
def mystiqueIconsPath : String := "@3o3/mystique-icons"

/-- Is a statement an import from the icon package? -/
def isMystiqueImport : Stmt → Bool
  | .importStmt src _ => src == mystiqueIconsPath
  | _ => false

/-- One pass over a statement: only contained elements are visited. -/
def passStmt (r : Rule) (s : Stmt) (st : XfmState) : Stmt × XfmState :=
  match s with
  | .elemStmt e =>
    let re := passElem r e st
    (.elemStmt re.1, re.2)
  | .importStmt src specs => (.importStmt src specs, st)
  | .otherStmt t => (.otherStmt t, st)

/-- One pass over the program body. -/
def passBody (r : Rule) (body : List Stmt) (st : XfmState) : List Stmt × XfmState :=
  match body with
  | [] => ([], st)
  | s :: rest =>
    let rs := passStmt r s st
    let rr := passBody r rest rs.2
    (rs.1 :: rr.1, rr.2)

/-- All traversal passes, one per configured rule, in rule order. -/
def runPasses (rules : List Rule) (body : List Stmt) (st : XfmState) : List Stmt × XfmState :=
  match rules with
  | [] => (body, st)
  | r :: rest =>
    let rb := passBody r body st
    runPasses rest rb.1 rb.2

/-- Insert a statement immediately after the last import declaration of the
body (at the front when there is none), mirroring the `lastImportIndex`
computation plus `splice(lastImportIndex + 1, 0, decl)`. -/
def insertAfterLastImport (x : Stmt) : List Stmt → List Stmt
  | [] => [x]
  | s :: rest =>
    if rest.any isImportStmt then s :: insertAfterLastImport x rest
    else if isImportStmt s then s :: x :: rest
    else x :: s :: rest

/-- Merge new names into the first icon-package import of the body: the
existing specifier names seed a set, the new names are added, and the sorted
result replaces the specifier list (`existingSpecifierNames` /
`allSpecifierNamesSorted` in the source).  Later icon-package imports are left
alone, as `existingMystiqueImport.get(0)` touches only the first. -/
def mergeIntoFirstMystiqueImport (names : List String) : List Stmt → List Stmt
  | [] => []
  | s :: rest =>
    match s with
    | .importStmt src specs =>
      if src == mystiqueIconsPath then
        .importStmt src (sortStrs (dedupFirst (specs ++ names))) :: rest
      else .importStmt src specs :: mergeIntoFirstMystiqueImport names rest
    | s1 => s1 :: mergeIntoFirstMystiqueImport names rest

/-- Import finalization for a nonempty registry: merge into an existing
icon-package import when one exists, otherwise insert one new sorted import
after the last import declaration. -/
def finalizeImports (registry : List String) (body : List Stmt) : List Stmt :=
  if body.any isMystiqueImport then mergeIntoFirstMystiqueImport registry body
  else insertAfterLastImport (.importStmt mystiqueIconsPath (sortStrs registry)) body

/-- Marker token of the file-level review comment, checked by substring
containment against every existing program comment. -/
def codemodMarker : String := "icon-prop-codemod:"

/-- The file-level review comment (text abridged to avoid quoting; the engine
only ever re-reads it through the `codemodMarker` substring check, and the
marker occurs in it exactly as in the source text). -/
def topLevelCommentText : String :=
  "TODO: icon-prop-codemod: components with icon props were skipped during transformation or resulted in UnknownIcon and require manual review. Search for [SKIPPED] in the console logs for details."

/-- Prepend the review comment unless some existing comment already contains
the marker. -/
def addReviewComment (comments : List String) : List String :=
  if comments.any (fun c => containsSub codemodMarker.data c.data) then comments
  else topLevelCommentText :: comments

/-- A source file as far as the engine observes it: top-level statements and
the program's leading comment list. -/
structure SourceFile where
  body : List Stmt
  comments : List String

/-- The whole transformer of the most complete variant: run every rule pass,
then (for a nonempty registry) merge or insert the icon-package import, then
(when a problematic skip occurred) add the guarded review comment. -/
def transformer (f : SourceFile) : SourceFile :=
  let run := runPasses engineRules f.body initialState
  let body1 := run.1
  let st := run.2
  let body2 := if st.registry.length > 0 then finalizeImports st.registry body1 else body1
  let comments2 :=
    if st.trulyProblematicSkipOccurred then addReviewComment f.comments else f.comments
  { body := body2, comments := comments2 }

/-! ## The older per-element variant (first document of the `.cjs` file)

Used by claim C2's cited skip path: that variant first filters every `icon`
attribute out of the list, then on a skip re-appends the recorded original
icon attribute at the end.  Template-literal icon values (which that variant
also accepts) fall under the opaque-expression scope note; they do not matter
for the properties proved here. -/

/-- Scan state of the `filter` callback of the older variant. -/
structure V1Scan where
  kept : List JAttr
  iconPropValue : Option String
  isUnhandled : Bool
  iconNode : Option JAttr

/-- One step of the older variant's `filter` callback: `icon` attributes are
recorded and removed (string and container-string values supply the icon
name, everything else marks the prop unhandled); all other attributes are
kept in order. -/
def v1ScanStep (acc : V1Scan) (a : JAttr) : V1Scan :=
  match a with
  | .attr n v =>
    if n == "icon" then
      let acc1 := { acc with iconNode := some a }
      match v with
      | .str s => { acc1 with iconPropValue := some s }
      | .container (.strLit s) => { acc1 with iconPropValue := some s }
      | _ => { acc1 with isUnhandled := true }
    else { acc with kept := acc.kept ++ [a] }
  | .spreadAttr _ => { acc with kept := acc.kept ++ [a] }

/-- The older variant's scan over an attribute list. -/
def v1Scan (attrs : List JAttr) : V1Scan :=
  attrs.foldl v1ScanStep { kept := [], iconPropValue := none, isUnhandled := false, iconNode := none }

/-- Result of the older variant's per-element processing. -/
structure V1Result where
  attrs : List JAttr
  skipped : Bool
  rewrittenName : Option String

/-- The older variant's per-element processing: a usable string icon value is
rewritten to `icon={<Name size={20}/>}` appended after the kept attributes;
otherwise the recorded original icon attribute is re-appended at the end of
the kept attributes (changing its position) and the skip flag is set. -/
def processElementV1 (attrs : List JAttr) : V1Result :=
  let sc := v1Scan attrs
  match sc.iconNode with
  | none => { attrs := sc.kept, skipped := false, rewrittenName := none }
  | some node =>
    match sc.isUnhandled, sc.iconPropValue with
    | false, some s =>
      let m := getNewIconComponentNameV1 (some s)
      if m == "UnknownIcon" then
        { attrs := sc.kept ++ [node], skipped := true, rewrittenName := none }
      else
        { attrs := sc.kept ++ [.attr "icon" (.container (.elem (.mk (.ident m) [defaultSizeAttr])))],
          skipped := false, rewrittenName := some m }
    | _, _ => { attrs := sc.kept ++ [node], skipped := true, rewrittenName := none }

/-! ## Projections and counting helpers used in statements -/

/-- Name of a named attribute (spread attributes project to the empty
string); used to exhibit inequality of attribute lists. -/
def attrNameOf : JAttr → String
  | .attr n _ => n
  | .spreadAttr _ => ""

/-- Number of icon-package imports in a body. -/
def countMystique (body : List Stmt) : Nat := body.countP isMystiqueImport

/-- Specifier list of the first icon-package import, if any. -/
def firstMystiqueSpecs : List Stmt → Option (List String)
  | [] => none
  | .importStmt src specs :: rest =>
    if src == mystiqueIconsPath then some specs else firstMystiqueSpecs rest
  | _ :: rest => firstMystiqueSpecs rest

/-! ## Order and duplicate lemmas for the sorted import specifiers -/


theorem sLe_total (a b : String) : sLe a b = true ∨ sLe b a = true := by
  unfold sLe
  generalize a.data = x
  generalize b.data = y
  induction x generalizing y with
  | nil => left; rfl
  | cons c cs ih =>
    cases y with
    | nil => right; rfl
    | cons d ds =>
      simp only [strLeB]
      by_cases h : c.toNat = d.toNat
      · rw [if_pos h, if_pos h.symm]
        exact ih ds
      · rw [if_neg h, if_neg (fun hh => h hh.symm)]
        rcases Nat.le_total c.toNat d.toNat with hle | hle
        · left; exact Nat.ble_eq.mpr hle
        · right; exact Nat.ble_eq.mpr hle

theorem sortedB_insertStr (s : String) (l : List String) (h : sortedB l = true) :
    sortedB (insertStr s l) = true := by
  induction l with
  | nil => rfl
  | cons t ts ih =>
    simp only [insertStr]
    by_cases hst : sLe s t = true
    · simp [hst, sortedB, h]
    · simp only [hst, if_false]
      have h1 : sLe t s = true := by
        rcases sLe_total s t with h1 | h1
        · exact absurd h1 hst
        · exact h1
      cases ts with
      | nil => simp [insertStr, sortedB, h1]
      | cons u us =>
        simp only [sortedB, Bool.and_eq_true] at h
        have ih2 := ih h.2
        simp only [insertStr] at ih2 ⊢
        by_cases hsu : sLe s u = true
        · simp only [hsu, if_true] at ih2 ⊢
          simp only [sortedB, Bool.and_eq_true] at ih2 ⊢
          exact ⟨h1, hsu, h.2⟩
        · simp only [hsu, if_false] at ih2 ⊢
          simp only [sortedB, Bool.and_eq_true] at ih2 ⊢
          exact ⟨h.1, ih2⟩


theorem sortedB_sortStrs (l : List String) : sortedB (sortStrs l) = true := by
  induction l with
  | nil => rfl
  | cons s ss ih => exact sortedB_insertStr s (sortStrs ss) ih

theorem elemB_append (t : String) (l1 l2 : List String) :
    elemB t (l1 ++ l2) = (elemB t l1 || elemB t l2) := by
  induction l1 with
  | nil => simp [elemB]
  | cons u us ih => simp [elemB, ih, Bool.or_assoc]

theorem elemB_insertStr (s t : String) (l : List String) :
    elemB t (insertStr s l) = (elemB t l || t == s) := by
  induction l with
  | nil => simp [insertStr, elemB]
  | cons u us ih =>
    simp only [insertStr]
    by_cases hsu : sLe s u = true
    · simp only [hsu, if_true, elemB]
      cases h1 : t == u <;> cases h2 : t == s <;> simp [h1, h2]
    · simp only [hsu, if_false, elemB, ih]
      cases h1 : t == u <;> cases h2 : t == s <;> simp [h1, h2]

theorem nodupB_insertStr (s : String) (l : List String)
    (h : nodupB l = true) (hn : elemB s l = false) :
    nodupB (insertStr s l) = true := by
  induction l with
  | nil => rfl
  | cons u us ih =>
    simp only [elemB, Bool.or_eq_false_iff] at hn
    simp only [nodupB, Bool.and_eq_true, Bool.not_eq_true'] at h
    simp only [insertStr]
    by_cases hsu : sLe s u = true
    · simp only [hsu, if_true, nodupB, Bool.and_eq_true, Bool.not_eq_true', elemB]
      have hus : (s == u) = false := hn.1
      refine ⟨?_, h.1, h.2⟩
      simp [hus, hn.2]
    · simp only [hsu, if_false, nodupB, Bool.and_eq_true, Bool.not_eq_true']
      refine ⟨?_, ih h.2 hn.2⟩
      rw [elemB_insertStr]
      have h4 : (u == s) = false := by
        cases h5 : u == s
        · rfl
        · exfalso
          have h6 : u = s := beq_iff_eq.mp h5
          subst h6
          rw [beq_self_eq_true] at hn
          rcases hn with ⟨h7, h8⟩
          exact Bool.noConfusion h7
      simp [h.1, h4]

theorem nodupB_dedupFirstAux (l : List String) : ∀ seen : List String,
    nodupB (dedupFirstAux seen l) = true
      ∧ ∀ t : String, elemB t seen = true → elemB t (dedupFirstAux seen l) = false := by
  induction l with
  | nil => exact fun seen => ⟨rfl, fun t _ => rfl⟩
  | cons s ss ih =>
    intro seen
    simp only [dedupFirstAux]
    by_cases hs : elemB s seen = true
    · simp only [hs, if_true]
      exact ih seen
    · simp only [hs, if_false]
      have ih2 := ih (seen ++ [s])
      constructor
      · simp only [nodupB, Bool.and_eq_true, Bool.not_eq_true']
        refine ⟨?_, ih2.1⟩
        apply ih2.2
        simp [elemB_append, elemB]
      · intro t ht
        simp only [elemB, Bool.or_eq_false_iff]
        constructor
        · cases h5 : t == s
          · rfl
          · exfalso
            have h6 : t = s := beq_iff_eq.mp h5
            subst h6
            rw [ht] at hs
            exact hs rfl
        · apply ih2.2
          simp [elemB_append, ht]

theorem nodupB_dedupFirst (l : List String) : nodupB (dedupFirst l) = true :=
  (nodupB_dedupFirstAux l []).1

theorem elemB_sortStrs (l : List String) (t : String) :
    elemB t (sortStrs l) = elemB t l := by
  induction l with
  | nil => rfl
  | cons s ss ih =>
    simp only [sortStrs, elemB_insertStr, ih, elemB]
    cases h1 : t == s <;> cases h2 : elemB t ss <;> simp [h1, h2]

theorem nodupB_sortStrs (l : List String) (h : nodupB l = true) :
    nodupB (sortStrs l) = true := by
  induction l with
  | nil => rfl
  | cons s ss ih =>
    simp only [nodupB, Bool.and_eq_true, Bool.not_eq_true'] at h
    simp only [sortStrs]
    apply nodupB_insertStr
    · exact ih h.2
    · rw [elemB_sortStrs]
      exact h.1

/-! ## Claim theorems: the identifier mapper -/

/-- C1, counterexample.  The claim asserts that the mapper knows the prefixes
`ic_basic_outline_`, `ic_outline_`, `ic_basic_`, `ic_` and maps
`ic_basic_outline_chevron_left` to `ChevronLeft`; the source only strips
`ic_basic_` (else `ic_`), so the result is `OutlineChevronLeft` — exactly
what the source's own doc comment announces. -/
theorem C1_counterexample :
    getNewIconComponentName (some "ic_basic_outline_chevron_left") = "OutlineChevronLeft"
      ∧ getNewIconComponentName (some "ic_basic_outline_chevron_left") ≠ "ChevronLeft" := by
  constructor
  · decide
  · decide

/-- C1, amended.  The identifier mapper strips the longest matching known
prefix with known-prefix list `ic_basic_`, `ic_` (tried in that longest-first
order, and no other prefixes); consequently
`map("ic_basic_outline_chevron_left")` strips `ic_basic_` and returns
`OutlineChevronLeft`. -/
theorem C1_prefix_order :
    (∀ s : String, getNewIconComponentName (some s) = mapperPolicy ["ic_basic_", "ic_"] s)
      ∧ getNewIconComponentName (some "ic_basic_outline_chevron_left") = "OutlineChevronLeft" :=
  ⟨map_eq_mapperPolicy, by decide⟩

/-- C9.  Under the most complete policy variant the remainder after prefix
stripping is split on both `_` and `-` and every nonempty segment is
capitalized with the rest of the segment lowercased (the `mapperPolicy`
pipeline spells out exactly this policy); in particular
`map("ic_basic_fill_info") = FillInfo` and `map("ic_HOME") = Home`. -/
theorem C9_segment_policy :
    getNewIconComponentName (some "ic_basic_fill_info") = "FillInfo"
      ∧ getNewIconComponentName (some "ic_HOME") = "Home"
      ∧ ∀ s : String, getNewIconComponentName (some s) = mapperPolicy ["ic_basic_", "ic_"] s :=
  ⟨by decide, by decide, map_eq_mapperPolicy⟩

/-! ## Claim theorems: object-form extraction and size handling -/

/-- C5.  On a non-exempt target element whose icon attribute is the object
form with fields `icon: 'ic_basic_home'` and `color` bound to an opaque
expression (such as `theme.blue`), the engine synthesizes the inner element
`<Home color={...} size={20} />` — the object-form extra prop is carried over
and the default size 20 is injected — and a direct outer `color` attribute is
not consumed: it is re-appended after the new `icon` attribute. -/
theorem C5_object_form_extraction (n : Nat) (v : AVal) :
    processIconElement false
      [.attr "icon" (.container (.obj [.prop "icon" (.strLit "ic_basic_home"),
                                       .prop "color" (.other n)])),
       .attr "color" v]
    = ([.attr "icon" (.container (.elem (.mk (.ident "Home")
          [.attr "color" (.container (.other n)), defaultSizeAttr]))),
        .attr "color" v],
       .rewritten "Home") := by
  rfl

/-- C6.  On a target element carrying both a string icon attribute
`icon="ic_basic_home"` and a direct `size` attribute (any value, e.g.
`size={24}`), the synthesized inner element is `<Home size=... />` with the
direct size consumed and no default size injected, and no `size` attribute
remains on the outer element's final attribute list — regardless of the
rule's default-size exemption flag, which is never consulted in this case. -/
theorem C6_direct_size_consumption (ex : Bool) (v : AVal) :
    processIconElement ex [.attr "icon" (.str "ic_basic_home"), .attr "size" v]
    = ([.attr "icon" (.container (.elem (.mk (.ident "Home") [.attr "size" v])))],
       .rewritten "Home") := by
  rfl

/-- C8.  The identifier mapper is total: the empty string, a missing value,
and `"ic_"` all map to the sentinel `UnknownIcon`; and an element whose icon
string maps to `UnknownIcon` is left unmutated by its rule's pass, adds
nothing to the import registry, and sets both ledger flags including the
requires-review flag. -/
theorem C8_unknown_icon_total :
    getNewIconComponentName (some "") = "UnknownIcon"
      ∧ getNewIconComponentName none = "UnknownIcon"
      ∧ getNewIconComponentName (some "ic_") = "UnknownIcon"
      ∧ ∀ (s : String) (st : XfmState),
          getNewIconComponentName (some s) = "UnknownIcon" →
          passElem (.simple "BottomNavItem")
              (.mk (.ident "BottomNavItem") [.attr "icon" (.str s)]) st
            = (.mk (.ident "BottomNavItem") [.attr "icon" (.str s)], markProblem st) := by
  refine ⟨by decide, by decide, by decide, ?_⟩
  intro s st h
  have hname : (getComponentName (.mk (.ident "BottomNavItem") [.attr "icon" (.str s)]) == "TextButton") = false := rfl
  simp [passElem, passAttrList, passAttr, passAVal, ruleMatches, hname,
    parseComponentAttributes, parseAttrStep, iconOutcome, h, isJsxContainerVal]

/-- C8 witness at the concrete input `"ic_"` and the initial state. -/
theorem C8_unknown_icon_total_witness :
    getNewIconComponentName (some "ic_") = "UnknownIcon"
      ∧ passElem (.simple "BottomNavItem")
            (.mk (.ident "BottomNavItem") [.attr "icon" (.str "ic_")]) initialState
          = (.mk (.ident "BottomNavItem") [.attr "icon" (.str "ic_")], markProblem initialState) :=
  ⟨C8_unknown_icon_total.2.2.1,
   C8_unknown_icon_total.2.2.2 "ic_" initialState (by decide)⟩

/-! ## Claim theorems: classifier taxonomy (C7) -/

/-- Does the property list contain an identifier-keyed `icon` property whose
value is a string literal? -/
def hasIconStringKey (props : List JProp) : Bool :=
  props.any (fun p => match p with | .prop k (.strLit _) => k == "icon" | _ => false)

theorem scan_found (props : List JProp) : ∀ (v : Option String) (b : Bool) (l : List JAttr),
    (props.foldl scanIconObjectStep (v, b, l)).2.1 = (b || hasIconStringKey props) := by
  induction props with
  | nil => intro v b l; simp [hasIconStringKey]
  | cons p ps ih =>
    intro v b l
    match p with
    | .prop k pv =>
      simp only [List.foldl, scanIconObjectStep, hasIconStringKey, List.any_cons]
      by_cases hk : (k == "icon") = true
      · simp only [hk, if_true]
        match pv with
        | .strLit s =>
          rw [ih]
          simp [hasIconStringKey, hk]
        | .numLit m => rw [ih]; simp [hasIconStringKey]
        | .obj ps2 => rw [ih]; simp [hasIconStringKey]
        | .elem e2 => rw [ih]; simp [hasIconStringKey]
        | .other t => rw [ih]; simp [hasIconStringKey]
      · simp only [Bool.not_eq_true] at hk
        simp only [hk, if_false]
        match pv with
        | .strLit s => rw [ih]; simp [hasIconStringKey, hk]
        | .numLit m => rw [ih]; simp [hasIconStringKey]
        | .obj ps2 => rw [ih]; simp [hasIconStringKey]
        | .elem e2 => rw [ih]; simp [hasIconStringKey]
        | .other t => rw [ih]; simp [hasIconStringKey]
    | .spread a =>
      simp only [List.foldl, scanIconObjectStep, hasIconStringKey, List.any_cons]
      rw [ih]
      simp [hasIconStringKey]

theorem iconString_imp_iconKey (props : List JProp) (h : hasIconStringKey props = true) :
    hasIconKey props = true := by
  induction props with
  | nil => exact absurd h (by simp [hasIconStringKey])
  | cons p ps ih =>
    simp only [hasIconStringKey, List.any_cons, Bool.or_eq_true] at h
    simp only [hasIconKey, List.any_cons, Bool.or_eq_true]
    rcases h with h | h
    · left
      match p, h with
      | .prop k (.strLit s), h => exact h
    · right
      exact ih h

/-- C7.  Classifier taxonomy for icon attributes: an object-literal value is
an unrecognized problem skip when the object is empty, when no `icon` key
exists and no spread is present, or when an `icon` key exists but no
string-valued one does; every other non-string-literal value shape is an
unrecognized skip that is benign exactly when the expression is itself a JSX
element and a problem otherwise. -/
theorem C7_classifier_taxonomy :
    (∀ props : List JProp,
       props = []
         ∨ (hasIconKey props = false ∧ hasSpreadProp props = false)
         ∨ (hasIconKey props = true ∧ hasIconStringKey props = false) →
       iconOutcome (parseComponentAttributes [.attr "icon" (.container (.obj props))])
         = .skipProblem)
    ∧ (∀ v : AVal,
        (match v with
         | .str _ => False
         | .container (.obj _) => False
         | _ => True) →
        iconOutcome (parseComponentAttributes [.attr "icon" v])
          = (match v with
             | .container (.elem _) => IconOutcome.skipBenign
             | _ => IconOutcome.skipProblem)) := by
  constructor
  · intro props h
    rcases h with h | ⟨h1, h2⟩ | ⟨h1, h2⟩
    · subst h
      rfl
    · have hs : hasIconStringKey props = false := by
        cases hx : hasIconStringKey props
        · rfl
        · rw [iconString_imp_iconKey props hx] at h1
          exact Bool.noConfusion h1
      cases props with
      | nil => rfl
      | cons p ps =>
        have hf := scan_found (p :: ps) none false []
        rw [hs, Bool.or_false] at hf
        simp only [List.foldl] at hf
        simp only [parseComponentAttributes, List.foldl, parseAttrStep, iconOutcome]
        simp [hf, h1, h2, isJsxContainerVal]
    · cases props with
      | nil => exact absurd h1 (by simp [hasIconKey])
      | cons p ps =>
        have hf := scan_found (p :: ps) none false []
        rw [h2, Bool.or_false] at hf
        simp only [List.foldl] at hf
        simp only [parseComponentAttributes, List.foldl, parseAttrStep, iconOutcome]
        simp [hf, h1, isJsxContainerVal]
  · intro v hv
    match v with
    | .novalue => rfl
    | .str s => exact absurd hv (by simp)
    | .container (.strLit s) => rfl
    | .container (.numLit m) => rfl
    | .container (.obj ps) => exact absurd hv (by simp)
    | .container (.elem e) => rfl
    | .container (.other t) => rfl

/-- C7 witness: the empty object and an opaque expression container are
problem skips, a JSX-element container is a benign skip. -/
theorem C7_classifier_taxonomy_witness :
    iconOutcome (parseComponentAttributes [.attr "icon" (.container (.obj []))]) = .skipProblem
      ∧ iconOutcome (parseComponentAttributes [.attr "icon" (.container (.other 0))]) = .skipProblem
      ∧ iconOutcome (parseComponentAttributes
          [.attr "icon" (.container (.elem (.mk (.ident "Home") [])))]) = .skipBenign :=
  ⟨C7_classifier_taxonomy.1 [] (Or.inl rfl),
   C7_classifier_taxonomy.2 (.container (.other 0)) trivial,
   C7_classifier_taxonomy.2 (.container (.elem (.mk (.ident "Home") []))) trivial⟩

/-! ## Claim theorems: unrewritten elements keep their attributes (C2) -/

/-- C2, counterexample.  The claim asserts that every element left
unrewritten keeps its attribute list exactly, with the icon attribute in its
original position.  In the older variant cited by the claim (the skip path at
lines 95–113 of the `.cjs` file) the attribute list is rebuilt by filtering
the icon attribute out and re-pushing it at the end, so an element written as
`<X icon={expr} title="x"/>` comes back as `<X title="x" icon={expr}/>`: the
same attribute set in a different order. -/
theorem C2_counterexample :
    ((processElementV1 [.attr "icon" (.container (.other 0)), .attr "title" (.str "x")]).attrs).map attrNameOf
        = ["title", "icon"]
      ∧ ([.attr "icon" (.container (.other 0)), .attr "title" (.str "x")].map attrNameOf
           = ["icon", "title"])
      ∧ (["title", "icon"] : List String) ≠ ["icon", "title"]
      ∧ (processElementV1 [.attr "icon" (.container (.other 0)), .attr "title" (.str "x")]).skipped
          = true := by
  refine ⟨rfl, rfl, by decide, rfl⟩

/-- C2, amended.  Every element the engine visits but does not rewrite keeps
its original attribute set with the icon attribute verbatim: in the most
complete variant and in `part_000` the attribute list is exactly the original
(every non-rewrite outcome of the icon path returns before mutating), while
in the older `.cjs` variant the recorded icon attribute is re-appended at the
end of the filtered list, preserving the attributes but not the icon
attribute's position. -/
theorem C2_unrewritten_attrs :
    (∀ (ex : Bool) (attrs : List JAttr),
       iconOutcome (parseComponentAttributes attrs) ≠ .noIconProp →
       (∀ nm : String, iconOutcome (parseComponentAttributes attrs) ≠ .rewritten nm) →
       (processIconElement ex attrs).1 = attrs)
    ∧ (∀ (ex : Bool) (attrs : List JAttr),
       iconOutcome (parseComponentAttributes attrs) = .noIconProp →
       (processIconElement ex attrs).1 = attrs)
    ∧ (∀ (attrs : List JAttr) (node : JAttr),
       (v1Scan attrs).iconNode = some node →
       (v1Scan attrs).isUnhandled = true ∨ (v1Scan attrs).iconPropValue = none
         ∨ (∀ s, (v1Scan attrs).iconPropValue = some s →
              getNewIconComponentNameV1 (some s) = "UnknownIcon") →
       (processElementV1 attrs).attrs = (v1Scan attrs).kept ++ [node]) := by
  refine ⟨?_, ?_, ?_⟩
  · intro ex attrs h1 h2
    unfold processIconElement
    cases ho : iconOutcome (parseComponentAttributes attrs) with
    | noIconProp => simp [ho]
    | skipBenign => simp [ho]
    | skipProblem => simp [ho]
    | rewritten nm => exact absurd ho (h2 nm)
  · intro ex attrs h1
    unfold processIconElement
    simp [h1]
  · intro attrs node hnode hcond
    simp only [processElementV1]
    rw [hnode]
    cases hu : (v1Scan attrs).isUnhandled with
    | true => rfl
    | false =>
      cases hv : (v1Scan attrs).iconPropValue with
      | none => rfl
      | some s =>
        rcases hcond with hc | hc | hc
        · rw [hu] at hc; exact Bool.noConfusion hc
        · rw [hv] at hc; exact Option.noConfusion hc
        · have := hc s hv
          simp [this]

/-- C2 witness: a benign skip (already-JSX icon value) keeps the attribute
list unchanged in the most complete variant, and the older variant re-appends
an unhandled icon attribute after the kept attributes. -/
theorem C2_unrewritten_attrs_witness :
    (processIconElement false
        [.attr "icon" (.container (.elem (.mk (.ident "Home") [])))]).1
      = [.attr "icon" (.container (.elem (.mk (.ident "Home") [])))]
      ∧ (processElementV1 [.attr "icon" (.container (.other 0)), .attr "a" .novalue]).attrs
          = [.attr "a" .novalue, .attr "icon" (.container (.other 0))] := by
  constructor
  · apply C2_unrewritten_attrs.1
    · decide
    · intro nm h
      have hb : iconOutcome (parseComponentAttributes
          [.attr "icon" (.container (.elem (.mk (.ident "Home") [])))]) = .skipBenign := by decide
      rw [hb] at h
      exact IconOutcome.noConfusion h
  · exact C2_unrewritten_attrs.2.2 [.attr "icon" (.container (.other 0)), .attr "a" .novalue]
      (.attr "icon" (.container (.other 0))) rfl (Or.inl rfl)

/-! ## Claim theorems: the TextButton path (C10) -/

/-- C10, counterexample.  The claim asserts that on TextButton every
string-literal `prefixIcon`/`suffixIcon` value is replaced by a container
holding the mapped element; but a string whose mapped name is `UnknownIcon`
(for example `"ic_"`) keeps the original attribute and sets both ledger
flags, and nothing is registered. -/
theorem C10_counterexample :
    processTextButtonAttrs [.attr "prefixIcon" (.str "ic_")]
      = { attrs := [.attr "prefixIcon" (.str "ic_")], skipped := true, problem := true,
          regAdds := [] } := by
  rfl

/-- C10, amended.  On the TextButton path the attributes named `prefixIcon`
and `suffixIcon` (and only those; in particular an `icon` attribute passes
through untouched) are handled as follows: a nonempty string value whose
mapped name is not `UnknownIcon` is replaced by an expression container
holding a self-closing element of the mapped name with an empty prop list
(no default size, no color or size transfer) and the name is registered; a
nonempty string mapping to `UnknownIcon` keeps the original attribute and
sets both the skipped and requires-review flags; an empty string keeps the
original attribute silently; a value that is already a JSX element is kept
unchanged with no flag; and any other value shape keeps the original
attribute and sets both flags. -/
theorem C10_textbutton_path :
    (∀ nm : String, nm = "prefixIcon" ∨ nm = "suffixIcon" →
      (∀ s : String, s ≠ "" → getNewIconComponentName (some s) ≠ "UnknownIcon" →
        processTextButtonAttrs [.attr nm (.str s)]
          = { attrs := [.attr nm (.container (.elem
                (.mk (.ident (getNewIconComponentName (some s))) [])))],
              skipped := false, problem := false,
              regAdds := [getNewIconComponentName (some s)] })
      ∧ (∀ s : String, s ≠ "" → getNewIconComponentName (some s) = "UnknownIcon" →
        processTextButtonAttrs [.attr nm (.str s)]
          = { attrs := [.attr nm (.str s)], skipped := true, problem := true, regAdds := [] })
      ∧ processTextButtonAttrs [.attr nm (.str "")]
          = { attrs := [.attr nm (.str "")], skipped := false, problem := false, regAdds := [] }
      ∧ (∀ e : JElem,
        processTextButtonAttrs [.attr nm (.container (.elem e))]
          = { attrs := [.attr nm (.container (.elem e))], skipped := false, problem := false,
              regAdds := [] })
      ∧ (∀ v : AVal,
        (match v with
         | .str _ => False
         | .container (.elem _) => False
         | _ => True) →
        processTextButtonAttrs [.attr nm v]
          = { attrs := [.attr nm v], skipped := true, problem := true, regAdds := [] }))
    ∧ (∀ v : AVal,
        processTextButtonAttrs [.attr "icon" v]
          = { attrs := [.attr "icon" v], skipped := false, problem := false, regAdds := [] }) := by
  constructor
  · intro nm hnm
    have hb : (nm == "prefixIcon" || nm == "suffixIcon") = true := by
      rcases hnm with h | h <;> subst h <;> decide
    refine ⟨?_, ?_, ?_, ?_, ?_⟩
    · intro s hs hu
      have hs2 : (s != "") = true := by simp [bne, hs]
      have hu2 : (getNewIconComponentName (some s) == "UnknownIcon") = false := by
        simp [hu]
      simp [processTextButtonAttrs, textButtonStep, hb, hs2, hu2]
    · intro s hs hu
      have hs2 : (s != "") = true := by simp [bne, hs]
      have hu2 : (getNewIconComponentName (some s) == "UnknownIcon") = true := by
        simp [hu]
      simp [processTextButtonAttrs, textButtonStep, hb, hs2, hu2]
    · simp [processTextButtonAttrs, textButtonStep, hb]
    · intro e
      simp [processTextButtonAttrs, textButtonStep, hb]
    · intro v hv
      match v with
      | .novalue => simp [processTextButtonAttrs, textButtonStep, hb]
      | .str s => exact absurd hv (by simp)
      | .container (.strLit s) => simp [processTextButtonAttrs, textButtonStep, hb]
      | .container (.numLit m) => simp [processTextButtonAttrs, textButtonStep, hb]
      | .container (.obj ps) => simp [processTextButtonAttrs, textButtonStep, hb]
      | .container (.elem e) => exact absurd hv (by simp)
      | .container (.other t) => simp [processTextButtonAttrs, textButtonStep, hb]
  · intro v
    simp [processTextButtonAttrs, textButtonStep]

/-- C10 witness at concrete inputs: `prefixIcon="ic_home"` becomes
`prefixIcon={<Home />}` with `Home` registered, and `suffixIcon={x}` (an
opaque expression) is kept with both flags set. -/
theorem C10_textbutton_path_witness :
    processTextButtonAttrs [.attr "prefixIcon" (.str "ic_home")]
      = { attrs := [.attr "prefixIcon" (.container (.elem (.mk (.ident "Home") [])))],
          skipped := false, problem := false, regAdds := ["Home"] }
      ∧ processTextButtonAttrs [.attr "suffixIcon" (.container (.other 7))]
          = { attrs := [.attr "suffixIcon" (.container (.other 7))], skipped := true,
              problem := true, regAdds := [] } := by
  constructor
  · have h := ((C10_textbutton_path.1 "prefixIcon" (Or.inl rfl)).1 "ic_home"
      (by decide) (by decide))
    simpa using h
  · exact (C10_textbutton_path.1 "suffixIcon" (Or.inr rfl)).2.2.2.2
      (.container (.other 7)) trivial

/-! ## Claim theorems: import finalization (C4) -/

theorem countMystique_merge (names : List String) (body : List Stmt) :
    countMystique (mergeIntoFirstMystiqueImport names body) = countMystique body := by
  induction body with
  | nil => rfl
  | cons s rest ih =>
    match s with
    | .importStmt src specs =>
      by_cases h : (src == mystiqueIconsPath) = true
      · simp [mergeIntoFirstMystiqueImport, h, countMystique, List.countP_cons, isMystiqueImport]
      · simp only [Bool.not_eq_true] at h
        simp [mergeIntoFirstMystiqueImport, h, countMystique, List.countP_cons,
          isMystiqueImport] at ih ⊢
        exact ih
    | .elemStmt e =>
      simp [mergeIntoFirstMystiqueImport, countMystique, List.countP_cons, isMystiqueImport] at ih ⊢
      exact ih
    | .otherStmt t =>
      simp [mergeIntoFirstMystiqueImport, countMystique, List.countP_cons, isMystiqueImport] at ih ⊢
      exact ih

theorem firstMystiqueSpecs_merge (names : List String) (body : List Stmt) :
    firstMystiqueSpecs (mergeIntoFirstMystiqueImport names body)
      = (firstMystiqueSpecs body).map (fun old => sortStrs (dedupFirst (old ++ names))) := by
  induction body with
  | nil => rfl
  | cons s rest ih =>
    match s with
    | .importStmt src specs =>
      by_cases h : (src == mystiqueIconsPath) = true
      · simp [mergeIntoFirstMystiqueImport, h, firstMystiqueSpecs]
      · simp only [Bool.not_eq_true] at h
        simp [mergeIntoFirstMystiqueImport, h, firstMystiqueSpecs, ih]
    | .elemStmt e => simp [mergeIntoFirstMystiqueImport, firstMystiqueSpecs, ih]
    | .otherStmt t => simp [mergeIntoFirstMystiqueImport, firstMystiqueSpecs, ih]

/-- C4, amended.  When at least one new icon name is registered and the body
already contains an icon-package import, finalization merges the new names
into the first such import (existing specifier set united with the new
names, deduplicated and re-sorted alphabetically) and inserts no new import
declaration: the number of icon-package imports is preserved, so a file that
had exactly one such import ends with exactly one, its specifier list sorted
and duplicate-free.  (The claim's unconditional "exactly one" fails when the
input file already contained two icon-package imports — see the
counterexample.) -/
theorem C4_import_merge (registry : List String) (body : List Stmt)
    (h1 : registry ≠ []) (h2 : body.any isMystiqueImport = true) :
    countMystique (finalizeImports registry body) = countMystique body
      ∧ firstMystiqueSpecs (finalizeImports registry body)
          = (firstMystiqueSpecs body).map (fun old => sortStrs (dedupFirst (old ++ registry)))
      ∧ (∀ old : List String,
           sortedB (sortStrs (dedupFirst (old ++ registry))) = true
             ∧ nodupB (sortStrs (dedupFirst (old ++ registry))) = true)
      ∧ (countMystique body = 1 → countMystique (finalizeImports registry body) = 1) := by
  have hf : finalizeImports registry body = mergeIntoFirstMystiqueImport registry body := by
    simp [finalizeImports, h2]
  refine ⟨?_, ?_, ?_, ?_⟩
  · rw [hf]; exact countMystique_merge registry body
  · rw [hf]; exact firstMystiqueSpecs_merge registry body
  · intro old
    exact ⟨sortedB_sortStrs _, nodupB_sortStrs _ (nodupB_dedupFirst _)⟩
  · intro h3
    rw [hf, countMystique_merge registry body]
    exact h3

/-- C4 witness: registering `Settings` into a body holding the single import
`import { Home } from "@3o3/mystique-icons"` preserves the import count and
produces the sorted merged specifier list. -/
theorem C4_import_merge_witness :
    countMystique (finalizeImports ["Settings"]
        [.importStmt mystiqueIconsPath ["Home"], .otherStmt 0])
      = countMystique [Stmt.importStmt mystiqueIconsPath ["Home"], .otherStmt 0]
      ∧ firstMystiqueSpecs (finalizeImports ["Settings"]
          [.importStmt mystiqueIconsPath ["Home"], .otherStmt 0])
        = (firstMystiqueSpecs [Stmt.importStmt mystiqueIconsPath ["Home"], .otherStmt 0]).map
            (fun old => sortStrs (dedupFirst (old ++ ["Settings"]))) := by
  have h := C4_import_merge ["Settings"]
    [.importStmt mystiqueIconsPath ["Home"], .otherStmt 0] (by decide) (by decide)
  exact ⟨h.1, h.2.1⟩

/-- C4, counterexample.  A file that already contains two icon-package
imports and registers a new name still ends with two of them, not
"exactly one": the merge touches only the first existing import. -/
theorem C4_counterexample :
    countMystique
        (transformer
          { body := [.importStmt mystiqueIconsPath ["A"],
                     .importStmt mystiqueIconsPath ["B"],
                     .elemStmt (.mk (.ident "BottomNavItem") [.attr "icon" (.str "ic_home")])],
            comments := [] }).body
      = 2
      ∧ (2 : Nat) ≠ 1 := by
  constructor
  · rfl
  · decide

/-! ## Claim C3: idempotence

Counterexample first.  An object-form extra prop named `prefixIcon` is
carried onto the synthesized inner element.  When the mapped inner name is
`TextButton`, the element `<TextButton prefixIcon="ic_home" size={20}/>`
created during the `BottomNavItem` pass sits nested inside the icon
attribute; the TextButton pass of the FIRST run has already finished, so the
second run's TextButton pass finds it and rewrites `prefixIcon`, registering
`Home` and growing the import — a further mutation. -/

/-- The file exhibiting non-idempotence: a single
`BottomNavItem` element with
`icon` bound to an object holding `icon: 'ic_text_button'` and
`prefixIcon: 'ic_home'`. -/
def c3File : SourceFile :=
  { body := [.elemStmt (.mk (.ident "BottomNavItem")
      [.attr "icon" (.container (.obj
        [.prop "icon" (.strLit "ic_text_button"),
         .prop "prefixIcon" (.strLit "ic_home")]))])],
    comments := [] }

/-- C3, counterexample.  Running the transformer twice on `c3File` is not the
same as running it once: the first run imports `TextButton` only, the second
run additionally rewrites the nested `prefixIcon` string and merges `Home`
into the import. -/
theorem C3_counterexample :
    firstMystiqueSpecs (transformer c3File).body = some ["TextButton"]
      ∧ firstMystiqueSpecs (transformer (transformer c3File)).body
          = some ["Home", "TextButton"]
      ∧ transformer (transformer c3File) ≠ transformer c3File := by
  refine ⟨rfl, rfl, ?_⟩
  intro h
  have h2 := congrArg (fun f => firstMystiqueSpecs f.body) h
  have h3 : (some ["Home", "TextButton"] : Option (List String)) = some ["TextButton"] := by
    calc (some ["Home", "TextButton"] : Option (List String))
        = firstMystiqueSpecs (transformer (transformer c3File)).body := rfl
      _ = firstMystiqueSpecs (transformer c3File).body := h2
      _ = some ["TextButton"] := rfl
  simp at h3

/-! ### Safety: the restriction under which the engine is idempotent

An icon-attribute object value is "safe" when every `icon`-keyed property has
a string-literal value (so none is carried onto the inner element as an
`icon` attribute) and no property is keyed `prefixIcon` or `suffixIcon` (so
no carried prop can be picked up by a later TextButton pass).  A tree is safe
when this holds for every icon attribute anywhere in it. -/

/-- Safety of one property of an icon-attribute object literal. -/
def iconPropOK : JProp → Bool
  | .prop k v =>
    if k == "icon" then (match v with | .strLit _ => true | _ => false)
    else !(k == "prefixIcon" || k == "suffixIcon")
  | .spread _ => true

/-- Safety of an icon attribute's value. -/
def iconValOK : AVal → Bool
  | .container (.obj props) => props.all iconPropOK
  | _ => true

mutual
/-- Tree-wide safety of an element. -/
def safeElem : JElem → Bool
  | .mk _ attrs => safeAttrList attrs

/-- Tree-wide safety of an attribute list. -/
def safeAttrList : List JAttr → Bool
  | [] => true
  | a :: rest => safeAttr a && safeAttrList rest

/-- Tree-wide safety of one attribute. -/
def safeAttr : JAttr → Bool
  | .attr n v => (if n == "icon" then iconValOK v else true) && safeAVal v
  | .spreadAttr _ => true

/-- Tree-wide safety of an attribute value. -/
def safeAVal : AVal → Bool
  | .novalue => true
  | .str _ => true
  | .container e => safeExpr e

/-- Tree-wide safety of an expression. -/
def safeExpr : JExpr → Bool
  | .strLit _ => true
  | .numLit _ => true
  | .other _ => true
  | .obj props => safePropList props
  | .elem e => safeElem e

/-- Tree-wide safety of a property list. -/
def safePropList : List JProp → Bool
  | [] => true
  | p :: rest => safeProp p && safePropList rest

/-- Tree-wide safety of one property. -/
def safeProp : JProp → Bool
  | .prop _ v => safeExpr v
  | .spread _ => true
end

/-! ### Doneness and problem sources -/

/-- Is the outcome a rewrite? -/
def isRewrittenOutcome : IconOutcome → Bool
  | .rewritten _ => true
  | _ => false

/-- An attribute the TextButton loop leaves unchanged without registering
anything: everything except a nonempty string `prefixIcon`/`suffixIcon`
value whose mapped name is usable. -/
def tbStableAttr : JAttr → Bool
  | .attr n v =>
    if n == "prefixIcon" || n == "suffixIcon" then
      match v with
      | .str s => s == "" || getNewIconComponentName (some s) == "UnknownIcon"
      | _ => true
    else true
  | .spreadAttr _ => true

/-- An attribute the TextButton loop flags as a problem skip. -/
def tbProbAttr : JAttr → Bool
  | .attr n v =>
    if n == "prefixIcon" || n == "suffixIcon" then
      match v with
      | .str s => (s != "") && (getNewIconComponentName (some s) == "UnknownIcon")
      | .container (.elem _) => false
      | _ => true
    else false
  | .spreadAttr _ => false

/-- Is this element's own top level left unchanged (and registry-silent) by
a pass for rule `r`? -/
def doneTopFor (r : Rule) (e : JElem) : Bool :=
  if ruleMatches r e.name then
    if getComponentName e == "TextButton" then e.attrs.all tbStableAttr
    else !(isRewrittenOutcome (iconOutcome (parseComponentAttributes e.attrs)))
  else true

/-- Does this element's own top level set the problem flag under rule `r`? -/
def probTopFor (r : Rule) (e : JElem) : Bool :=
  if ruleMatches r e.name then
    if getComponentName e == "TextButton" then e.attrs.any tbProbAttr
    else
      match iconOutcome (parseComponentAttributes e.attrs) with
      | .skipProblem => true
      | _ => false
  else false

mutual
/-- Tree-wide doneness of an element for one rule. -/
def doneElemFor (r : Rule) : JElem → Bool
  | .mk n attrs => doneTopFor r (.mk n attrs) && doneAttrListFor r attrs

/-- Tree-wide doneness of an attribute list for one rule. -/
def doneAttrListFor (r : Rule) : List JAttr → Bool
  | [] => true
  | a :: rest => doneAttrFor r a && doneAttrListFor r rest

/-- Tree-wide doneness of one attribute for one rule. -/
def doneAttrFor (r : Rule) : JAttr → Bool
  | .attr _ v => doneAValFor r v
  | .spreadAttr _ => true

/-- Tree-wide doneness of an attribute value for one rule. -/
def doneAValFor (r : Rule) : AVal → Bool
  | .novalue => true
  | .str _ => true
  | .container e => doneExprFor r e

/-- Tree-wide doneness of an expression for one rule. -/
def doneExprFor (r : Rule) : JExpr → Bool
  | .strLit _ => true
  | .numLit _ => true
  | .other _ => true
  | .obj props => donePropListFor r props
  | .elem e => doneElemFor r e

/-- Tree-wide doneness of a property list for one rule. -/
def donePropListFor (r : Rule) : List JProp → Bool
  | [] => true
  | p :: rest => donePropFor r p && donePropListFor r rest

/-- Tree-wide doneness of one property for one rule. -/
def donePropFor (r : Rule) : JProp → Bool
  | .prop _ v => doneExprFor r v
  | .spread _ => true
end

mutual
/-- Does the tree contain a problem-flag source for rule `r`? -/
def probElemFor (r : Rule) : JElem → Bool
  | .mk n attrs => probTopFor r (.mk n attrs) || probAttrListFor r attrs

/-- Problem source inside an attribute list. -/
def probAttrListFor (r : Rule) : List JAttr → Bool
  | [] => false
  | a :: rest => probAttrFor r a || probAttrListFor r rest

/-- Problem source inside one attribute. -/
def probAttrFor (r : Rule) : JAttr → Bool
  | .attr _ v => probAValFor r v
  | .spreadAttr _ => false

/-- Problem source inside an attribute value. -/
def probAValFor (r : Rule) : AVal → Bool
  | .novalue => false
  | .str _ => false
  | .container e => probExprFor r e

/-- Problem source inside an expression. -/
def probExprFor (r : Rule) : JExpr → Bool
  | .strLit _ => false
  | .numLit _ => false
  | .other _ => false
  | .obj props => probPropListFor r props
  | .elem e => probElemFor r e

/-- Problem source inside a property list. -/
def probPropListFor (r : Rule) : List JProp → Bool
  | [] => false
  | p :: rest => probPropFor r p || probPropListFor r rest

/-- Problem source inside one property. -/
def probPropFor (r : Rule) : JProp → Bool
  | .prop _ v => probExprFor r v
  | .spread _ => false
end

/-! ### The pure tree transform of one pass -/

mutual
/-- The tree component of `passElem` (the pass never branches on the threaded
state, so the resulting tree is a pure function of the input tree). -/
def pastElem (r : Rule) : JElem → JElem
  | .mk n attrs =>
    let attrs1 := pastAttrList r attrs
    if ruleMatches r n then
      if getComponentName (.mk n attrs) == "TextButton" then
        .mk n (processTextButtonAttrs attrs1).attrs
      else
        let parsed := parseComponentAttributes attrs1
        match iconOutcome parsed with
        | .rewritten newName =>
          .mk n (rewriteIconAttrs (isExemptFromDefaultSize (getComponentName (.mk n attrs)))
                  newName parsed)
        | _ => .mk n attrs1
    else .mk n attrs1

/-- Tree component of `passAttrList`. -/
def pastAttrList (r : Rule) : List JAttr → List JAttr
  | [] => []
  | a :: rest => pastAttr r a :: pastAttrList r rest

/-- Tree component of `passAttr`. -/
def pastAttr (r : Rule) : JAttr → JAttr
  | .attr n v => .attr n (pastAVal r v)
  | .spreadAttr k => .spreadAttr k

/-- Tree component of `passAVal`. -/
def pastAVal (r : Rule) : AVal → AVal
  | .novalue => .novalue
  | .str s => .str s
  | .container e => .container (pastExpr r e)

/-- Tree component of `passExpr`. -/
def pastExpr (r : Rule) : JExpr → JExpr
  | .strLit s => .strLit s
  | .numLit k => .numLit k
  | .other t => .other t
  | .obj props => .obj (pastPropList r props)
  | .elem e => .elem (pastElem r e)

/-- Tree component of `passPropList`. -/
def pastPropList (r : Rule) : List JProp → List JProp
  | [] => []
  | p :: rest => pastProp r p :: pastPropList r rest

/-- Tree component of `passProp`. -/
def pastProp (r : Rule) : JProp → JProp
  | .prop k v => .prop k (pastExpr r v)
  | .spread a => .spread a
end

mutual
theorem passElem_fst (r : Rule) (e : JElem) (st : XfmState) :
    (passElem r e st).1 = pastElem r e := by
  match e with
  | .mk n attrs =>
    simp only [passElem, pastElem, passAttrList_fst r attrs st]
    by_cases h1 : ruleMatches r n = true
    · simp only [h1, if_true]
      by_cases h2 : (getComponentName (.mk n attrs) == "TextButton") = true
      · simp [h2]
      · simp only [Bool.not_eq_true] at h2
        simp only [h2, Bool.false_eq_true, if_false]
        cases iconOutcome (parseComponentAttributes (pastAttrList r attrs)) <;> simp
    · simp only [Bool.not_eq_true] at h1
      simp [h1]

theorem passAttrList_fst (r : Rule) (l : List JAttr) (st : XfmState) :
    (passAttrList r l st).1 = pastAttrList r l := by
  match l with
  | [] => rfl
  | a :: rest =>
    simp only [passAttrList, pastAttrList, passAttr_fst r a st,
      passAttrList_fst r rest (passAttr r a st).2]

theorem passAttr_fst (r : Rule) (a : JAttr) (st : XfmState) :
    (passAttr r a st).1 = pastAttr r a := by
  match a with
  | .attr n v => simp only [passAttr, pastAttr, passAVal_fst r v st]
  | .spreadAttr k => rfl

theorem passAVal_fst (r : Rule) (v : AVal) (st : XfmState) :
    (passAVal r v st).1 = pastAVal r v := by
  match v with
  | .novalue => rfl
  | .str s => rfl
  | .container e => simp only [passAVal, pastAVal, passExpr_fst r e st]

theorem passExpr_fst (r : Rule) (x : JExpr) (st : XfmState) :
    (passExpr r x st).1 = pastExpr r x := by
  match x with
  | .strLit s => rfl
  | .numLit k => rfl
  | .other t => rfl
  | .obj props => simp only [passExpr, pastExpr, passPropList_fst r props st]
  | .elem e => simp only [passExpr, pastExpr, passElem_fst r e st]

theorem passPropList_fst (r : Rule) (l : List JProp) (st : XfmState) :
    (passPropList r l st).1 = pastPropList r l := by
  match l with
  | [] => rfl
  | p :: rest =>
    simp only [passPropList, pastPropList, passProp_fst r p st,
      passPropList_fst r rest (passProp r p st).2]

theorem passProp_fst (r : Rule) (p : JProp) (st : XfmState) :
    (passProp r p st).1 = pastProp r p := by
  match p with
  | .prop k v => simp only [passProp, pastProp, passExpr_fst r v st]
  | .spread a => rfl
end

/-! ### The classification commutes with subtree processing

A pass only changes subtrees strictly below the shapes that
`parseComponentAttributes` inspects, so parsing the processed attribute list
gives the processed version of parsing the original list. -/

/-- Image of a parse record under subtree processing. -/
def mapParsed (r : Rule) (p : ParsedProps) : ParsedProps :=
  { iconPropValue := p.iconPropValue
    iconObjectAttributes := pastAttrList r p.iconObjectAttributes
    directColor := p.directColor.map (pastAttr r)
    directSize := p.directSize.map (pastAttr r)
    remainingAttributes := pastAttrList r p.remainingAttributes
    isUnhandledIconProp := p.isUnhandledIconProp
    iconAttributeNode := p.iconAttributeNode.map (pastAttr r) }

theorem toJsxValue_comm (r : Rule) (v : JExpr) :
    toJsxValue (pastExpr r v) = pastAVal r (toJsxValue v) := by
  cases v <;> rfl

theorem hasIconKey_past (r : Rule) (props : List JProp) :
    hasIconKey (pastPropList r props) = hasIconKey props := by
  induction props with
  | nil => rfl
  | cons p ps ih =>
    cases p <;> simp [pastPropList, pastProp, hasIconKey, List.any_cons] at ih ⊢ <;>
      rw [ih]

theorem hasSpreadProp_past (r : Rule) (props : List JProp) :
    hasSpreadProp (pastPropList r props) = hasSpreadProp props := by
  induction props with
  | nil => rfl
  | cons p ps ih =>
    cases p <;> simp [pastPropList, pastProp, hasSpreadProp, List.any_cons] at ih ⊢ <;>
      rw [ih]

theorem length_pastPropList (r : Rule) (props : List JProp) :
    (pastPropList r props).length = props.length := by
  induction props with
  | nil => rfl
  | cons p ps ih => simp [pastPropList, ih]

theorem pastAttrList_append (r : Rule) (l1 l2 : List JAttr) :
    pastAttrList r (l1 ++ l2) = pastAttrList r l1 ++ pastAttrList r l2 := by
  induction l1 with
  | nil => rfl
  | cons a rest ih => simp [pastAttrList, ih]

theorem scan_comm (r : Rule) (props : List JProp) :
    ∀ (v : Option String) (b : Bool) (l : List JAttr),
    (pastPropList r props).foldl scanIconObjectStep (v, b, pastAttrList r l)
      = ((props.foldl scanIconObjectStep (v, b, l)).1,
         (props.foldl scanIconObjectStep (v, b, l)).2.1,
         pastAttrList r (props.foldl scanIconObjectStep (v, b, l)).2.2) := by
  induction props with
  | nil => intro v b l; rfl
  | cons p ps ih =>
    intro v b l
    match p with
    | .prop k pv =>
      simp only [pastPropList, pastProp, List.foldl, scanIconObjectStep]
      by_cases hk : (k == "icon") = true
      · simp only [hk, if_true]
        match pv with
        | .strLit s => exact ih (some s) true l
        | .numLit m =>
          rw [show pastExpr r (.numLit m) = .numLit m from rfl]
          rw [show (toJsxValue (JExpr.numLit m)) = .container (.numLit m) from rfl]
          have h2 := ih v b (l ++ [.attr k (.container (.numLit m))])
          rw [pastAttrList_append] at h2
          exact h2
        | .obj ps2 =>
          have hc : toJsxValue (pastExpr r (.obj ps2))
              = pastAVal r (toJsxValue (.obj ps2)) := toJsxValue_comm r _
          rw [show pastExpr r (.obj ps2) = .obj (pastPropList r ps2) from rfl] at hc ⊢
          rw [hc]
          have h2 := ih v b (l ++ [.attr k (toJsxValue (.obj ps2))])
          rw [pastAttrList_append] at h2
          exact h2
        | .elem e2 =>
          have hc : toJsxValue (pastExpr r (.elem e2))
              = pastAVal r (toJsxValue (.elem e2)) := toJsxValue_comm r _
          rw [show pastExpr r (.elem e2) = .elem (pastElem r e2) from rfl] at hc ⊢
          rw [hc]
          have h2 := ih v b (l ++ [.attr k (toJsxValue (.elem e2))])
          rw [pastAttrList_append] at h2
          exact h2
        | .other t =>
          have h2 := ih v b (l ++ [.attr k (toJsxValue (.other t))])
          rw [pastAttrList_append] at h2
          exact h2
      · simp only [Bool.not_eq_true] at hk
        simp only [hk, Bool.false_eq_true, if_false]
        have hc : toJsxValue (pastExpr r pv) = pastAVal r (toJsxValue pv) := toJsxValue_comm r _
        rw [hc]
        have h2 := ih v b (l ++ [.attr k (toJsxValue pv)])
        rw [pastAttrList_append] at h2
        exact h2
    | .spread a =>
      simp only [pastPropList, pastProp, List.foldl, scanIconObjectStep]
      have h2 := ih v b (l ++ [.spreadAttr a])
      rw [pastAttrList_append] at h2
      exact h2

theorem parse_step_comm (r : Rule) (acc : ParsedProps) (a : JAttr) :
    parseAttrStep (mapParsed r acc) (pastAttr r a) = mapParsed r (parseAttrStep acc a) := by
  match a with
  | .spreadAttr k =>
    simp [parseAttrStep, pastAttr, mapParsed, pastAttrList_append, pastAttrList]
  | .attr n v =>
    simp only [pastAttr, parseAttrStep]
    by_cases hn : (n == "icon") = true
    · simp only [hn, if_true]
      match v with
      | .str s => simp [mapParsed, pastAVal, pastAttr]
      | .novalue => simp [mapParsed, pastAVal, pastAttr]
      | .container (.strLit s) => simp [mapParsed, pastAVal, pastExpr, pastAttr]
      | .container (.numLit m) => simp [mapParsed, pastAVal, pastExpr, pastAttr]
      | .container (.other t) => simp [mapParsed, pastAVal, pastExpr, pastAttr]
      | .container (.elem e) => simp [mapParsed, pastAVal, pastExpr, pastAttr]
      | .container (.obj props) =>
        simp only [pastAVal, pastExpr]
        by_cases hp : props.length > 0
        · have hp2 : (pastPropList r props).length > 0 := by
            rw [length_pastPropList]; exact hp
          simp only [hp, hp2, if_true, if_pos]
          have hsc := scan_comm r props acc.iconPropValue false []
          rw [show pastAttrList r ([] : List JAttr) = [] from rfl] at hsc
          simp only [mapParsed] at hsc ⊢
          rw [hsc, hasIconKey_past, hasSpreadProp_past]
          simp [pastAttrList_append, pastAttr, pastAVal, pastExpr]
        · have hp0 : props = [] := by
            cases props with
            | nil => rfl
            | cons q qs => exact absurd (by simp) hp
          subst hp0
          simp [mapParsed, pastPropList, pastAttr, pastAVal, pastExpr]
    · simp only [Bool.not_eq_true] at hn
      simp only [hn, Bool.false_eq_true, if_false]
      by_cases hc : (n == "color") = true
      · simp [hc, mapParsed, pastAttr]
      · simp only [Bool.not_eq_true] at hc
        by_cases hs : (n == "size") = true
        · simp [hc, hs, mapParsed, pastAttr]
        · simp only [Bool.not_eq_true] at hs
          simp [hc, hs, mapParsed, pastAttrList_append, pastAttrList, pastAttr]

theorem parse_comm (r : Rule) (attrs : List JAttr) :
    parseComponentAttributes (pastAttrList r attrs)
      = mapParsed r (parseComponentAttributes attrs) := by
  have hgen : ∀ (l : List JAttr) (acc : ParsedProps),
      (pastAttrList r l).foldl parseAttrStep (mapParsed r acc)
        = mapParsed r (l.foldl parseAttrStep acc) := by
    intro l
    induction l with
    | nil => intro acc; rfl
    | cons a rest ih =>
      intro acc
      simp only [pastAttrList, List.foldl]
      rw [parse_step_comm r acc a]
      exact ih (parseAttrStep acc a)
  have hinit : (mapParsed r
      { iconPropValue := none, iconObjectAttributes := [], directColor := none,
        directSize := none, remainingAttributes := [], isUnhandledIconProp := false,
        iconAttributeNode := none })
      = { iconPropValue := none, iconObjectAttributes := [], directColor := none,
          directSize := none, remainingAttributes := [], isUnhandledIconProp := false,
          iconAttributeNode := none } := rfl
  unfold parseComponentAttributes
  rw [← hinit, hgen, hinit]

/-! ### Consequences of the commuting lemma -/

theorem isJsxContainerVal_map (r : Rule) (o : Option JAttr) :
    isJsxContainerVal (o.map (pastAttr r)) = isJsxContainerVal o := by
  match o with
  | none => rfl
  | some (.spreadAttr k) => rfl
  | some (.attr n v) =>
    match v with
    | .novalue => rfl
    | .str s => rfl
    | .container (.strLit s) => rfl
    | .container (.numLit m) => rfl
    | .container (.obj ps) => rfl
    | .container (.elem e) => rfl
    | .container (.other t) => rfl

theorem isJsxContainerVal_pastAttr (r : Rule) (a : JAttr) :
    isJsxContainerVal (some (pastAttr r a)) = isJsxContainerVal (some a) := by
  match a with
  | .spreadAttr k => rfl
  | .attr n v =>
    match v with
    | .novalue => rfl
    | .str s => rfl
    | .container (.strLit s) => rfl
    | .container (.numLit m) => rfl
    | .container (.obj ps) => rfl
    | .container (.elem e) => rfl
    | .container (.other t) => rfl

theorem iconOutcome_mapParsed (r : Rule) (p : ParsedProps) :
    iconOutcome (mapParsed r p) = iconOutcome p := by
  unfold iconOutcome mapParsed
  match hn : p.iconAttributeNode with
  | none => rfl
  | some a =>
    have hm : Option.map (pastAttr r) (some a) = some (pastAttr r a) := rfl
    rw [hm, isJsxContainerVal_pastAttr]

theorem iconOutcome_past (r : Rule) (attrs : List JAttr) :
    iconOutcome (parseComponentAttributes (pastAttrList r attrs))
      = iconOutcome (parseComponentAttributes attrs) := by
  rw [parse_comm, iconOutcome_mapParsed]

theorem tbStableAttr_past (r : Rule) (a : JAttr) :
    tbStableAttr (pastAttr r a) = tbStableAttr a := by
  match a with
  | .spreadAttr k => rfl
  | .attr n v =>
    match v with
    | .novalue => rfl
    | .str s => rfl
    | .container (.strLit s) => rfl
    | .container (.numLit m) => rfl
    | .container (.obj ps) => rfl
    | .container (.elem e) => rfl
    | .container (.other t) => rfl

theorem tbProbAttr_past (r : Rule) (a : JAttr) :
    tbProbAttr (pastAttr r a) = tbProbAttr a := by
  match a with
  | .spreadAttr k => rfl
  | .attr n v =>
    match v with
    | .novalue => rfl
    | .str s => rfl
    | .container (.strLit s) => rfl
    | .container (.numLit m) => rfl
    | .container (.obj ps) => rfl
    | .container (.elem e) => rfl
    | .container (.other t) => rfl

theorem all_tbStable_past (r : Rule) (l : List JAttr) :
    (pastAttrList r l).all tbStableAttr = l.all tbStableAttr := by
  induction l with
  | nil => rfl
  | cons a rest ih => simp [pastAttrList, List.all_cons, tbStableAttr_past, ih]

/-! ### Characterization of the TextButton loop as a per-attribute map -/

/-- Per-attribute action of the TextButton loop on the attribute list. -/
def tbMapAttr (a : JAttr) : JAttr :=
  match a with
  | .attr n v =>
    if n == "prefixIcon" || n == "suffixIcon" then
      match v with
      | .str s =>
        if s != "" then
          let m := getNewIconComponentName (some s)
          if m == "UnknownIcon" then a
          else .attr n (.container (.elem (.mk (.ident m) [])))
        else a
      | _ => a
    else a
  | .spreadAttr _ => a

/-- Per-attribute registry contribution of the TextButton loop. -/
def tbRegAttr (a : JAttr) : List String :=
  match a with
  | .attr n v =>
    if n == "prefixIcon" || n == "suffixIcon" then
      match v with
      | .str s =>
        if s != "" then
          let m := getNewIconComponentName (some s)
          if m == "UnknownIcon" then [] else [m]
        else []
      | _ => []
    else []
  | .spreadAttr _ => []

theorem tb_spec (l : List JAttr) : ∀ acc : TBResult,
    l.foldl textButtonStep acc
      = { attrs := acc.attrs ++ l.map tbMapAttr,
          skipped := acc.skipped || l.any tbProbAttr,
          problem := acc.problem || l.any tbProbAttr,
          regAdds := acc.regAdds ++ (l.map tbRegAttr).flatten } := by
  induction l with
  | nil => intro acc; simp
  | cons a rest ih =>
    intro acc
    rw [List.foldl_cons, ih]
    match a with
    | .spreadAttr k =>
      simp [textButtonStep, tbMapAttr, tbRegAttr, tbProbAttr]
    | .attr n v =>
      by_cases hn : (n == "prefixIcon" || n == "suffixIcon") = true
      · match v with
        | .str s =>
          by_cases hs : (s != "") = true
          · by_cases hm : (getNewIconComponentName (some s) == "UnknownIcon") = true
            · simp [textButtonStep, tbMapAttr, tbRegAttr, tbProbAttr, hn, hs, hm]
            · simp only [Bool.not_eq_true] at hm
              simp [textButtonStep, tbMapAttr, tbRegAttr, tbProbAttr, hn, hs, hm]
          · simp only [Bool.not_eq_true] at hs
            simp [textButtonStep, tbMapAttr, tbRegAttr, tbProbAttr, hn, hs]
        | .novalue => simp [textButtonStep, tbMapAttr, tbRegAttr, tbProbAttr, hn]
        | .container (.strLit s) =>
          simp [textButtonStep, tbMapAttr, tbRegAttr, tbProbAttr, hn]
        | .container (.numLit m) =>
          simp [textButtonStep, tbMapAttr, tbRegAttr, tbProbAttr, hn]
        | .container (.obj ps) =>
          simp [textButtonStep, tbMapAttr, tbRegAttr, tbProbAttr, hn]
        | .container (.elem e) =>
          simp [textButtonStep, tbMapAttr, tbRegAttr, tbProbAttr, hn]
        | .container (.other t) =>
          simp [textButtonStep, tbMapAttr, tbRegAttr, tbProbAttr, hn]
      · simp only [Bool.not_eq_true] at hn
        simp [textButtonStep, tbMapAttr, tbRegAttr, tbProbAttr, hn]

theorem processTB_spec (l : List JAttr) :
    processTextButtonAttrs l
      = { attrs := l.map tbMapAttr,
          skipped := l.any tbProbAttr,
          problem := l.any tbProbAttr,
          regAdds := (l.map tbRegAttr).flatten } := by
  unfold processTextButtonAttrs
  rw [tb_spec]
  rfl

/-! ### List-shape conversions for the mutual predicates -/

theorem safeAttrList_eq_all (l : List JAttr) : safeAttrList l = l.all safeAttr := by
  induction l with
  | nil => rfl
  | cons a rest ih => simp [safeAttrList, List.all_cons, ih]

theorem safePropList_eq_all (l : List JProp) : safePropList l = l.all safeProp := by
  induction l with
  | nil => rfl
  | cons p rest ih => simp [safePropList, List.all_cons, ih]

theorem doneAttrListFor_eq_all (r : Rule) (l : List JAttr) :
    doneAttrListFor r l = l.all (doneAttrFor r) := by
  induction l with
  | nil => rfl
  | cons a rest ih => simp [doneAttrListFor, List.all_cons, ih]

theorem donePropListFor_eq_all (r : Rule) (l : List JProp) :
    donePropListFor r l = l.all (donePropFor r) := by
  induction l with
  | nil => rfl
  | cons p rest ih => simp [donePropListFor, List.all_cons, ih]

theorem probAttrListFor_eq_any (r : Rule) (l : List JAttr) :
    probAttrListFor r l = l.any (probAttrFor r) := by
  induction l with
  | nil => rfl
  | cons a rest ih => simp [probAttrListFor, List.any_cons, ih]

theorem probPropListFor_eq_any (r : Rule) (l : List JProp) :
    probPropListFor r l = l.any (probPropFor r) := by
  induction l with
  | nil => rfl
  | cons p rest ih => simp [probPropListFor, List.any_cons, ih]

/-! ### Generic facts about the pieces produced by `parseComponentAttributes` -/

/-- Push condition for one object property under a predicate `Q` on the
attribute it would contribute to the inner element (consumed icon-string
properties contribute nothing). -/
def qProp (Q : JAttr → Bool) : JProp → Bool
  | .prop k pv =>
    if k == "icon" then
      match pv with
      | .strLit _ => true
      | _ => Q (.attr k (toJsxValue pv))
    else Q (.attr k (toJsxValue pv))
  | .spread t => Q (.spreadAttr t)

/-- Condition on one attribute guaranteeing that all attributes its icon
object contributes satisfy `Q`. -/
def objPushOK (Q : JAttr → Bool) : JAttr → Bool
  | .attr n v =>
    if n == "icon" then
      match v with
      | .container (.obj props) => props.all (qProp Q)
      | _ => true
    else true
  | .spreadAttr _ => true

theorem scan_pushes_all (Q : JAttr → Bool) (props : List JProp) :
    ∀ (v : Option String) (b : Bool) (l : List JAttr),
    props.all (qProp Q) = true → l.all Q = true →
    ((props.foldl scanIconObjectStep (v, b, l)).2.2).all Q = true := by
  induction props with
  | nil => intro v b l _ hl; exact hl
  | cons p ps ih =>
    intro v b l hp hl
    simp only [List.all_cons, Bool.and_eq_true] at hp
    match p with
    | .spread t =>
      simp only [List.foldl, scanIconObjectStep]
      refine ih _ _ _ hp.2 ?_
      have hq : Q (.spreadAttr t) = true := by simpa [qProp] using hp.1
      simp [List.all_append, hl, hq]
    | .prop k pv =>
      simp only [List.foldl, scanIconObjectStep]
      by_cases hk : (k == "icon") = true
      · simp only [hk, if_true]
        match pv with
        | .strLit s => exact ih _ _ _ hp.2 hl
        | .numLit m =>
          refine ih _ _ _ hp.2 ?_
          have hq : Q (.attr k (toJsxValue (.numLit m))) = true := by simpa [qProp, hk] using hp.1
          simp [List.all_append, hl, hq]
        | .obj ps2 =>
          refine ih _ _ _ hp.2 ?_
          have hq : Q (.attr k (toJsxValue (.obj ps2))) = true := by simpa [qProp, hk] using hp.1
          simp [List.all_append, hl, hq]
        | .elem e2 =>
          refine ih _ _ _ hp.2 ?_
          have hq : Q (.attr k (toJsxValue (.elem e2))) = true := by simpa [qProp, hk] using hp.1
          simp [List.all_append, hl, hq]
        | .other t =>
          refine ih _ _ _ hp.2 ?_
          have hq : Q (.attr k (toJsxValue (.other t))) = true := by simpa [qProp, hk] using hp.1
          simp [List.all_append, hl, hq]
      · simp only [Bool.not_eq_true] at hk
        simp only [hk, Bool.false_eq_true, if_false]
        refine ih _ _ _ hp.2 ?_
        have hq : Q (.attr k (toJsxValue pv)) = true := by simpa [qProp, hk] using hp.1
        simp [List.all_append, hl, hq]

/-- Option-level predicate holder. -/
def optAll (Q : JAttr → Bool) : Option JAttr → Bool
  | none => true
  | some a => Q a

theorem parse_pieces_all (Q : JAttr → Bool) (l : List JAttr) :
    ∀ acc : ParsedProps,
    l.all (fun a => Q a && objPushOK Q a) = true →
    acc.remainingAttributes.all Q = true →
    acc.iconObjectAttributes.all Q = true →
    optAll Q acc.directColor = true →
    optAll Q acc.directSize = true →
    optAll Q acc.iconAttributeNode = true →
    ((l.foldl parseAttrStep acc).remainingAttributes.all Q = true)
      ∧ ((l.foldl parseAttrStep acc).iconObjectAttributes.all Q = true)
      ∧ optAll Q (l.foldl parseAttrStep acc).directColor = true
      ∧ optAll Q (l.foldl parseAttrStep acc).directSize = true
      ∧ optAll Q (l.foldl parseAttrStep acc).iconAttributeNode = true := by
  induction l with
  | nil => intro acc _ h1 h2 h3 h4 h5; exact ⟨h1, h2, h3, h4, h5⟩
  | cons a rest ih =>
    intro acc hall h1 h2 h3 h4 h5
    simp only [List.all_cons, Bool.and_eq_true] at hall
    obtain ⟨⟨hQ, hPush⟩, hrest⟩ := hall
    simp only [List.foldl]
    refine ih _ hrest ?_ ?_ ?_ ?_ ?_ <;> clear ih
    all_goals
      match a with
      | .spreadAttr t =>
        simp_all [parseAttrStep, List.all_append]
      | .attr n v =>
        by_cases hn : (n == "icon") = true
        · simp only [parseAttrStep, hn, if_true]
          match v with
          | .str s => simp_all [optAll]
          | .novalue => simp_all [optAll]
          | .container (.strLit s) => simp_all [optAll]
          | .container (.numLit m) => simp_all [optAll]
          | .container (.elem e) => simp_all [optAll]
          | .container (.other t) => simp_all [optAll]
          | .container (.obj props) =>
            by_cases hp : props.length > 0
            · simp only [hp, if_pos]
              simp only [objPushOK, hn, if_true] at hPush
              have hsc := scan_pushes_all Q props acc.iconPropValue false [] hPush rfl
              simp_all [optAll, List.all_append]
            · have hp0 : props = [] := by
                cases props with
                | nil => rfl
                | cons q qs => exact absurd (by simp) hp
              subst hp0
              simp_all [optAll]
        · simp only [Bool.not_eq_true] at hn
          by_cases hc : (n == "color") = true
          · simp only [parseAttrStep, hn, Bool.false_eq_true, if_false, hc, if_true]
            simp_all [optAll]
          · simp only [Bool.not_eq_true] at hc
            by_cases hs : (n == "size") = true
            · simp only [parseAttrStep, hn, Bool.false_eq_true, if_false, hc, hs, if_true]
              simp_all [optAll]
            · simp only [Bool.not_eq_true] at hs
              simp only [parseAttrStep, hn, Bool.false_eq_true, if_false, hc, hs]
              simp_all [optAll, List.all_append]

/-! ### Name-based facts about parse pieces and the synthesized wrapper -/

/-- Attribute-name test. -/
def attrNamed (n : String) : JAttr → Bool
  | .attr m _ => m == n
  | .spreadAttr _ => false

/-- An attribute that neither the icon path nor the TextButton loop would
ever pick up by name. -/
def notIconish : JAttr → Bool
  | .attr n _ => !(n == "icon") && !(n == "prefixIcon" || n == "suffixIcon")
  | .spreadAttr _ => true

/-- An attribute the parse sends to the remainder: not named icon, color or
size (spread attributes included). -/
def notICS : JAttr → Bool
  | .attr n _ => !(n == "icon") && !(n == "color") && !(n == "size")
  | .spreadAttr _ => true

theorem parse_objAttrs_all (Q : JAttr → Bool) (l : List JAttr) :
    ∀ acc : ParsedProps,
    l.all (objPushOK Q) = true →
    acc.iconObjectAttributes.all Q = true →
    ((l.foldl parseAttrStep acc).iconObjectAttributes).all Q = true := by
  induction l with
  | nil => intro acc _ h; exact h
  | cons a rest ih =>
    intro acc hall hacc
    simp only [List.all_cons, Bool.and_eq_true] at hall
    simp only [List.foldl]
    refine ih _ hall.2 ?_
    match a with
    | .spreadAttr t => simpa [parseAttrStep] using hacc
    | .attr n v =>
      by_cases hn : (n == "icon") = true
      · simp only [parseAttrStep, hn, if_true]
        match v with
        | .str s => simpa using hacc
        | .novalue => simpa using hacc
        | .container (.strLit s) => simpa using hacc
        | .container (.numLit m) => simpa using hacc
        | .container (.elem e) => simpa using hacc
        | .container (.other t) => simpa using hacc
        | .container (.obj props) =>
          by_cases hp : props.length > 0
          · simp only [hp, if_pos]
            have hpush : props.all (qProp Q) = true := by
              have := hall.1
              simpa [objPushOK, hn] using this
            have hsc := scan_pushes_all Q props acc.iconPropValue false [] hpush rfl
            simp [List.all_append, hacc, hsc]
          · have hp0 : props = [] := by
              cases props with
              | nil => rfl
              | cons q qs => exact absurd (by simp) hp
            subst hp0
            simpa using hacc
      · simp only [Bool.not_eq_true] at hn
        by_cases hc : (n == "color") = true
        · simpa [parseAttrStep, hn, hc] using hacc
        · simp only [Bool.not_eq_true] at hc
          by_cases hs : (n == "size") = true
          · simpa [parseAttrStep, hn, hc, hs] using hacc
          · simp only [Bool.not_eq_true] at hs
            simpa [parseAttrStep, hn, hc, hs] using hacc

theorem parse_directColor_name (l : List JAttr) :
    ∀ acc : ParsedProps,
    optAll (attrNamed "color") acc.directColor = true →
    optAll (attrNamed "color") ((l.foldl parseAttrStep acc).directColor) = true := by
  induction l with
  | nil => intro acc h; exact h
  | cons a rest ih =>
    intro acc hacc
    simp only [List.foldl]
    refine ih _ ?_
    match a with
    | .spreadAttr t => simpa [parseAttrStep] using hacc
    | .attr n v =>
      by_cases hn : (n == "icon") = true
      · simp only [parseAttrStep, hn, if_true]
        match v with
        | .str s => simpa using hacc
        | .novalue => simpa using hacc
        | .container (.strLit s) => simpa using hacc
        | .container (.numLit m) => simpa using hacc
        | .container (.elem e) => simpa using hacc
        | .container (.other t) => simpa using hacc
        | .container (.obj props) =>
          by_cases hp : props.length > 0
          · simpa [hp] using hacc
          · have hp0 : props = [] := by
              cases props with
              | nil => rfl
              | cons q qs => exact absurd (by simp) hp
            subst hp0
            simpa using hacc
      · simp only [Bool.not_eq_true] at hn
        by_cases hc : (n == "color") = true
        · simp [parseAttrStep, hn, hc, optAll, attrNamed]
        · simp only [Bool.not_eq_true] at hc
          by_cases hs : (n == "size") = true
          · simpa [parseAttrStep, hn, hc, hs] using hacc
          · simp only [Bool.not_eq_true] at hs
            simpa [parseAttrStep, hn, hc, hs] using hacc

theorem parse_directSize_name (l : List JAttr) :
    ∀ acc : ParsedProps,
    optAll (attrNamed "size") acc.directSize = true →
    optAll (attrNamed "size") ((l.foldl parseAttrStep acc).directSize) = true := by
  induction l with
  | nil => intro acc h; exact h
  | cons a rest ih =>
    intro acc hacc
    simp only [List.foldl]
    refine ih _ ?_
    match a with
    | .spreadAttr t => simpa [parseAttrStep] using hacc
    | .attr n v =>
      by_cases hn : (n == "icon") = true
      · simp only [parseAttrStep, hn, if_true]
        match v with
        | .str s => simpa using hacc
        | .novalue => simpa using hacc
        | .container (.strLit s) => simpa using hacc
        | .container (.numLit m) => simpa using hacc
        | .container (.elem e) => simpa using hacc
        | .container (.other t) => simpa using hacc
        | .container (.obj props) =>
          by_cases hp : props.length > 0
          · simpa [hp] using hacc
          · have hp0 : props = [] := by
              cases props with
              | nil => rfl
              | cons q qs => exact absurd (by simp) hp
            subst hp0
            simpa using hacc
      · simp only [Bool.not_eq_true] at hn
        by_cases hc : (n == "color") = true
        · simpa [parseAttrStep, hn, hc] using hacc
        · simp only [Bool.not_eq_true] at hc
          by_cases hs : (n == "size") = true
          · simp [parseAttrStep, hn, hc, hs, optAll, attrNamed]
          · simp only [Bool.not_eq_true] at hs
            simpa [parseAttrStep, hn, hc, hs] using hacc

theorem parse_remaining_notICS (l : List JAttr) :
    ∀ acc : ParsedProps,
    acc.remainingAttributes.all notICS = true →
    ((l.foldl parseAttrStep acc).remainingAttributes).all notICS = true := by
  induction l with
  | nil => intro acc h; exact h
  | cons a rest ih =>
    intro acc hacc
    simp only [List.foldl]
    refine ih _ ?_
    match a with
    | .spreadAttr t => simp [parseAttrStep, List.all_append, hacc, notICS]
    | .attr n v =>
      by_cases hn : (n == "icon") = true
      · simp only [parseAttrStep, hn, if_true]
        match v with
        | .str s => simpa using hacc
        | .novalue => simpa using hacc
        | .container (.strLit s) => simpa using hacc
        | .container (.numLit m) => simpa using hacc
        | .container (.elem e) => simpa using hacc
        | .container (.other t) => simpa using hacc
        | .container (.obj props) =>
          by_cases hp : props.length > 0
          · simpa [hp] using hacc
          · have hp0 : props = [] := by
              cases props with
              | nil => rfl
              | cons q qs => exact absurd (by simp) hp
            subst hp0
            simpa using hacc
      · simp only [Bool.not_eq_true] at hn
        by_cases hc : (n == "color") = true
        · simpa [parseAttrStep, hn, hc] using hacc
        · simp only [Bool.not_eq_true] at hc
          by_cases hs : (n == "size") = true
          · simpa [parseAttrStep, hn, hc, hs] using hacc
          · simp only [Bool.not_eq_true] at hs
            simp [parseAttrStep, hn, hc, hs, List.all_append, hacc, notICS, hn]

theorem allImp {α : Type} {p q : α → Bool} (h : ∀ a, p a = true → q a = true) :
    ∀ l : List α, l.all p = true → l.all q = true := by
  intro l hl
  rw [List.all_eq_true] at hl ⊢
  intro a ha
  exact h a (hl a ha)

theorem notIconish_tbStable (a : JAttr) (h : notIconish a = true) : tbStableAttr a = true := by
  match a with
  | .spreadAttr t => rfl
  | .attr n v =>
    simp only [notIconish, Bool.and_eq_true, Bool.not_eq_true'] at h
    simp [tbStableAttr, h.2]

theorem notIconish_notTbProb (a : JAttr) (h : notIconish a = true) : tbProbAttr a = false := by
  match a with
  | .spreadAttr t => rfl
  | .attr n v =>
    simp only [notIconish, Bool.and_eq_true, Bool.not_eq_true'] at h
    simp [tbProbAttr, h.2]

theorem notIconish_not_icon (a : JAttr) (h : notIconish a = true) :
    attrNamed "icon" a = false := by
  match a with
  | .spreadAttr t => rfl
  | .attr n v =>
    simp only [notIconish, Bool.and_eq_true, Bool.not_eq_true'] at h
    simp [attrNamed, h.1]

theorem notICS_not_icon (a : JAttr) (h : notICS a = true) : attrNamed "icon" a = false := by
  match a with
  | .spreadAttr t => rfl
  | .attr n v =>
    simp only [notICS, Bool.and_eq_true, Bool.not_eq_true'] at h
    simp [attrNamed, h.1]

theorem colorOrSize_not_icon (a : JAttr)
    (h : (attrNamed "color" a || attrNamed "size" a) = true) :
    attrNamed "icon" a = false := by
  match a with
  | .spreadAttr t => rfl
  | .attr n v =>
    simp only [attrNamed, Bool.or_eq_true] at h ⊢
    rcases h with h | h
    · have : n = "color" := by simpa using h
      subst this
      decide
    · have : n = "size" := by simpa using h
      subst this
      decide

theorem parse_core_noIcon (l : List JAttr) :
    ∀ acc : ParsedProps, l.all (fun a => !(attrNamed "icon" a)) = true →
    ((l.foldl parseAttrStep acc).iconPropValue = acc.iconPropValue
      ∧ (l.foldl parseAttrStep acc).isUnhandledIconProp = acc.isUnhandledIconProp
      ∧ (l.foldl parseAttrStep acc).iconAttributeNode = acc.iconAttributeNode) := by
  induction l with
  | nil => intro acc _; exact ⟨rfl, rfl, rfl⟩
  | cons a rest ih =>
    intro acc hall
    simp only [List.all_cons, Bool.and_eq_true, Bool.not_eq_true'] at hall
    simp only [List.foldl]
    have step : (parseAttrStep acc a).iconPropValue = acc.iconPropValue
        ∧ (parseAttrStep acc a).isUnhandledIconProp = acc.isUnhandledIconProp
        ∧ (parseAttrStep acc a).iconAttributeNode = acc.iconAttributeNode := by
      match a with
      | .spreadAttr t => exact ⟨rfl, rfl, rfl⟩
      | .attr n v =>
        have hn : (n == "icon") = false := by simpa [attrNamed] using hall.1
        by_cases hc : (n == "color") = true
        · simp [parseAttrStep, hn, hc]
        · simp only [Bool.not_eq_true] at hc
          by_cases hs : (n == "size") = true
          · simp [parseAttrStep, hn, hc, hs]
          · simp only [Bool.not_eq_true] at hs
            simp [parseAttrStep, hn, hc, hs]
    have hr := ih (parseAttrStep acc a) (by
      have : rest.all (fun a => !(attrNamed "icon" a)) = true := by
        rw [List.all_eq_true]
        intro x hx
        have := hall.2
        rw [List.all_eq_true] at this
        exact this x hx
      exact this)
    exact ⟨hr.1.trans step.1, hr.2.1.trans step.2.1, hr.2.2.trans step.2.2⟩

theorem outcome_rewritten_output (rem left : List JAttr) (w : JElem)
    (hrem : rem.all notICS = true)
    (hleft : left.all (fun a => attrNamed "color" a || attrNamed "size" a) = true) :
    iconOutcome (parseComponentAttributes
      (rem ++ [.attr "icon" (.container (.elem w))] ++ left)) = .skipBenign := by
  unfold parseComponentAttributes
  rw [List.foldl_append, List.foldl_append]
  have hrem2 : rem.all (fun a => !(attrNamed "icon" a)) = true :=
    allImp (fun a ha => by rw [notICS_not_icon a ha]; rfl) rem hrem
  have hleft2 : left.all (fun a => !(attrNamed "icon" a)) = true :=
    allImp (fun a ha => by rw [colorOrSize_not_icon a ha]; rfl) left hleft
  have h1 := parse_core_noIcon rem
    { iconPropValue := none, iconObjectAttributes := [], directColor := none,
      directSize := none, remainingAttributes := [], isUnhandledIconProp := false,
      iconAttributeNode := none } hrem2
  set acc1 := rem.foldl parseAttrStep
    { iconPropValue := none, iconObjectAttributes := [], directColor := none,
      directSize := none, remainingAttributes := [], isUnhandledIconProp := false,
      iconAttributeNode := none } with hacc1
  have hstep : (List.foldl parseAttrStep acc1 [.attr "icon" (.container (.elem w))])
      = { acc1 with
          isUnhandledIconProp := true,
          iconAttributeNode := some (.attr "icon" (.container (.elem w))) } := by
    simp [parseAttrStep]
  rw [hstep]
  have h2 := parse_core_noIcon left
    { acc1 with
        isUnhandledIconProp := true,
        iconAttributeNode := some (.attr "icon" (.container (.elem w))) } hleft2
  unfold iconOutcome
  rw [h2.2.2, h2.2.1]
  simp [isJsxContainerVal]

theorem wrapper_top (r2 : Rule) (nm : String) (innerAttrs : List JAttr)
    (h : innerAttrs.all notIconish = true) :
    doneTopFor r2 (.mk (.ident nm) innerAttrs) = true
      ∧ probTopFor r2 (.mk (.ident nm) innerAttrs) = false := by
  have hnode : (parseComponentAttributes innerAttrs).iconAttributeNode = none := by
    have h2 : innerAttrs.all (fun a => !(attrNamed "icon" a)) = true :=
      allImp (fun a ha => by rw [notIconish_not_icon a ha]; rfl) innerAttrs h
    exact (parse_core_noIcon innerAttrs _ h2).2.2
  have houtcome : iconOutcome (parseComponentAttributes innerAttrs) = .noIconProp := by
    unfold iconOutcome
    rw [hnode]
  unfold doneTopFor probTopFor
  by_cases hm : ruleMatches r2 (JElem.mk (.ident nm) innerAttrs).name = true
  · simp only [hm, if_true]
    by_cases htb : (getComponentName (.mk (.ident nm) innerAttrs) == "TextButton") = true
    · simp only [htb, if_true]
      constructor
      · exact allImp notIconish_tbStable innerAttrs h
      · have : innerAttrs.all (fun a => !(tbProbAttr a)) = true :=
          allImp (fun a ha => by rw [notIconish_notTbProb a ha]; rfl) innerAttrs h
        rw [List.all_eq_true] at this
        rw [List.any_eq_false]
        intro x hx
        have := this x hx
        simpa using this
    · simp only [Bool.not_eq_true] at htb
      simp only [htb, Bool.false_eq_true, if_false]
      rw [show (JElem.mk (.ident nm) innerAttrs).attrs = innerAttrs from rfl, houtcome]
      exact ⟨rfl, rfl⟩
  · simp only [Bool.not_eq_true] at hm
    simp [hm]

/-! ### Pointwise helpers for the main invariant families -/

theorem iconPropOK_past (r : Rule) (p : JProp) :
    iconPropOK (pastProp r p) = iconPropOK p := by
  match p with
  | .spread t => rfl
  | .prop k pv =>
    match pv with
    | .strLit s => rfl
    | .numLit m => rfl
    | .obj ps => rfl
    | .elem e => rfl
    | .other t => rfl

theorem iconValOK_past (r : Rule) (v : AVal) : iconValOK (pastAVal r v) = iconValOK v := by
  match v with
  | .novalue => rfl
  | .str s => rfl
  | .container (.strLit s) => rfl
  | .container (.numLit m) => rfl
  | .container (.elem e) => rfl
  | .container (.other t) => rfl
  | .container (.obj props) =>
    show (pastPropList r props).all iconPropOK = props.all iconPropOK
    induction props with
    | nil => rfl
    | cons p ps ih =>
      simp only [pastPropList, List.all_cons, iconPropOK_past, ih]

/-- The wrapper element the TextButton loop synthesizes is safe, done for
every rule and free of problem sources. -/
theorem wrapper0_facts (r2 : Rule) (m : String) :
    safeElem (.mk (.ident m) []) = true
      ∧ doneElemFor r2 (.mk (.ident m) []) = true
      ∧ probElemFor r2 (.mk (.ident m) []) = false := by
  have h := wrapper_top r2 m [] (by simp)
  refine ⟨rfl, ?_, ?_⟩
  · simp [doneElemFor, doneAttrListFor, h.1]
  · simp [probElemFor, probAttrListFor, h.2]

theorem tbMapAttr_safe (a : JAttr) (h : safeAttr a = true) : safeAttr (tbMapAttr a) = true := by
  match a with
  | .spreadAttr t => exact h
  | .attr n v =>
    unfold tbMapAttr
    by_cases hn : (n == "prefixIcon" || n == "suffixIcon") = true
    · simp only [hn, if_true]
      match v with
      | .str s =>
        by_cases hs : (s != "") = true
        · by_cases hm : (getNewIconComponentName (some s) == "UnknownIcon") = true
          · simp only [hs, hm, if_true]; exact h
          · simp only [Bool.not_eq_true] at hm
            simp only [hs, hm, Bool.false_eq_true, if_false, if_true]
            have hni : (n == "icon") = false := by
              rcases Bool.or_eq_true_iff.mp hn with h2 | h2
              · have : n = "prefixIcon" := by simpa using h2
                subst this; decide
              · have : n = "suffixIcon" := by simpa using h2
                subst this; decide
            simp [safeAttr, hni, safeAVal, safeExpr, safeElem, safeAttrList]
        · simp only [Bool.not_eq_true] at hs
          simp only [hs, Bool.false_eq_true, if_false]; exact h
      | .novalue => exact h
      | .container e => exact h
    · simp only [Bool.not_eq_true] at hn
      simp only [hn, Bool.false_eq_true, if_false]; exact h

theorem tbMapAttr_stable_out (a : JAttr) : tbStableAttr (tbMapAttr a) = true := by
  match a with
  | .spreadAttr t => rfl
  | .attr n v =>
    unfold tbMapAttr
    by_cases hn : (n == "prefixIcon" || n == "suffixIcon") = true
    · simp only [hn, if_true]
      match v with
      | .str s =>
        by_cases hs : (s != "") = true
        · by_cases hm : (getNewIconComponentName (some s) == "UnknownIcon") = true
          · simp [hs, hm, tbStableAttr, hn]
          · simp only [Bool.not_eq_true] at hm
            simp [hs, hm, tbStableAttr, hn]
        · simp only [Bool.not_eq_true] at hs
          have hs2 : (s == "") = true := by
            cases hx : s == ""
            · rw [bne] at hs
              rw [hx] at hs
              exact absurd hs (by decide)
            · rfl
          simp [hs, tbStableAttr, hn, hs2]
      | .novalue => simp [tbStableAttr, hn]
      | .container e => simp [tbStableAttr, hn]
    · simp only [Bool.not_eq_true] at hn
      simp [hn, tbStableAttr]

theorem tbMapAttr_stable_id (a : JAttr) (h : tbStableAttr a = true) : tbMapAttr a = a := by
  match a with
  | .spreadAttr t => rfl
  | .attr n v =>
    unfold tbMapAttr
    by_cases hn : (n == "prefixIcon" || n == "suffixIcon") = true
    · simp only [hn, if_true]
      match v with
      | .str s =>
        simp only [tbStableAttr, hn, if_true] at h
        by_cases hs : (s != "") = true
        · have hm : (getNewIconComponentName (some s) == "UnknownIcon") = true := by
            rcases Bool.or_eq_true_iff.mp h with h2 | h2
            · exfalso
              have : s = "" := by simpa using h2
              subst this
              simp [bne] at hs
            · exact h2
          simp [hs, hm]
        · simp only [Bool.not_eq_true] at hs
          simp [hs]
      | .novalue => rfl
      | .container e => rfl
    · simp only [Bool.not_eq_true] at hn
      simp [hn]

theorem tbRegAttr_stable_nil (a : JAttr) (h : tbStableAttr a = true) : tbRegAttr a = [] := by
  match a with
  | .spreadAttr t => rfl
  | .attr n v =>
    unfold tbRegAttr
    by_cases hn : (n == "prefixIcon" || n == "suffixIcon") = true
    · simp only [hn, if_true]
      match v with
      | .str s =>
        simp only [tbStableAttr, hn, if_true] at h
        by_cases hs : (s != "") = true
        · have hm : (getNewIconComponentName (some s) == "UnknownIcon") = true := by
            rcases Bool.or_eq_true_iff.mp h with h2 | h2
            · exfalso
              have : s = "" := by simpa using h2
              subst this
              simp [bne] at hs
            · exact h2
          simp [hs, hm]
        · simp only [Bool.not_eq_true] at hs
          simp [hs]
      | .novalue => rfl
      | .container e => rfl
    · simp only [Bool.not_eq_true] at hn
      simp [hn]

theorem tbMapAttr_prob (a : JAttr) : tbProbAttr (tbMapAttr a) = tbProbAttr a := by
  match a with
  | .spreadAttr t => rfl
  | .attr n v =>
    unfold tbMapAttr
    by_cases hn : (n == "prefixIcon" || n == "suffixIcon") = true
    · simp only [hn, if_true]
      match v with
      | .str s =>
        by_cases hs : (s != "") = true
        · by_cases hm : (getNewIconComponentName (some s) == "UnknownIcon") = true
          · have hs3 : ¬ s = "" := by simpa [bne] using hs
            have hm3 : getNewIconComponentName (some s) = "UnknownIcon" := by simpa using hm
            simp [hs3, hm3]
          · simp only [Bool.not_eq_true] at hm
            simp only [hs, hm, Bool.false_eq_true, if_false, if_true]
            simp [tbProbAttr, hn, hs, hm]
        · simp only [Bool.not_eq_true] at hs
          simp [hs]
      | .novalue => simp
      | .container e => simp
    · simp only [Bool.not_eq_true] at hn
      simp [hn]

theorem tbMapAttr_done (r2 : Rule) (a : JAttr) (h : doneAttrFor r2 a = true) :
    doneAttrFor r2 (tbMapAttr a) = true := by
  match a with
  | .spreadAttr t => exact h
  | .attr n v =>
    unfold tbMapAttr
    by_cases hn : (n == "prefixIcon" || n == "suffixIcon") = true
    · simp only [hn, if_true]
      match v with
      | .str s =>
        by_cases hs : (s != "") = true
        · by_cases hm : (getNewIconComponentName (some s) == "UnknownIcon") = true
          · have hs3 : ¬ s = "" := by simpa [bne] using hs
            have hm3 : getNewIconComponentName (some s) = "UnknownIcon" := by simpa using hm
            simpa [hs3, hm3] using h
          · simp only [Bool.not_eq_true] at hm
            simp only [hs, hm, Bool.false_eq_true, if_false, if_true]
            simp [doneAttrFor, doneAValFor, doneExprFor,
              (wrapper0_facts r2 (getNewIconComponentName (some s))).2.1]
        · simp only [Bool.not_eq_true] at hs
          simpa [hs] using h
      | .novalue => exact h
      | .container e => exact h
    · simp only [Bool.not_eq_true] at hn
      simpa [hn] using h

theorem tbMapAttr_notProb (r2 : Rule) (a : JAttr) (h : probAttrFor r2 a = false) :
    probAttrFor r2 (tbMapAttr a) = false := by
  match a with
  | .spreadAttr t => exact h
  | .attr n v =>
    unfold tbMapAttr
    by_cases hn : (n == "prefixIcon" || n == "suffixIcon") = true
    · simp only [hn, if_true]
      match v with
      | .str s =>
        by_cases hs : (s != "") = true
        · by_cases hm : (getNewIconComponentName (some s) == "UnknownIcon") = true
          · have hs3 : ¬ s = "" := by simpa [bne] using hs
            have hm3 : getNewIconComponentName (some s) = "UnknownIcon" := by simpa using hm
            simpa [hs3, hm3] using h
          · simp only [Bool.not_eq_true] at hm
            simp only [hs, hm, Bool.false_eq_true, if_false, if_true]
            simp [probAttrFor, probAValFor, probExprFor,
              (wrapper0_facts r2 (getNewIconComponentName (some s))).2.2]
        · simp only [Bool.not_eq_true] at hs
          simpa [hs] using h
      | .novalue => exact h
      | .container e => exact h
    · simp only [Bool.not_eq_true] at hn
      simpa [hn] using h

theorem safe_objPushOK_safe (a : JAttr) (h : safeAttr a = true) :
    objPushOK safeAttr a = true := by
  match a with
  | .spreadAttr t => rfl
  | .attr n v =>
    unfold objPushOK
    by_cases hn : (n == "icon") = true
    · simp only [hn, if_true]
      match v with
      | .novalue => rfl
      | .str s => rfl
      | .container (.strLit s) => rfl
      | .container (.numLit m) => rfl
      | .container (.elem e) => rfl
      | .container (.other t) => rfl
      | .container (.obj props) =>
        simp only [safeAttr, hn, if_true, iconValOK, safeAVal, safeExpr,
          Bool.and_eq_true, safePropList_eq_all] at h
        rw [List.all_eq_true]
        intro p hp
        have h1 := (List.all_eq_true.mp h.1) p hp
        have h2 := (List.all_eq_true.mp h.2) p hp
        match p with
        | .spread t2 => rfl
        | .prop k pv =>
          unfold qProp
          by_cases hk : (k == "icon") = true
          · simp only [hk, if_true]
            simp only [iconPropOK, hk, if_true] at h1
            match pv, h1 with
            | .strLit s, _ => rfl
          · simp only [Bool.not_eq_true] at hk
            simp only [hk, Bool.false_eq_true, if_false]
            match pv with
            | .strLit s => simp [safeAttr, toJsxValue, hk, safeAVal]
            | .numLit m => simpa [safeAttr, toJsxValue, hk, safeAVal, safeExpr] using h2
            | .obj ps => simpa [safeAttr, toJsxValue, hk, safeAVal, safeExpr, safeProp] using h2
            | .elem e => simpa [safeAttr, toJsxValue, hk, safeAVal, safeExpr, safeProp] using h2
            | .other t2 => simp [safeAttr, toJsxValue, hk, safeAVal, safeExpr]
    · simp only [Bool.not_eq_true] at hn
      simp [hn]

theorem safe_objPushOK_notIconish (a : JAttr) (h : safeAttr a = true) :
    objPushOK notIconish a = true := by
  match a with
  | .spreadAttr t => rfl
  | .attr n v =>
    unfold objPushOK
    by_cases hn : (n == "icon") = true
    · simp only [hn, if_true]
      match v with
      | .novalue => rfl
      | .str s => rfl
      | .container (.strLit s) => rfl
      | .container (.numLit m) => rfl
      | .container (.elem e) => rfl
      | .container (.other t) => rfl
      | .container (.obj props) =>
        simp only [safeAttr, hn, if_true, iconValOK, Bool.and_eq_true] at h
        rw [List.all_eq_true]
        intro p hp
        have h1 := (List.all_eq_true.mp h.1) p hp
        match p with
        | .spread t2 => rfl
        | .prop k pv =>
          unfold qProp
          by_cases hk : (k == "icon") = true
          · simp only [hk, if_true]
            simp only [iconPropOK, hk, if_true] at h1
            match pv, h1 with
            | .strLit s, _ => rfl
          · simp only [Bool.not_eq_true] at hk
            simp only [hk, Bool.false_eq_true, if_false]
            simp only [iconPropOK, hk, Bool.false_eq_true, if_false] at h1
            simp [notIconish, hk, h1]
    · simp only [Bool.not_eq_true] at hn
      simp [hn]

theorem done_objPushOK (r2 : Rule) (a : JAttr) (h : doneAttrFor r2 a = true) :
    objPushOK (doneAttrFor r2) a = true := by
  match a with
  | .spreadAttr t => rfl
  | .attr n v =>
    unfold objPushOK
    by_cases hn : (n == "icon") = true
    · simp only [hn, if_true]
      match v with
      | .novalue => rfl
      | .str s => rfl
      | .container (.strLit s) => rfl
      | .container (.numLit m) => rfl
      | .container (.elem e) => rfl
      | .container (.other t) => rfl
      | .container (.obj props) =>
        simp only [doneAttrFor, doneAValFor, doneExprFor, donePropListFor_eq_all] at h
        rw [List.all_eq_true]
        intro p hp
        have h1 := (List.all_eq_true.mp h) p hp
        match p with
        | .spread t2 => rfl
        | .prop k pv =>
          unfold qProp
          by_cases hk : (k == "icon") = true
          · simp only [hk, if_true]
            match pv with
            | .strLit s => rfl
            | .numLit m => simpa [doneAttrFor, toJsxValue, doneAValFor, doneExprFor, donePropFor] using h1
            | .obj ps => simpa [doneAttrFor, toJsxValue, doneAValFor, doneExprFor, donePropFor] using h1
            | .elem e => simpa [doneAttrFor, toJsxValue, doneAValFor, doneExprFor, donePropFor] using h1
            | .other t2 => simp [doneAttrFor, toJsxValue, doneAValFor, doneExprFor]
          · simp only [Bool.not_eq_true] at hk
            simp only [hk, Bool.false_eq_true, if_false]
            match pv with
            | .strLit s => simp [doneAttrFor, toJsxValue, doneAValFor]
            | .numLit m => simp [doneAttrFor, toJsxValue, doneAValFor, doneExprFor]
            | .obj ps => simpa [doneAttrFor, toJsxValue, doneAValFor, doneExprFor, donePropFor] using h1
            | .elem e => simpa [doneAttrFor, toJsxValue, doneAValFor, doneExprFor, donePropFor] using h1
            | .other t2 => simp [doneAttrFor, toJsxValue, doneAValFor, doneExprFor]
    · simp only [Bool.not_eq_true] at hn
      simp [hn]

theorem notProb_objPushOK (r2 : Rule) (a : JAttr) (h : probAttrFor r2 a = false) :
    objPushOK (fun x => !(probAttrFor r2 x)) a = true := by
  match a with
  | .spreadAttr t => rfl
  | .attr n v =>
    unfold objPushOK
    by_cases hn : (n == "icon") = true
    · simp only [hn, if_true]
      match v with
      | .novalue => rfl
      | .str s => rfl
      | .container (.strLit s) => rfl
      | .container (.numLit m) => rfl
      | .container (.elem e) => rfl
      | .container (.other t) => rfl
      | .container (.obj props) =>
        simp only [probAttrFor, probAValFor, probExprFor, probPropListFor_eq_any] at h
        rw [List.all_eq_true]
        intro p hp
        have h1 : probPropFor r2 p = false := by
          rw [List.any_eq_false] at h
          exact Bool.eq_false_iff.mpr (h p hp)
        match p with
        | .spread t2 => rfl
        | .prop k pv =>
          unfold qProp
          by_cases hk : (k == "icon") = true
          · simp only [hk, if_true]
            match pv with
            | .strLit s => rfl
            | .numLit m => simpa [probAttrFor, toJsxValue, probAValFor, probExprFor, probPropFor] using h1
            | .obj ps => simpa [probAttrFor, toJsxValue, probAValFor, probExprFor, probPropFor] using h1
            | .elem e => simpa [probAttrFor, toJsxValue, probAValFor, probExprFor, probPropFor] using h1
            | .other t2 => simp [probAttrFor, toJsxValue, probAValFor, probExprFor]
          · simp only [Bool.not_eq_true] at hk
            simp only [hk, Bool.false_eq_true, if_false]
            match pv with
            | .strLit s => simp [probAttrFor, toJsxValue, probAValFor]
            | .numLit m => simp [probAttrFor, toJsxValue, probAValFor, probExprFor]
            | .obj ps => simpa [probAttrFor, toJsxValue, probAValFor, probExprFor, probPropFor] using h1
            | .elem e => simpa [probAttrFor, toJsxValue, probAValFor, probExprFor, probPropFor] using h1
            | .other t2 => simp [probAttrFor, toJsxValue, probAValFor, probExprFor]
    · simp only [Bool.not_eq_true] at hn
      simp [hn]

theorem synth_all (Q : JAttr → Bool) (ex : Bool) (parsed : ParsedProps)
    (hobj : parsed.iconObjectAttributes.all Q = true)
    (hc : optAll Q parsed.directColor = true)
    (hsz : optAll Q parsed.directSize = true)
    (hdef : Q defaultSizeAttr = true) :
    (synthesizeInnerProps ex parsed).innerProps.all Q = true := by
  unfold synthesizeInnerProps
  match hdc : parsed.directColor with
  | none =>
    simp only
    by_cases h1 : hasAttrNamed "size" parsed.iconObjectAttributes = true
    · simpa [h1] using hobj
    · simp only [Bool.not_eq_true] at h1
      match hds : parsed.directSize with
      | none =>
        by_cases hex : ex = true
        · simp [h1, hex, hobj]
        · simp only [Bool.not_eq_true] at hex
          simp [h1, hex, List.all_append, hobj, hdef]
      | some sa =>
        rw [hds] at hsz
        simp only [optAll] at hsz
        simp [h1, List.all_append, hobj, hsz]
  | some ca =>
    rw [hdc] at hc
    simp only [optAll] at hc
    by_cases h0 : hasAttrNamed "color" parsed.iconObjectAttributes = true
    · simp only [h0, Bool.not_true, Bool.false_eq_true, if_false]
      by_cases h1 : hasAttrNamed "size" parsed.iconObjectAttributes = true
      · simpa [h1] using hobj
      · simp only [Bool.not_eq_true] at h1
        match hds : parsed.directSize with
        | none =>
          by_cases hex : ex = true
          · simp [h1, hex, hobj]
          · simp only [Bool.not_eq_true] at hex
            simp [h1, hex, List.all_append, hobj, hdef]
        | some sa =>
          rw [hds] at hsz
          simp only [optAll] at hsz
          simp [h1, List.all_append, hobj, hsz]
    · simp only [Bool.not_eq_true] at h0
      simp only [h0, Bool.not_false, if_true]
      by_cases h1 : hasAttrNamed "size" (parsed.iconObjectAttributes ++ [ca]) = true
      · simp only [h1, Bool.not_true, Bool.false_eq_true, if_false]
        simp [List.all_append, hobj, hc]
      · simp only [Bool.not_eq_true] at h1
        match hds : parsed.directSize with
        | none =>
          by_cases hex : ex = true
          · simp [h1, hex, List.all_append, hobj, hc]
          · simp only [Bool.not_eq_true] at hex
            simp [h1, hex, List.all_append, hobj, hc, hdef]
        | some sa =>
          rw [hds] at hsz
          simp only [optAll] at hsz
          simp [h1, List.all_append, hobj, hc, hsz]

/-! ### Pass preserves safety -/

theorem safeAttr_default : safeAttr defaultSizeAttr = true := by decide

mutual
theorem safeElem_past (r : Rule) : ∀ e : JElem, safeElem e = true →
    safeElem (pastElem r e) = true
  | .mk n attrs, h => by
    have hsafe1 : safeAttrList (pastAttrList r attrs) = true :=
      safeAttrList_past r attrs h
    unfold pastElem
    by_cases h1 : ruleMatches r n = true
    · simp only [h1, if_true]
      by_cases h2 : (getComponentName (.mk n attrs) == "TextButton") = true
      · simp only [h2, if_true]
        show safeAttrList (processTextButtonAttrs (pastAttrList r attrs)).attrs = true
        rw [processTB_spec]
        simp only []
        rw [safeAttrList_eq_all, List.all_map]
        rw [safeAttrList_eq_all] at hsafe1
        exact allImp (fun a ha => tbMapAttr_safe a ha) _ hsafe1
      · simp only [Bool.not_eq_true] at h2
        simp only [h2, Bool.false_eq_true, if_false]
        cases ho : iconOutcome (parseComponentAttributes (pastAttrList r attrs)) with
        | noIconProp => exact hsafe1
        | skipBenign => exact hsafe1
        | skipProblem => exact hsafe1
        | rewritten nm =>
          show safeAttrList (rewriteIconAttrs _ nm (parseComponentAttributes (pastAttrList r attrs))) = true
          have hall : (pastAttrList r attrs).all
              (fun a => safeAttr a && objPushOK safeAttr a) = true := by
            rw [safeAttrList_eq_all] at hsafe1
            refine allImp (fun a ha => ?_) _ hsafe1
            rw [Bool.and_eq_true]
            exact ⟨ha, safe_objPushOK_safe a ha⟩
          have hp := parse_pieces_all safeAttr (pastAttrList r attrs)
            { iconPropValue := none, iconObjectAttributes := [], directColor := none,
              directSize := none, remainingAttributes := [], isUnhandledIconProp := false,
              iconAttributeNode := none } hall rfl rfl rfl rfl rfl
          rw [show (pastAttrList r attrs).foldl parseAttrStep
              { iconPropValue := none, iconObjectAttributes := [], directColor := none,
                directSize := none, remainingAttributes := [], isUnhandledIconProp := false,
                iconAttributeNode := none }
              = parseComponentAttributes (pastAttrList r attrs) from rfl] at hp
          set parsed := parseComponentAttributes (pastAttrList r attrs) with hparsed
          have hinner : safeAttrList (synthesizeInnerProps
              (isExemptFromDefaultSize (getComponentName (.mk n attrs))) parsed).innerProps = true := by
            rw [safeAttrList_eq_all]
            exact synth_all safeAttr _ parsed hp.2.1 hp.2.2.1 hp.2.2.2.1 safeAttr_default
          unfold rewriteIconAttrs
          rw [safeAttrList_eq_all]
          simp only [List.all_append, Bool.and_eq_true]
          refine ⟨⟨⟨?_, ?_⟩, ?_⟩, ?_⟩
          · exact hp.1
          · simp only [List.all_cons, List.all_nil, Bool.and_true]
            show (safeAttr (.attr "icon" (.container (.elem
              (.mk (.ident nm) (synthesizeInnerProps _ parsed).innerProps)))) ) = true
            simp only [safeAttr, iconValOK, safeAVal, safeExpr, safeElem]
            simp [hinner]
          · match hdc : parsed.directColor with
            | none => rfl
            | some ca =>
              rw [hdc] at hp
              by_cases hcc : (synthesizeInnerProps
                  (isExemptFromDefaultSize (getComponentName (.mk n attrs))) parsed).colorConsumed = true
              · simp [hcc]
              · simp only [Bool.not_eq_true] at hcc
                simp only [hcc, Bool.not_false, if_true]
                simpa using hp.2.2.1
          · match hds : parsed.directSize with
            | none => rfl
            | some sa =>
              rw [hds] at hp
              by_cases hss : (synthesizeInnerProps
                  (isExemptFromDefaultSize (getComponentName (.mk n attrs))) parsed).sizeConsumed = true
              · simp [hss]
              · simp only [Bool.not_eq_true] at hss
                simp only [hss, Bool.not_false, if_true]
                simpa using hp.2.2.2.1
    · simp only [Bool.not_eq_true] at h1
      simp only [h1, Bool.false_eq_true, if_false]
      exact hsafe1

theorem safeAttrList_past (r : Rule) : ∀ l : List JAttr, safeAttrList l = true →
    safeAttrList (pastAttrList r l) = true
  | [], _ => rfl
  | a :: rest, h => by
    simp only [safeAttrList, Bool.and_eq_true] at h
    simp only [pastAttrList, safeAttrList, Bool.and_eq_true]
    exact ⟨safeAttr_past r a h.1, safeAttrList_past r rest h.2⟩

theorem safeAttr_past (r : Rule) : ∀ a : JAttr, safeAttr a = true →
    safeAttr (pastAttr r a) = true
  | .spreadAttr k, h => h
  | .attr n v, h => by
    simp only [safeAttr, Bool.and_eq_true] at h
    simp only [pastAttr, safeAttr, Bool.and_eq_true, iconValOK_past]
    exact ⟨h.1, safeAVal_past r v h.2⟩

theorem safeAVal_past (r : Rule) : ∀ v : AVal, safeAVal v = true →
    safeAVal (pastAVal r v) = true
  | .novalue, h => h
  | .str s, h => h
  | .container e, h => by
    simp only [pastAVal, safeAVal]
    exact safeExpr_past r e h

theorem safeExpr_past (r : Rule) : ∀ x : JExpr, safeExpr x = true →
    safeExpr (pastExpr r x) = true
  | .strLit s, h => h
  | .numLit k, h => h
  | .other t, h => h
  | .obj props, h => by
    simp only [pastExpr, safeExpr]
    exact safePropList_past r props h
  | .elem e, h => by
    simp only [pastExpr, safeExpr]
    exact safeElem_past r e h

theorem safePropList_past (r : Rule) : ∀ l : List JProp, safePropList l = true →
    safePropList (pastPropList r l) = true
  | [], _ => rfl
  | p :: rest, h => by
    simp only [safePropList, Bool.and_eq_true] at h
    simp only [pastPropList, safePropList, Bool.and_eq_true]
    exact ⟨safeProp_past r p h.1, safePropList_past r rest h.2⟩

theorem safeProp_past (r : Rule) : ∀ p : JProp, safeProp p = true →
    safeProp (pastProp r p) = true
  | .spread a, h => h
  | .prop k v, h => by
    simp only [pastProp, safeProp]
    exact safeExpr_past r v h
end

theorem optAllImp {p q : JAttr → Bool} (h : ∀ a, p a = true → q a = true) :
    ∀ o : Option JAttr, optAll p o = true → optAll q o = true
  | none, _ => rfl
  | some a, ho => h a ho

theorem colorNamed_notIconish (a : JAttr) (h : attrNamed "color" a = true) :
    notIconish a = true := by
  match a with
  | .spreadAttr t => rfl
  | .attr n v =>
    have : n = "color" := by simpa [attrNamed] using h
    subst this
    rfl

theorem sizeNamed_notIconish (a : JAttr) (h : attrNamed "size" a = true) :
    notIconish a = true := by
  match a with
  | .spreadAttr t => rfl
  | .attr n v =>
    have : n = "size" := by simpa [attrNamed] using h
    subst this
    rfl

theorem notIconish_default : notIconish defaultSizeAttr = true := by decide

theorem doneAttr_default (r2 : Rule) : doneAttrFor r2 defaultSizeAttr = true := rfl

theorem notProb_default (r2 : Rule) : probAttrFor r2 defaultSizeAttr = false := rfl

/-- Inner props of a rewrite are free of icon-ish names, provided the source
attribute list is safe. -/
theorem innerProps_notIconish (r : Rule) (ex : Bool) (l : List JAttr)
    (hsafe : safeAttrList l = true) :
    ((synthesizeInnerProps ex (parseComponentAttributes l)).innerProps).all notIconish = true := by
  have hall : l.all (objPushOK notIconish) = true := by
    rw [safeAttrList_eq_all] at hsafe
    exact allImp (fun a ha => safe_objPushOK_notIconish a ha) l hsafe
  have hobj : ((parseComponentAttributes l).iconObjectAttributes).all notIconish = true := by
    have := parse_objAttrs_all notIconish l
      { iconPropValue := none, iconObjectAttributes := [], directColor := none,
        directSize := none, remainingAttributes := [], isUnhandledIconProp := false,
        iconAttributeNode := none } hall rfl
    exact this
  have hc : optAll notIconish (parseComponentAttributes l).directColor = true := by
    refine optAllImp colorNamed_notIconish _ ?_
    exact parse_directColor_name l _ rfl
  have hs : optAll notIconish (parseComponentAttributes l).directSize = true := by
    refine optAllImp sizeNamed_notIconish _ ?_
    exact parse_directSize_name l _ rfl
  exact synth_all notIconish ex _ hobj hc hs notIconish_default

/-- The final attribute list of a rewrite classifies as a benign skip. -/
theorem rewriteIconAttrs_outcome (ex : Bool) (nm : String) (l : List JAttr) :
    iconOutcome (parseComponentAttributes
      (rewriteIconAttrs ex nm (parseComponentAttributes l))) = .skipBenign := by
  have hrem : ((parseComponentAttributes l).remainingAttributes).all notICS = true :=
    parse_remaining_notICS l _ rfl
  have hcn : optAll (attrNamed "color") (parseComponentAttributes l).directColor = true :=
    parse_directColor_name l _ rfl
  have hsn : optAll (attrNamed "size") (parseComponentAttributes l).directSize = true :=
    parse_directSize_name l _ rfl
  unfold rewriteIconAttrs
  have hleft : ((match (parseComponentAttributes l).directColor with
      | some ca => if !(synthesizeInnerProps ex (parseComponentAttributes l)).colorConsumed then [ca] else []
      | none => [])
      ++ (match (parseComponentAttributes l).directSize with
      | some sa => if !(synthesizeInnerProps ex (parseComponentAttributes l)).sizeConsumed then [sa] else []
      | none => [])).all (fun a => attrNamed "color" a || attrNamed "size" a) = true := by
    rw [List.all_append, Bool.and_eq_true]
    constructor
    · match hdc : (parseComponentAttributes l).directColor with
      | none => rfl
      | some ca =>
        rw [hdc] at hcn
        simp only [optAll] at hcn
        by_cases hcc : (synthesizeInnerProps ex (parseComponentAttributes l)).colorConsumed = true
        · simp [hcc]
        · simp only [Bool.not_eq_true] at hcc
          simp [hcc, hcn]
    · match hds : (parseComponentAttributes l).directSize with
      | none => rfl
      | some sa =>
        rw [hds] at hsn
        simp only [optAll] at hsn
        by_cases hss : (synthesizeInnerProps ex (parseComponentAttributes l)).sizeConsumed = true
        · simp [hss]
        · simp only [Bool.not_eq_true] at hss
          simp [hss, hsn]
  have := outcome_rewritten_output
    (parseComponentAttributes l).remainingAttributes
    ((match (parseComponentAttributes l).directColor with
      | some ca => if !(synthesizeInnerProps ex (parseComponentAttributes l)).colorConsumed then [ca] else []
      | none => [])
      ++ (match (parseComponentAttributes l).directSize with
      | some sa => if !(synthesizeInnerProps ex (parseComponentAttributes l)).sizeConsumed then [sa] else []
      | none => []))
    (.mk (.ident nm) (synthesizeInnerProps ex (parseComponentAttributes l)).innerProps)
    hrem hleft
  rw [← List.append_assoc] at this
  exact this

/-! ### A pass establishes its own rule's doneness and preserves any rule's -/

mutual
theorem doneElem_past (r r2 : Rule) : ∀ e : JElem, safeElem e = true →
    (r2 = r ∨ doneElemFor r2 e = true) → doneElemFor r2 (pastElem r e) = true
  | .mk n attrs, hsafe, hd => by
    have hdl : doneAttrListFor r2 (pastAttrList r attrs) = true := by
      refine doneAttrList_past r r2 attrs hsafe ?_
      rcases hd with hd | hd
      · exact Or.inl hd
      · right
        simp only [doneElemFor, Bool.and_eq_true] at hd
        exact hd.2
    have hsafe1 : safeAttrList (pastAttrList r attrs) = true :=
      safeAttrList_past r attrs hsafe
    unfold pastElem
    by_cases h1 : ruleMatches r n = true
    · simp only [h1, if_true]
      by_cases h2 : (getComponentName (.mk n attrs) == "TextButton") = true
      · simp only [h2, if_true]
        rw [processTB_spec]
        simp only [doneElemFor, Bool.and_eq_true]
        constructor
        · unfold doneTopFor
          by_cases hm2 : ruleMatches r2 (JElem.mk n ((pastAttrList r attrs).map tbMapAttr)).name = true
          · simp only [hm2, if_true]
            have hcn : getComponentName (JElem.mk n ((pastAttrList r attrs).map tbMapAttr))
                = getComponentName (.mk n attrs) := rfl
            rw [hcn, h2]
            simp only [if_true]
            show ((JElem.mk n ((pastAttrList r attrs).map tbMapAttr)).attrs).all tbStableAttr = true
            rw [show (JElem.mk n ((pastAttrList r attrs).map tbMapAttr)).attrs
                = (pastAttrList r attrs).map tbMapAttr from rfl]
            rw [List.all_map]
            rw [List.all_eq_true]
            intro a _
            exact tbMapAttr_stable_out a
          · simp only [Bool.not_eq_true] at hm2
            simp [hm2]
        · rw [doneAttrListFor_eq_all, List.all_map]
          rw [doneAttrListFor_eq_all] at hdl
          exact allImp (fun a ha => tbMapAttr_done r2 a ha) _ hdl
      · simp only [Bool.not_eq_true] at h2
        simp only [h2, Bool.false_eq_true, if_false]
        cases ho : iconOutcome (parseComponentAttributes (pastAttrList r attrs)) with
        | rewritten nm =>
          simp only [doneElemFor, Bool.and_eq_true]
          constructor
          · unfold doneTopFor
            by_cases hm2 : ruleMatches r2 (JElem.mk n (rewriteIconAttrs
                (isExemptFromDefaultSize (getComponentName (.mk n attrs))) nm
                (parseComponentAttributes (pastAttrList r attrs)))).name = true
            · simp only [hm2, if_true]
              have hcn : getComponentName (JElem.mk n (rewriteIconAttrs
                  (isExemptFromDefaultSize (getComponentName (.mk n attrs))) nm
                  (parseComponentAttributes (pastAttrList r attrs))))
                  = getComponentName (.mk n attrs) := rfl
              rw [hcn, h2]
              simp only [Bool.false_eq_true, if_false]
              rw [show (JElem.mk n (rewriteIconAttrs
                  (isExemptFromDefaultSize (getComponentName (.mk n attrs))) nm
                  (parseComponentAttributes (pastAttrList r attrs)))).attrs
                = rewriteIconAttrs (isExemptFromDefaultSize (getComponentName (.mk n attrs))) nm
                  (parseComponentAttributes (pastAttrList r attrs)) from rfl]
              rw [rewriteIconAttrs_outcome]
              rfl
            · simp only [Bool.not_eq_true] at hm2
              simp [hm2]
          · have hall : (pastAttrList r attrs).all
                (fun a => doneAttrFor r2 a && objPushOK (doneAttrFor r2) a) = true := by
              rw [doneAttrListFor_eq_all] at hdl
              refine allImp (fun a ha => ?_) _ hdl
              rw [Bool.and_eq_true]
              exact ⟨ha, done_objPushOK r2 a ha⟩
            have hp := parse_pieces_all (doneAttrFor r2) (pastAttrList r attrs)
              { iconPropValue := none, iconObjectAttributes := [], directColor := none,
                directSize := none, remainingAttributes := [], isUnhandledIconProp := false,
                iconAttributeNode := none } hall rfl rfl rfl rfl rfl
            rw [show (pastAttrList r attrs).foldl parseAttrStep
                { iconPropValue := none, iconObjectAttributes := [], directColor := none,
                  directSize := none, remainingAttributes := [], isUnhandledIconProp := false,
                  iconAttributeNode := none }
                = parseComponentAttributes (pastAttrList r attrs) from rfl] at hp
            have hinner : doneAttrListFor r2 (synthesizeInnerProps
                (isExemptFromDefaultSize (getComponentName (.mk n attrs)))
                (parseComponentAttributes (pastAttrList r attrs))).innerProps = true := by
              rw [doneAttrListFor_eq_all]
              exact synth_all (doneAttrFor r2) _ _ hp.2.1 hp.2.2.1 hp.2.2.2.1 (doneAttr_default r2)
            have hwrap : doneElemFor r2 (.mk (.ident nm) (synthesizeInnerProps
                (isExemptFromDefaultSize (getComponentName (.mk n attrs)))
                (parseComponentAttributes (pastAttrList r attrs))).innerProps) = true := by
              simp only [doneElemFor, Bool.and_eq_true]
              refine ⟨?_, hinner⟩
              exact (wrapper_top r2 nm _ (innerProps_notIconish r _ _ hsafe1)).1
            unfold rewriteIconAttrs
            rw [doneAttrListFor_eq_all]
            simp only [List.all_append, Bool.and_eq_true]
            refine ⟨⟨⟨?_, ?_⟩, ?_⟩, ?_⟩
            · exact hp.1
            · simp only [List.all_cons, List.all_nil, Bool.and_true]
              show doneAttrFor r2 (.attr "icon" (.container (.elem _))) = true
              simp only [doneAttrFor, doneAValFor, doneExprFor]
              exact hwrap
            · match hdc : (parseComponentAttributes (pastAttrList r attrs)).directColor with
              | none => rfl
              | some ca =>
                rw [hdc] at hp
                by_cases hcc : (synthesizeInnerProps
                    (isExemptFromDefaultSize (getComponentName (.mk n attrs)))
                    (parseComponentAttributes (pastAttrList r attrs))).colorConsumed = true
                · simp [hcc]
                · simp only [Bool.not_eq_true] at hcc
                  simp only [hcc, Bool.not_false, if_true]
                  simpa using hp.2.2.1
            · match hds : (parseComponentAttributes (pastAttrList r attrs)).directSize with
              | none => rfl
              | some sa =>
                rw [hds] at hp
                by_cases hss : (synthesizeInnerProps
                    (isExemptFromDefaultSize (getComponentName (.mk n attrs)))
                    (parseComponentAttributes (pastAttrList r attrs))).sizeConsumed = true
                · simp [hss]
                · simp only [Bool.not_eq_true] at hss
                  simp only [hss, Bool.not_false, if_true]
                  simpa using hp.2.2.2.1
        | noIconProp =>
          simp only [doneElemFor, Bool.and_eq_true]
          refine ⟨?_, hdl⟩
          unfold doneTopFor
          by_cases hm2 : ruleMatches r2 (JElem.mk n (pastAttrList r attrs)).name = true
          · simp only [hm2, if_true]
            have hcn : getComponentName (JElem.mk n (pastAttrList r attrs))
                = getComponentName (.mk n attrs) := rfl
            rw [hcn, h2]
            simp only [Bool.false_eq_true, if_false]
            rw [show (JElem.mk n (pastAttrList r attrs)).attrs = pastAttrList r attrs from rfl, ho]
            rfl
          · simp only [Bool.not_eq_true] at hm2
            simp [hm2]
        | skipBenign =>
          simp only [doneElemFor, Bool.and_eq_true]
          refine ⟨?_, hdl⟩
          unfold doneTopFor
          by_cases hm2 : ruleMatches r2 (JElem.mk n (pastAttrList r attrs)).name = true
          · simp only [hm2, if_true]
            have hcn : getComponentName (JElem.mk n (pastAttrList r attrs))
                = getComponentName (.mk n attrs) := rfl
            rw [hcn, h2]
            simp only [Bool.false_eq_true, if_false]
            rw [show (JElem.mk n (pastAttrList r attrs)).attrs = pastAttrList r attrs from rfl, ho]
            rfl
          · simp only [Bool.not_eq_true] at hm2
            simp [hm2]
        | skipProblem =>
          simp only [doneElemFor, Bool.and_eq_true]
          refine ⟨?_, hdl⟩
          unfold doneTopFor
          by_cases hm2 : ruleMatches r2 (JElem.mk n (pastAttrList r attrs)).name = true
          · simp only [hm2, if_true]
            have hcn : getComponentName (JElem.mk n (pastAttrList r attrs))
                = getComponentName (.mk n attrs) := rfl
            rw [hcn, h2]
            simp only [Bool.false_eq_true, if_false]
            rw [show (JElem.mk n (pastAttrList r attrs)).attrs = pastAttrList r attrs from rfl, ho]
            rfl
          · simp only [Bool.not_eq_true] at hm2
            simp [hm2]
    · simp only [Bool.not_eq_true] at h1
      simp only [h1, Bool.false_eq_true, if_false]
      simp only [doneElemFor, Bool.and_eq_true]
      refine ⟨?_, hdl⟩
      unfold doneTopFor
      by_cases hm2 : ruleMatches r2 (JElem.mk n (pastAttrList r attrs)).name = true
      · have hm2n : ruleMatches r2 n = true := hm2
        rcases hd with hdr | hdone
        · subst hdr
          rw [hm2n] at h1
          exact Bool.noConfusion h1
        · simp only [hm2, if_true]
          simp only [doneElemFor, Bool.and_eq_true] at hdone
          have htop := hdone.1
          unfold doneTopFor at htop
          rw [show (JElem.mk n attrs).name = n from rfl, hm2n] at htop
          simp only [if_true] at htop
          have hcn : getComponentName (JElem.mk n (pastAttrList r attrs))
              = getComponentName (.mk n attrs) := rfl
          rw [hcn]
          by_cases h2 : (getComponentName (.mk n attrs) == "TextButton") = true
          · rw [h2] at htop ⊢
            simp only [if_true] at htop ⊢
            rw [show (JElem.mk n (pastAttrList r attrs)).attrs = pastAttrList r attrs from rfl]
            rw [all_tbStable_past]
            exact htop
          · simp only [Bool.not_eq_true] at h2
            rw [h2] at htop ⊢
            simp only [Bool.false_eq_true, if_false] at htop ⊢
            rw [show (JElem.mk n (pastAttrList r attrs)).attrs = pastAttrList r attrs from rfl]
            rw [iconOutcome_past]
            exact htop
      · simp only [Bool.not_eq_true] at hm2
        simp [hm2]

theorem doneAttrList_past (r r2 : Rule) : ∀ l : List JAttr, safeAttrList l = true →
    (r2 = r ∨ doneAttrListFor r2 l = true) → doneAttrListFor r2 (pastAttrList r l) = true
  | [], _, _ => rfl
  | a :: rest, hsafe, hd => by
    simp only [safeAttrList, Bool.and_eq_true] at hsafe
    simp only [pastAttrList, doneAttrListFor, Bool.and_eq_true]
    have hd1 : (r2 = r ∨ doneAttrFor r2 a = true) ∧ (r2 = r ∨ doneAttrListFor r2 rest = true) := by
      rcases hd with hd | hd
      · exact ⟨Or.inl hd, Or.inl hd⟩
      · simp only [doneAttrListFor, Bool.and_eq_true] at hd
        exact ⟨Or.inr hd.1, Or.inr hd.2⟩
    exact ⟨doneAttr_past r r2 a hsafe.1 hd1.1, doneAttrList_past r r2 rest hsafe.2 hd1.2⟩

theorem doneAttr_past (r r2 : Rule) : ∀ a : JAttr, safeAttr a = true →
    (r2 = r ∨ doneAttrFor r2 a = true) → doneAttrFor r2 (pastAttr r a) = true
  | .spreadAttr k, _, _ => rfl
  | .attr n v, hsafe, hd => by
    simp only [safeAttr, Bool.and_eq_true] at hsafe
    simp only [pastAttr, doneAttrFor]
    refine doneAVal_past r r2 v hsafe.2 ?_
    rcases hd with hd | hd
    · exact Or.inl hd
    · exact Or.inr hd

theorem doneAVal_past (r r2 : Rule) : ∀ v : AVal, safeAVal v = true →
    (r2 = r ∨ doneAValFor r2 v = true) → doneAValFor r2 (pastAVal r v) = true
  | .novalue, _, _ => rfl
  | .str s, _, _ => rfl
  | .container e, hsafe, hd => by
    simp only [pastAVal, doneAValFor]
    refine doneExpr_past r r2 e hsafe ?_
    rcases hd with hd | hd
    · exact Or.inl hd
    · exact Or.inr hd

theorem doneExpr_past (r r2 : Rule) : ∀ x : JExpr, safeExpr x = true →
    (r2 = r ∨ doneExprFor r2 x = true) → doneExprFor r2 (pastExpr r x) = true
  | .strLit s, _, _ => rfl
  | .numLit k, _, _ => rfl
  | .other t, _, _ => rfl
  | .obj props, hsafe, hd => by
    simp only [pastExpr, doneExprFor]
    refine donePropList_past r r2 props hsafe ?_
    rcases hd with hd | hd
    · exact Or.inl hd
    · exact Or.inr hd
  | .elem e, hsafe, hd => by
    simp only [pastExpr, doneExprFor]
    refine doneElem_past r r2 e hsafe ?_
    rcases hd with hd | hd
    · exact Or.inl hd
    · exact Or.inr hd

theorem donePropList_past (r r2 : Rule) : ∀ l : List JProp, safePropList l = true →
    (r2 = r ∨ donePropListFor r2 l = true) → donePropListFor r2 (pastPropList r l) = true
  | [], _, _ => rfl
  | p :: rest, hsafe, hd => by
    simp only [safePropList, Bool.and_eq_true] at hsafe
    simp only [pastPropList, donePropListFor, Bool.and_eq_true]
    have hd1 : (r2 = r ∨ donePropFor r2 p = true) ∧ (r2 = r ∨ donePropListFor r2 rest = true) := by
      rcases hd with hd | hd
      · exact ⟨Or.inl hd, Or.inl hd⟩
      · simp only [donePropListFor, Bool.and_eq_true] at hd
        exact ⟨Or.inr hd.1, Or.inr hd.2⟩
    exact ⟨doneProp_past r r2 p hsafe.1 hd1.1, donePropList_past r r2 rest hsafe.2 hd1.2⟩

theorem doneProp_past (r r2 : Rule) : ∀ p : JProp, safeProp p = true →
    (r2 = r ∨ donePropFor r2 p = true) → donePropFor r2 (pastProp r p) = true
  | .spread a, _, _ => rfl
  | .prop k v, hsafe, hd => by
    simp only [pastProp, donePropFor]
    refine doneExpr_past r r2 v hsafe ?_
    rcases hd with hd | hd
    · exact Or.inl hd
    · exact Or.inr hd
end

/-! ### A pass never creates new problem sources on safe trees -/

theorem any_tbProb_past (r : Rule) (l : List JAttr) :
    (pastAttrList r l).any tbProbAttr = l.any tbProbAttr := by
  induction l with
  | nil => rfl
  | cons a rest ih => simp [pastAttrList, List.any_cons, tbProbAttr_past, ih]

theorem any_tbProb_map (l : List JAttr) :
    (l.map tbMapAttr).any tbProbAttr = l.any tbProbAttr := by
  induction l with
  | nil => rfl
  | cons a rest ih => simp [List.any_cons, tbMapAttr_prob, ih]

theorem probList_all (r2 : Rule) (l : List JAttr) (h : probAttrListFor r2 l = false) :
    l.all (fun a => !(probAttrFor r2 a)) = true := by
  rw [probAttrListFor_eq_any, List.any_eq_false] at h
  rw [List.all_eq_true]
  intro a ha
  have := h a ha
  simp only [Bool.not_eq_true] at this
  simp [this]

theorem all_probList (r2 : Rule) (l : List JAttr)
    (h : l.all (fun a => !(probAttrFor r2 a)) = true) : probAttrListFor r2 l = false := by
  rw [probAttrListFor_eq_any, List.any_eq_false]
  rw [List.all_eq_true] at h
  intro a ha
  have := h a ha
  simp only [Bool.not_eq_true'] at this
  simp [this]

mutual
theorem probElem_past (r r2 : Rule) : ∀ e : JElem, safeElem e = true →
    probElemFor r2 e = false → probElemFor r2 (pastElem r e) = false
  | .mk n attrs, hsafe, hnp => by
    have hsafe1 : safeAttrList (pastAttrList r attrs) = true :=
      safeAttrList_past r attrs hsafe
    simp only [probElemFor, Bool.or_eq_false_iff] at hnp
    obtain ⟨htop, hlist⟩ := hnp
    have hlist1 : probAttrListFor r2 (pastAttrList r attrs) = false :=
      probAttrList_past r r2 attrs hsafe hlist
    unfold pastElem
    by_cases h1 : ruleMatches r n = true
    · simp only [h1, if_true]
      by_cases h2 : (getComponentName (.mk n attrs) == "TextButton") = true
      · simp only [h2, if_true]
        rw [processTB_spec]
        simp only [probElemFor, Bool.or_eq_false_iff]
        constructor
        · unfold probTopFor
          by_cases hm2 : ruleMatches r2 (JElem.mk n
              ((pastAttrList r attrs).map tbMapAttr)).name = true
          · simp only [hm2, if_true]
            have hcn : getComponentName (JElem.mk n ((pastAttrList r attrs).map tbMapAttr))
                = getComponentName (.mk n attrs) := rfl
            rw [hcn, h2]
            simp only [if_true]
            rw [show (JElem.mk n ((pastAttrList r attrs).map tbMapAttr)).attrs
                = (pastAttrList r attrs).map tbMapAttr from rfl]
            rw [any_tbProb_map, any_tbProb_past]
            have hm2n : ruleMatches r2 n = true := hm2
            unfold probTopFor at htop
            rw [show (JElem.mk n attrs).name = n from rfl, hm2n] at htop
            simp only [if_true, h2] at htop
            exact htop
          · simp only [Bool.not_eq_true] at hm2
            simp [hm2]
        · refine all_probList r2 _ ?_
          rw [List.all_map]
          refine allImp (fun a ha => ?_) _ (probList_all r2 _ hlist1)
          simp only [Function.comp]
          simp only [Bool.not_eq_true'] at ha ⊢
          exact tbMapAttr_notProb r2 a ha
      · simp only [Bool.not_eq_true] at h2
        simp only [h2, Bool.false_eq_true, if_false]
        cases ho : iconOutcome (parseComponentAttributes (pastAttrList r attrs)) with
        | rewritten nm =>
          simp only [probElemFor, Bool.or_eq_false_iff]
          constructor
          · unfold probTopFor
            by_cases hm2 : ruleMatches r2 (JElem.mk n (rewriteIconAttrs
                (isExemptFromDefaultSize (getComponentName (.mk n attrs))) nm
                (parseComponentAttributes (pastAttrList r attrs)))).name = true
            · simp only [hm2, if_true]
              have hcn : getComponentName (JElem.mk n (rewriteIconAttrs
                  (isExemptFromDefaultSize (getComponentName (.mk n attrs))) nm
                  (parseComponentAttributes (pastAttrList r attrs))))
                  = getComponentName (.mk n attrs) := rfl
              rw [hcn, h2]
              simp only [Bool.false_eq_true, if_false]
              rw [show (JElem.mk n (rewriteIconAttrs
                  (isExemptFromDefaultSize (getComponentName (.mk n attrs))) nm
                  (parseComponentAttributes (pastAttrList r attrs)))).attrs
                = rewriteIconAttrs (isExemptFromDefaultSize (getComponentName (.mk n attrs))) nm
                  (parseComponentAttributes (pastAttrList r attrs)) from rfl]
              rw [rewriteIconAttrs_outcome]
            · simp only [Bool.not_eq_true] at hm2
              simp [hm2]
          · have hall : (pastAttrList r attrs).all
                (fun a => (!(probAttrFor r2 a)) && objPushOK (fun x => !(probAttrFor r2 x)) a)
                  = true := by
              refine allImp (fun a ha => ?_) _ (probList_all r2 _ hlist1)
              rw [Bool.and_eq_true]
              refine ⟨ha, ?_⟩
              simp only [Bool.not_eq_true'] at ha
              exact notProb_objPushOK r2 a ha
            have hp := parse_pieces_all (fun x => !(probAttrFor r2 x)) (pastAttrList r attrs)
              { iconPropValue := none, iconObjectAttributes := [], directColor := none,
                directSize := none, remainingAttributes := [], isUnhandledIconProp := false,
                iconAttributeNode := none } hall rfl rfl rfl rfl rfl
            rw [show (pastAttrList r attrs).foldl parseAttrStep
                { iconPropValue := none, iconObjectAttributes := [], directColor := none,
                  directSize := none, remainingAttributes := [], isUnhandledIconProp := false,
                  iconAttributeNode := none }
                = parseComponentAttributes (pastAttrList r attrs) from rfl] at hp
            have hinner : probAttrListFor r2 (synthesizeInnerProps
                (isExemptFromDefaultSize (getComponentName (.mk n attrs)))
                (parseComponentAttributes (pastAttrList r attrs))).innerProps = false := by
              refine all_probList r2 _ ?_
              refine synth_all (fun x => !(probAttrFor r2 x)) _ _ hp.2.1 hp.2.2.1 hp.2.2.2.1 ?_
              simp [notProb_default]
            have hwrap : probElemFor r2 (.mk (.ident nm) (synthesizeInnerProps
                (isExemptFromDefaultSize (getComponentName (.mk n attrs)))
                (parseComponentAttributes (pastAttrList r attrs))).innerProps) = false := by
              simp only [probElemFor, Bool.or_eq_false_iff]
              refine ⟨?_, hinner⟩
              exact (wrapper_top r2 nm _ (innerProps_notIconish r _ _ hsafe1)).2
            unfold rewriteIconAttrs
            rw [probAttrListFor_eq_any]
            simp only [List.any_append, Bool.or_eq_false_iff]
            refine ⟨⟨⟨?_, ?_⟩, ?_⟩, ?_⟩
            · rw [List.any_eq_false]
              intro a ha
              have h4 := List.all_eq_true.mp hp.1 a ha
              simp only [Bool.not_eq_true'] at h4
              simp [h4]
            · simp only [List.any_cons, List.any_nil, Bool.or_false]
              show probAttrFor r2 (.attr "icon" (.container (.elem _))) = false
              simp only [probAttrFor, probAValFor, probExprFor]
              exact hwrap
            · match hdc : (parseComponentAttributes (pastAttrList r attrs)).directColor with
              | none => rfl
              | some ca =>
                rw [hdc] at hp
                by_cases hcc : (synthesizeInnerProps
                    (isExemptFromDefaultSize (getComponentName (.mk n attrs)))
                    (parseComponentAttributes (pastAttrList r attrs))).colorConsumed = true
                · simp [hcc]
                · simp only [Bool.not_eq_true] at hcc
                  simp only [hcc, Bool.not_false, if_true]
                  have h4 : (!(probAttrFor r2 ca)) = true := by simpa [optAll] using hp.2.2.1
                  simp only [Bool.not_eq_true'] at h4
                  simp [h4]
            · match hds : (parseComponentAttributes (pastAttrList r attrs)).directSize with
              | none => rfl
              | some sa =>
                rw [hds] at hp
                by_cases hss : (synthesizeInnerProps
                    (isExemptFromDefaultSize (getComponentName (.mk n attrs)))
                    (parseComponentAttributes (pastAttrList r attrs))).sizeConsumed = true
                · simp [hss]
                · simp only [Bool.not_eq_true] at hss
                  simp only [hss, Bool.not_false, if_true]
                  have h4 : (!(probAttrFor r2 sa)) = true := by simpa [optAll] using hp.2.2.2.1
                  simp only [Bool.not_eq_true'] at h4
                  simp [h4]
        | noIconProp =>
          simp only [probElemFor, Bool.or_eq_false_iff]
          refine ⟨?_, hlist1⟩
          unfold probTopFor
          by_cases hm2 : ruleMatches r2 (JElem.mk n (pastAttrList r attrs)).name = true
          · simp only [hm2, if_true]
            have hcn : getComponentName (JElem.mk n (pastAttrList r attrs))
                = getComponentName (.mk n attrs) := rfl
            rw [hcn, h2]
            simp only [Bool.false_eq_true, if_false]
            rw [show (JElem.mk n (pastAttrList r attrs)).attrs = pastAttrList r attrs from rfl, ho]
          · simp only [Bool.not_eq_true] at hm2
            simp [hm2]
        | skipBenign =>
          simp only [probElemFor, Bool.or_eq_false_iff]
          refine ⟨?_, hlist1⟩
          unfold probTopFor
          by_cases hm2 : ruleMatches r2 (JElem.mk n (pastAttrList r attrs)).name = true
          · simp only [hm2, if_true]
            have hcn : getComponentName (JElem.mk n (pastAttrList r attrs))
                = getComponentName (.mk n attrs) := rfl
            rw [hcn, h2]
            simp only [Bool.false_eq_true, if_false]
            rw [show (JElem.mk n (pastAttrList r attrs)).attrs = pastAttrList r attrs from rfl, ho]
          · simp only [Bool.not_eq_true] at hm2
            simp [hm2]
        | skipProblem =>
          simp only [probElemFor, Bool.or_eq_false_iff]
          refine ⟨?_, hlist1⟩
          unfold probTopFor
          by_cases hm2 : ruleMatches r2 (JElem.mk n (pastAttrList r attrs)).name = true
          · simp only [hm2, if_true]
            have hcn : getComponentName (JElem.mk n (pastAttrList r attrs))
                = getComponentName (.mk n attrs) := rfl
            rw [hcn, h2]
            simp only [Bool.false_eq_true, if_false]
            rw [show (JElem.mk n (pastAttrList r attrs)).attrs = pastAttrList r attrs from rfl, ho]
            have hm2n : ruleMatches r2 n = true := hm2
            unfold probTopFor at htop
            rw [show (JElem.mk n attrs).name = n from rfl, hm2n] at htop
            simp only [if_true, h2, Bool.false_eq_true, if_false] at htop
            rw [show (JElem.mk n attrs).attrs = attrs from rfl] at htop
            rw [← iconOutcome_past r attrs, ho] at htop
            exact htop
          · simp only [Bool.not_eq_true] at hm2
            simp [hm2]
    · simp only [Bool.not_eq_true] at h1
      simp only [h1, Bool.false_eq_true, if_false]
      simp only [probElemFor, Bool.or_eq_false_iff]
      refine ⟨?_, hlist1⟩
      unfold probTopFor
      by_cases hm2 : ruleMatches r2 (JElem.mk n (pastAttrList r attrs)).name = true
      · simp only [hm2, if_true]
        have hm2n : ruleMatches r2 n = true := hm2
        have hcn : getComponentName (JElem.mk n (pastAttrList r attrs))
            = getComponentName (.mk n attrs) := rfl
        rw [hcn]
        unfold probTopFor at htop
        rw [show (JElem.mk n attrs).name = n from rfl, hm2n] at htop
        simp only [if_true] at htop
        by_cases h2 : (getComponentName (.mk n attrs) == "TextButton") = true
        · rw [h2] at htop ⊢
          simp only [if_true] at htop ⊢
          rw [show (JElem.mk n (pastAttrList r attrs)).attrs = pastAttrList r attrs from rfl]
          rw [any_tbProb_past]
          exact htop
        · simp only [Bool.not_eq_true] at h2
          rw [h2] at htop ⊢
          simp only [Bool.false_eq_true, if_false] at htop ⊢
          rw [show (JElem.mk n (pastAttrList r attrs)).attrs = pastAttrList r attrs from rfl]
          rw [iconOutcome_past]
          rw [show (JElem.mk n attrs).attrs = attrs from rfl] at htop
          exact htop
      · simp only [Bool.not_eq_true] at hm2
        simp [hm2]

theorem probAttrList_past (r r2 : Rule) : ∀ l : List JAttr, safeAttrList l = true →
    probAttrListFor r2 l = false → probAttrListFor r2 (pastAttrList r l) = false
  | [], _, _ => rfl
  | a :: rest, hsafe, hnp => by
    simp only [safeAttrList, Bool.and_eq_true] at hsafe
    simp only [probAttrListFor, Bool.or_eq_false_iff] at hnp ⊢
    exact ⟨probAttr_past r r2 a hsafe.1 hnp.1, probAttrList_past r r2 rest hsafe.2 hnp.2⟩

theorem probAttr_past (r r2 : Rule) : ∀ a : JAttr, safeAttr a = true →
    probAttrFor r2 a = false → probAttrFor r2 (pastAttr r a) = false
  | .spreadAttr k, _, _ => rfl
  | .attr n v, hsafe, hnp => by
    simp only [safeAttr, Bool.and_eq_true] at hsafe
    simp only [pastAttr, probAttrFor] at hnp ⊢
    exact probAVal_past r r2 v hsafe.2 hnp

theorem probAVal_past (r r2 : Rule) : ∀ v : AVal, safeAVal v = true →
    probAValFor r2 v = false → probAValFor r2 (pastAVal r v) = false
  | .novalue, _, _ => rfl
  | .str s, _, _ => rfl
  | .container e, hsafe, hnp => by
    simp only [pastAVal, probAValFor] at hnp ⊢
    exact probExpr_past r r2 e hsafe hnp

theorem probExpr_past (r r2 : Rule) : ∀ x : JExpr, safeExpr x = true →
    probExprFor r2 x = false → probExprFor r2 (pastExpr r x) = false
  | .strLit s, _, _ => rfl
  | .numLit k, _, _ => rfl
  | .other t, _, _ => rfl
  | .obj props, hsafe, hnp => by
    simp only [pastExpr, probExprFor] at hnp ⊢
    exact probPropList_past r r2 props hsafe hnp
  | .elem e, hsafe, hnp => by
    simp only [pastExpr, probExprFor] at hnp ⊢
    exact probElem_past r r2 e hsafe hnp

theorem probPropList_past (r r2 : Rule) : ∀ l : List JProp, safePropList l = true →
    probPropListFor r2 l = false → probPropListFor r2 (pastPropList r l) = false
  | [], _, _ => rfl
  | p :: rest, hsafe, hnp => by
    simp only [safePropList, Bool.and_eq_true] at hsafe
    simp only [probPropListFor, Bool.or_eq_false_iff] at hnp ⊢
    exact ⟨probProp_past r r2 p hsafe.1 hnp.1, probPropList_past r r2 rest hsafe.2 hnp.2⟩

theorem probProp_past (r r2 : Rule) : ∀ p : JProp, safeProp p = true →
    probPropFor r2 p = false → probPropFor r2 (pastProp r p) = false
  | .spread a, _, _ => rfl
  | .prop k v, hsafe, hnp => by
    simp only [pastProp, probPropFor] at hnp ⊢
    exact probExpr_past r r2 v hsafe hnp
end

/-! ### State bookkeeping of one pass -/

theorem addIconName_flags (n : String) (st : XfmState) :
    (addIconName n st).fileHasSkippedItems = st.fileHasSkippedItems
      ∧ (addIconName n st).trulyProblematicSkipOccurred
          = st.trulyProblematicSkipOccurred := by
  unfold addIconName
  by_cases h : elemB n st.registry = true
  · simp [h]
  · simp [h]

theorem regFold_flags : ∀ (l : List String) (st : XfmState),
    ((l.foldl (fun s m => addIconName m s) st).fileHasSkippedItems
        = st.fileHasSkippedItems)
      ∧ ((l.foldl (fun s m => addIconName m s) st).trulyProblematicSkipOccurred
          = st.trulyProblematicSkipOccurred)
  | [], _ => ⟨rfl, rfl⟩
  | n :: rest, st => by
    have h1 := addIconName_flags n st
    have h2 := regFold_flags rest (addIconName n st)
    simp only [List.foldl]
    exact ⟨h2.1.trans h1.1, h2.2.trans h1.2⟩

theorem map_stable_id : ∀ l : List JAttr, l.all tbStableAttr = true →
    l.map tbMapAttr = l
  | [], _ => rfl
  | a :: rest, h => by
    simp only [List.all_cons, Bool.and_eq_true] at h
    simp only [List.map_cons]
    rw [tbMapAttr_stable_id a h.1, map_stable_id rest h.2]

theorem flatten_reg_nil : ∀ l : List JAttr, l.all tbStableAttr = true →
    (l.map tbRegAttr).flatten = []
  | [], _ => rfl
  | a :: rest, h => by
    simp only [List.all_cons, Bool.and_eq_true] at h
    simp only [List.map_cons, List.flatten_cons]
    rw [tbRegAttr_stable_nil a h.1, flatten_reg_nil rest h.2, List.nil_append]

/-- If the problem flag is already set after the children of an element, the
whole element pass leaves it set, whatever the top-level branch does. -/
theorem passElem_top_mono (r : Rule) (n : EName) (attrs : List JAttr) (st : XfmState)
    (h0 : (passAttrList r attrs st).2.trulyProblematicSkipOccurred = true) :
    (passElem r (.mk n attrs) st).2.trulyProblematicSkipOccurred = true := by
  simp only [passElem]
  by_cases h1 : ruleMatches r n = true
  · simp only [h1, if_true]
    by_cases h2 : (getComponentName (.mk n attrs) == "TextButton") = true
    · simp only [h2, if_true]
      have hr := (regFold_flags (processTextButtonAttrs (passAttrList r attrs st).1).regAdds
        (passAttrList r attrs st).2).2
      simp only [hr, h0, Bool.true_or]
    · simp only [Bool.not_eq_true] at h2
      simp only [h2, Bool.false_eq_true, if_false]
      cases ho : iconOutcome (parseComponentAttributes (passAttrList r attrs st).1) with
      | rewritten nm =>
        simp only
        exact ((addIconName_flags nm (passAttrList r attrs st).2).2).trans h0
      | noIconProp => simpa using h0
      | skipBenign => simpa [markSkipped] using h0
      | skipProblem => simp [markProblem]
  · simp only [Bool.not_eq_true] at h1
    simp only [h1, Bool.false_eq_true, if_false]
    exact h0

mutual
theorem passElem_mono (r : Rule) : ∀ (e : JElem) (st : XfmState),
    st.trulyProblematicSkipOccurred = true →
    (passElem r e st).2.trulyProblematicSkipOccurred = true
  | .mk n attrs, st, h =>
    passElem_top_mono r n attrs st (passAttrList_mono r attrs st h)

theorem passAttrList_mono (r : Rule) : ∀ (l : List JAttr) (st : XfmState),
    st.trulyProblematicSkipOccurred = true →
    (passAttrList r l st).2.trulyProblematicSkipOccurred = true
  | [], _, h => h
  | a :: rest, st, h => by
    simp only [passAttrList]
    exact passAttrList_mono r rest _ (passAttr_mono r a st h)

theorem passAttr_mono (r : Rule) : ∀ (a : JAttr) (st : XfmState),
    st.trulyProblematicSkipOccurred = true →
    (passAttr r a st).2.trulyProblematicSkipOccurred = true
  | .attr n v, st, h => by
    simp only [passAttr]
    exact passAVal_mono r v st h
  | .spreadAttr k, _, h => h

theorem passAVal_mono (r : Rule) : ∀ (v : AVal) (st : XfmState),
    st.trulyProblematicSkipOccurred = true →
    (passAVal r v st).2.trulyProblematicSkipOccurred = true
  | .novalue, _, h => h
  | .str s, _, h => h
  | .container e, st, h => by
    simp only [passAVal]
    exact passExpr_mono r e st h

theorem passExpr_mono (r : Rule) : ∀ (x : JExpr) (st : XfmState),
    st.trulyProblematicSkipOccurred = true →
    (passExpr r x st).2.trulyProblematicSkipOccurred = true
  | .strLit s, _, h => h
  | .numLit k, _, h => h
  | .other t, _, h => h
  | .obj props, st, h => by
    simp only [passExpr]
    exact passPropList_mono r props st h
  | .elem e, st, h => by
    simp only [passExpr]
    exact passElem_mono r e st h

theorem passPropList_mono (r : Rule) : ∀ (l : List JProp) (st : XfmState),
    st.trulyProblematicSkipOccurred = true →
    (passPropList r l st).2.trulyProblematicSkipOccurred = true
  | [], _, h => h
  | p :: rest, st, h => by
    simp only [passPropList]
    exact passPropList_mono r rest _ (passProp_mono r p st h)

theorem passProp_mono (r : Rule) : ∀ (p : JProp) (st : XfmState),
    st.trulyProblematicSkipOccurred = true →
    (passProp r p st).2.trulyProblematicSkipOccurred = true
  | .prop k v, st, h => by
    simp only [passProp]
    exact passExpr_mono r v st h
  | .spread a, _, h => h
end

/-- The attribute list produced by a rewrite holds no problem sources when the
parsed list was safe and free of problem sources. -/
theorem rewrite_noProb (r2 : Rule) (ex : Bool) (nm : String) (l : List JAttr)
    (hsafe : safeAttrList l = true) (hnp : probAttrListFor r2 l = false) :
    probAttrListFor r2 (rewriteIconAttrs ex nm (parseComponentAttributes l)) = false := by
  have hall : l.all
      (fun a => (!(probAttrFor r2 a)) && objPushOK (fun x => !(probAttrFor r2 x)) a) = true := by
    refine allImp (fun a ha => ?_) _ (probList_all r2 _ hnp)
    rw [Bool.and_eq_true]
    refine ⟨ha, ?_⟩
    simp only [Bool.not_eq_true'] at ha
    exact notProb_objPushOK r2 a ha
  have hp := parse_pieces_all (fun x => !(probAttrFor r2 x)) l
    { iconPropValue := none, iconObjectAttributes := [], directColor := none,
      directSize := none, remainingAttributes := [], isUnhandledIconProp := false,
      iconAttributeNode := none } hall rfl rfl rfl rfl rfl
  rw [show l.foldl parseAttrStep
      { iconPropValue := none, iconObjectAttributes := [], directColor := none,
        directSize := none, remainingAttributes := [], isUnhandledIconProp := false,
        iconAttributeNode := none }
      = parseComponentAttributes l from rfl] at hp
  have hinner : probAttrListFor r2
      (synthesizeInnerProps ex (parseComponentAttributes l)).innerProps = false := by
    refine all_probList r2 _ ?_
    refine synth_all (fun x => !(probAttrFor r2 x)) _ _ hp.2.1 hp.2.2.1 hp.2.2.2.1 ?_
    simp [notProb_default]
  have hwrap : probElemFor r2 (.mk (.ident nm)
      (synthesizeInnerProps ex (parseComponentAttributes l)).innerProps) = false := by
    simp only [probElemFor, Bool.or_eq_false_iff]
    refine ⟨?_, hinner⟩
    exact (wrapper_top r2 nm _ (innerProps_notIconish r2 ex l hsafe)).2
  unfold rewriteIconAttrs
  rw [probAttrListFor_eq_any]
  simp only [List.any_append, Bool.or_eq_false_iff]
  refine ⟨⟨⟨?_, ?_⟩, ?_⟩, ?_⟩
  · rw [List.any_eq_false]
    intro a ha
    have h4 := List.all_eq_true.mp hp.1 a ha
    simp only [Bool.not_eq_true'] at h4
    simp [h4]
  · simp only [List.any_cons, List.any_nil, Bool.or_false]
    show probAttrFor r2 (.attr "icon" (.container (.elem _))) = false
    simp only [probAttrFor, probAValFor, probExprFor]
    exact hwrap
  · match hdc : (parseComponentAttributes l).directColor with
    | none => rfl
    | some ca =>
      rw [hdc] at hp
      by_cases hcc : (synthesizeInnerProps ex (parseComponentAttributes l)).colorConsumed = true
      · simp [hcc]
      · simp only [Bool.not_eq_true] at hcc
        simp only [hcc, Bool.not_false, if_true]
        have h4 : (!(probAttrFor r2 ca)) = true := by simpa [optAll] using hp.2.2.1
        simp only [Bool.not_eq_true'] at h4
        simp [h4]
  · match hds : (parseComponentAttributes l).directSize with
    | none => rfl
    | some sa =>
      rw [hds] at hp
      by_cases hss : (synthesizeInnerProps ex (parseComponentAttributes l)).sizeConsumed = true
      · simp [hss]
      · simp only [Bool.not_eq_true] at hss
        simp only [hss, Bool.not_false, if_true]
        have h4 : (!(probAttrFor r2 sa)) = true := by simpa [optAll] using hp.2.2.2.1
        simp only [Bool.not_eq_true'] at h4
        simp [h4]

/-! ### Coverage: a problem source surviving a pass has set the flag -/

mutual
theorem passElem_cover (r : Rule) : ∀ (e : JElem) (st : XfmState), safeElem e = true →
    probElemFor r (pastElem r e) = true →
    (passElem r e st).2.trulyProblematicSkipOccurred = true
  | .mk n attrs, st, hsafe, hp => by
    have hsafe1 : safeAttrList (pastAttrList r attrs) = true := safeAttrList_past r attrs hsafe
    by_cases hcl : probAttrListFor r (pastAttrList r attrs) = true
    · exact passElem_top_mono r n attrs st (passAttrList_cover r attrs st hsafe hcl)
    · simp only [Bool.not_eq_true] at hcl
      unfold pastElem at hp
      simp only [passElem]
      rw [passAttrList_fst r attrs st]
      by_cases h1 : ruleMatches r n = true
      · simp only [h1, if_true] at hp ⊢
        by_cases h2 : (getComponentName (.mk n attrs) == "TextButton") = true
        · simp only [h2, if_true] at hp ⊢
          have hattrs : (processTextButtonAttrs (pastAttrList r attrs)).attrs
              = (pastAttrList r attrs).map tbMapAttr := by rw [processTB_spec]
          rw [hattrs] at hp
          have hch : probAttrListFor r ((pastAttrList r attrs).map tbMapAttr) = false := by
            refine all_probList r _ ?_
            rw [List.all_map]
            refine allImp (fun a ha => ?_) _ (probList_all r _ hcl)
            simp only [Function.comp]
            simp only [Bool.not_eq_true'] at ha ⊢
            exact tbMapAttr_notProb r a ha
          simp only [probElemFor, hch, Bool.or_false] at hp
          unfold probTopFor at hp
          rw [show (JElem.mk n ((pastAttrList r attrs).map tbMapAttr)).name = n from rfl,
            h1] at hp
          simp only [if_true] at hp
          have hcn : getComponentName (JElem.mk n ((pastAttrList r attrs).map tbMapAttr))
              = getComponentName (.mk n attrs) := rfl
          rw [hcn, h2] at hp
          simp only [if_true] at hp
          rw [show (JElem.mk n ((pastAttrList r attrs).map tbMapAttr)).attrs
              = (pastAttrList r attrs).map tbMapAttr from rfl, any_tbProb_map] at hp
          have hr := (regFold_flags (processTextButtonAttrs (pastAttrList r attrs)).regAdds
            (passAttrList r attrs st).2).2
          have htb : (processTextButtonAttrs (pastAttrList r attrs)).problem
              = (pastAttrList r attrs).any tbProbAttr := by rw [processTB_spec]
          simp only [hr, htb, hp, Bool.or_true]
        · simp only [Bool.not_eq_true] at h2
          simp only [h2, Bool.false_eq_true, if_false] at hp ⊢
          cases ho : iconOutcome (parseComponentAttributes (pastAttrList r attrs)) with
          | rewritten nm =>
            rw [ho] at hp
            exfalso
            simp only [probElemFor, Bool.or_eq_true] at hp
            rcases hp with htop | hch2
            · unfold probTopFor at htop
              rw [show (JElem.mk n (rewriteIconAttrs
                  (isExemptFromDefaultSize (getComponentName (.mk n attrs))) nm
                  (parseComponentAttributes (pastAttrList r attrs)))).name = n from rfl,
                h1] at htop
              simp only [if_true] at htop
              have hcn : getComponentName (JElem.mk n (rewriteIconAttrs
                  (isExemptFromDefaultSize (getComponentName (.mk n attrs))) nm
                  (parseComponentAttributes (pastAttrList r attrs))))
                  = getComponentName (.mk n attrs) := rfl
              rw [hcn, h2] at htop
              simp only [Bool.false_eq_true, if_false] at htop
              rw [show (JElem.mk n (rewriteIconAttrs
                  (isExemptFromDefaultSize (getComponentName (.mk n attrs))) nm
                  (parseComponentAttributes (pastAttrList r attrs)))).attrs
                = rewriteIconAttrs (isExemptFromDefaultSize (getComponentName (.mk n attrs))) nm
                  (parseComponentAttributes (pastAttrList r attrs)) from rfl,
                rewriteIconAttrs_outcome] at htop
              exact Bool.noConfusion htop
            · rw [rewrite_noProb r (isExemptFromDefaultSize (getComponentName (.mk n attrs))) nm
                (pastAttrList r attrs) hsafe1 hcl] at hch2
              exact Bool.noConfusion hch2
          | noIconProp =>
            rw [ho] at hp
            exfalso
            simp only [probElemFor, Bool.or_eq_true] at hp
            rcases hp with htop | hch2
            · unfold probTopFor at htop
              rw [show (JElem.mk n (pastAttrList r attrs)).name = n from rfl, h1] at htop
              simp only [if_true] at htop
              have hcn : getComponentName (JElem.mk n (pastAttrList r attrs))
                  = getComponentName (.mk n attrs) := rfl
              rw [hcn, h2] at htop
              simp only [Bool.false_eq_true, if_false] at htop
              rw [show (JElem.mk n (pastAttrList r attrs)).attrs
                  = pastAttrList r attrs from rfl, ho] at htop
              exact Bool.noConfusion htop
            · rw [hcl] at hch2
              exact Bool.noConfusion hch2
          | skipBenign =>
            rw [ho] at hp
            exfalso
            simp only [probElemFor, Bool.or_eq_true] at hp
            rcases hp with htop | hch2
            · unfold probTopFor at htop
              rw [show (JElem.mk n (pastAttrList r attrs)).name = n from rfl, h1] at htop
              simp only [if_true] at htop
              have hcn : getComponentName (JElem.mk n (pastAttrList r attrs))
                  = getComponentName (.mk n attrs) := rfl
              rw [hcn, h2] at htop
              simp only [Bool.false_eq_true, if_false] at htop
              rw [show (JElem.mk n (pastAttrList r attrs)).attrs
                  = pastAttrList r attrs from rfl, ho] at htop
              exact Bool.noConfusion htop
            · rw [hcl] at hch2
              exact Bool.noConfusion hch2
          | skipProblem =>
            simp [markProblem]
      · simp only [Bool.not_eq_true] at h1
        simp only [h1, Bool.false_eq_true, if_false] at hp ⊢
        exfalso
        simp only [probElemFor, Bool.or_eq_true] at hp
        rcases hp with htop | hch2
        · unfold probTopFor at htop
          rw [show (JElem.mk n (pastAttrList r attrs)).name = n from rfl, h1] at htop
          simp only [Bool.false_eq_true, if_false] at htop
        · rw [hcl] at hch2
          exact Bool.noConfusion hch2

theorem passAttrList_cover (r : Rule) : ∀ (l : List JAttr) (st : XfmState),
    safeAttrList l = true →
    probAttrListFor r (pastAttrList r l) = true →
    (passAttrList r l st).2.trulyProblematicSkipOccurred = true
  | [], _, _, hp => Bool.noConfusion hp
  | a :: rest, st, hsafe, hp => by
    simp only [safeAttrList, Bool.and_eq_true] at hsafe
    simp only [pastAttrList, probAttrListFor, Bool.or_eq_true] at hp
    simp only [passAttrList]
    rcases hp with hp | hp
    · exact passAttrList_mono r rest _ (passAttr_cover r a st hsafe.1 hp)
    · exact passAttrList_cover r rest _ hsafe.2 hp

theorem passAttr_cover (r : Rule) : ∀ (a : JAttr) (st : XfmState), safeAttr a = true →
    probAttrFor r (pastAttr r a) = true →
    (passAttr r a st).2.trulyProblematicSkipOccurred = true
  | .spreadAttr k, _, _, hp => Bool.noConfusion hp
  | .attr n v, st, hsafe, hp => by
    simp only [safeAttr, Bool.and_eq_true] at hsafe
    simp only [pastAttr, probAttrFor] at hp
    simp only [passAttr]
    exact passAVal_cover r v st hsafe.2 hp

theorem passAVal_cover (r : Rule) : ∀ (v : AVal) (st : XfmState), safeAVal v = true →
    probAValFor r (pastAVal r v) = true →
    (passAVal r v st).2.trulyProblematicSkipOccurred = true
  | .novalue, _, _, hp => Bool.noConfusion hp
  | .str s, _, _, hp => Bool.noConfusion hp
  | .container e, st, hsafe, hp => by
    simp only [pastAVal, probAValFor] at hp
    simp only [passAVal]
    exact passExpr_cover r e st hsafe hp

theorem passExpr_cover (r : Rule) : ∀ (x : JExpr) (st : XfmState), safeExpr x = true →
    probExprFor r (pastExpr r x) = true →
    (passExpr r x st).2.trulyProblematicSkipOccurred = true
  | .strLit s, _, _, hp => Bool.noConfusion hp
  | .numLit k, _, _, hp => Bool.noConfusion hp
  | .other t, _, _, hp => Bool.noConfusion hp
  | .obj props, st, hsafe, hp => by
    simp only [pastExpr, probExprFor] at hp
    simp only [passExpr]
    exact passPropList_cover r props st hsafe hp
  | .elem e, st, hsafe, hp => by
    simp only [pastExpr, probExprFor] at hp
    simp only [passExpr]
    exact passElem_cover r e st hsafe hp

theorem passPropList_cover (r : Rule) : ∀ (l : List JProp) (st : XfmState),
    safePropList l = true →
    probPropListFor r (pastPropList r l) = true →
    (passPropList r l st).2.trulyProblematicSkipOccurred = true
  | [], _, _, hp => Bool.noConfusion hp
  | p :: rest, st, hsafe, hp => by
    simp only [safePropList, Bool.and_eq_true] at hsafe
    simp only [pastPropList, probPropListFor, Bool.or_eq_true] at hp
    simp only [passPropList]
    rcases hp with hp | hp
    · exact passPropList_mono r rest _ (passProp_cover r p st hsafe.1 hp)
    · exact passPropList_cover r rest _ hsafe.2 hp

theorem passProp_cover (r : Rule) : ∀ (p : JProp) (st : XfmState), safeProp p = true →
    probPropFor r (pastProp r p) = true →
    (passProp r p st).2.trulyProblematicSkipOccurred = true
  | .spread a, _, _, hp => Bool.noConfusion hp
  | .prop k v, st, hsafe, hp => by
    simp only [pastProp, probPropFor] at hp
    simp only [passProp]
    exact passExpr_cover r v st hsafe hp
end

/-! ### On a done tree a pass is the identity and only reports its problems -/

mutual
theorem passElem_done_id (r : Rule) : ∀ (e : JElem) (st : XfmState),
    doneElemFor r e = true →
    (passElem r e st).1 = e
      ∧ (passElem r e st).2.registry = st.registry
      ∧ (passElem r e st).2.trulyProblematicSkipOccurred
          = (st.trulyProblematicSkipOccurred || probElemFor r e)
  | .mk n attrs, st, hd => by
    simp only [doneElemFor, Bool.and_eq_true] at hd
    obtain ⟨htop, hdl⟩ := hd
    obtain ⟨hl1, hlr, hlp⟩ := passAttrList_done_id r attrs st hdl
    simp only [passElem]
    rw [hl1]
    by_cases h1 : ruleMatches r n = true
    · simp only [h1, if_true]
      unfold doneTopFor at htop
      rw [show (JElem.mk n attrs).name = n from rfl, h1] at htop
      simp only [if_true] at htop
      by_cases h2 : (getComponentName (.mk n attrs) == "TextButton") = true
      · simp only [h2, if_true] at htop ⊢
        rw [show (JElem.mk n attrs).attrs = attrs from rfl] at htop
        have hmap : (processTextButtonAttrs attrs).attrs = attrs := by
          rw [processTB_spec]
          exact map_stable_id attrs htop
        have hreg : (processTextButtonAttrs attrs).regAdds = [] := by
          rw [processTB_spec]
          exact flatten_reg_nil attrs htop
        have htbp : (processTextButtonAttrs attrs).problem = attrs.any tbProbAttr := by
          rw [processTB_spec]
        refine ⟨?_, ?_, ?_⟩
        · simp only [hmap]
        · simp only [hreg, List.foldl_nil]
          exact hlr
        · simp only [hreg, List.foldl_nil, htbp, hlp]
          have hpe : probElemFor r (.mk n attrs)
              = (attrs.any tbProbAttr || probAttrListFor r attrs) := by
            simp only [probElemFor]
            unfold probTopFor
            rw [show (JElem.mk n attrs).name = n from rfl, h1]
            simp only [if_true, h2]
            rfl
          rw [hpe]
          cases st.trulyProblematicSkipOccurred <;>
            cases attrs.any tbProbAttr <;>
            cases probAttrListFor r attrs <;> rfl
      · simp only [Bool.not_eq_true] at h2
        simp only [h2, Bool.false_eq_true, if_false] at htop ⊢
        rw [show (JElem.mk n attrs).attrs = attrs from rfl] at htop
        cases ho : iconOutcome (parseComponentAttributes attrs) with
        | rewritten nm =>
          rw [ho] at htop
          simp only [isRewrittenOutcome, Bool.not_true] at htop
          exact Bool.noConfusion htop
        | noIconProp =>
          refine ⟨rfl, hlr, ?_⟩
          rw [hlp]
          have hpt : probTopFor r (.mk n attrs) = false := by
            unfold probTopFor
            rw [show (JElem.mk n attrs).name = n from rfl, h1]
            simp only [if_true, h2, Bool.false_eq_true, if_false]
            rw [show (JElem.mk n attrs).attrs = attrs from rfl, ho]
          simp only [probElemFor, hpt, Bool.false_or]
        | skipBenign =>
          refine ⟨rfl, hlr, ?_⟩
          simp only [markSkipped]
          rw [hlp]
          have hpt : probTopFor r (.mk n attrs) = false := by
            unfold probTopFor
            rw [show (JElem.mk n attrs).name = n from rfl, h1]
            simp only [if_true, h2, Bool.false_eq_true, if_false]
            rw [show (JElem.mk n attrs).attrs = attrs from rfl, ho]
          simp only [probElemFor, hpt, Bool.false_or]
        | skipProblem =>
          refine ⟨rfl, hlr, ?_⟩
          simp only [markProblem]
          have hpt : probTopFor r (.mk n attrs) = true := by
            unfold probTopFor
            rw [show (JElem.mk n attrs).name = n from rfl, h1]
            simp only [if_true, h2, Bool.false_eq_true, if_false]
            rw [show (JElem.mk n attrs).attrs = attrs from rfl, ho]
          simp only [probElemFor, hpt, Bool.true_or, Bool.or_true]
    · simp only [Bool.not_eq_true] at h1
      simp only [h1, Bool.false_eq_true, if_false]
      refine ⟨by trivial, hlr, ?_⟩
      rw [hlp]
      have hpt : probTopFor r (.mk n attrs) = false := by
        unfold probTopFor
        rw [show (JElem.mk n attrs).name = n from rfl, h1]
        simp
      simp only [probElemFor, hpt, Bool.false_or]

theorem passAttrList_done_id (r : Rule) : ∀ (l : List JAttr) (st : XfmState),
    doneAttrListFor r l = true →
    (passAttrList r l st).1 = l
      ∧ (passAttrList r l st).2.registry = st.registry
      ∧ (passAttrList r l st).2.trulyProblematicSkipOccurred
          = (st.trulyProblematicSkipOccurred || probAttrListFor r l)
  | [], st, _ => ⟨rfl, rfl, by simp [passAttrList, probAttrListFor]⟩
  | a :: rest, st, hd => by
    simp only [doneAttrListFor, Bool.and_eq_true] at hd
    obtain ⟨ha1, har, hap⟩ := passAttr_done_id r a st hd.1
    obtain ⟨hr1, hrr, hrp⟩ := passAttrList_done_id r rest (passAttr r a st).2 hd.2
    simp only [passAttrList]
    refine ⟨?_, ?_, ?_⟩
    · rw [ha1, hr1]
    · rw [hrr, har]
    · rw [hrp, hap]
      simp only [probAttrListFor, Bool.or_assoc]

theorem passAttr_done_id (r : Rule) : ∀ (a : JAttr) (st : XfmState),
    doneAttrFor r a = true →
    (passAttr r a st).1 = a
      ∧ (passAttr r a st).2.registry = st.registry
      ∧ (passAttr r a st).2.trulyProblematicSkipOccurred
          = (st.trulyProblematicSkipOccurred || probAttrFor r a)
  | .spreadAttr k, st, _ => ⟨rfl, rfl, by simp [passAttr, probAttrFor]⟩
  | .attr n v, st, hd => by
    obtain ⟨hv1, hvr, hvp⟩ := passAVal_done_id r v st hd
    simp only [passAttr]
    exact ⟨by rw [hv1], hvr, hvp⟩

theorem passAVal_done_id (r : Rule) : ∀ (v : AVal) (st : XfmState),
    doneAValFor r v = true →
    (passAVal r v st).1 = v
      ∧ (passAVal r v st).2.registry = st.registry
      ∧ (passAVal r v st).2.trulyProblematicSkipOccurred
          = (st.trulyProblematicSkipOccurred || probAValFor r v)
  | .novalue, st, _ => ⟨rfl, rfl, by simp [passAVal, probAValFor]⟩
  | .str s, st, _ => ⟨rfl, rfl, by simp [passAVal, probAValFor]⟩
  | .container e, st, hd => by
    obtain ⟨he1, her, hep⟩ := passExpr_done_id r e st hd
    simp only [passAVal]
    exact ⟨by rw [he1], her, hep⟩

theorem passExpr_done_id (r : Rule) : ∀ (x : JExpr) (st : XfmState),
    doneExprFor r x = true →
    (passExpr r x st).1 = x
      ∧ (passExpr r x st).2.registry = st.registry
      ∧ (passExpr r x st).2.trulyProblematicSkipOccurred
          = (st.trulyProblematicSkipOccurred || probExprFor r x)
  | .strLit s, st, _ => ⟨rfl, rfl, by simp [passExpr, probExprFor]⟩
  | .numLit k, st, _ => ⟨rfl, rfl, by simp [passExpr, probExprFor]⟩
  | .other t, st, _ => ⟨rfl, rfl, by simp [passExpr, probExprFor]⟩
  | .obj props, st, hd => by
    obtain ⟨hp1, hpr, hpp⟩ := passPropList_done_id r props st hd
    simp only [passExpr]
    exact ⟨by rw [hp1], hpr, hpp⟩
  | .elem e, st, hd => by
    obtain ⟨he1, her, hep⟩ := passElem_done_id r e st hd
    simp only [passExpr]
    exact ⟨by rw [he1], her, hep⟩

theorem passPropList_done_id (r : Rule) : ∀ (l : List JProp) (st : XfmState),
    donePropListFor r l = true →
    (passPropList r l st).1 = l
      ∧ (passPropList r l st).2.registry = st.registry
      ∧ (passPropList r l st).2.trulyProblematicSkipOccurred
          = (st.trulyProblematicSkipOccurred || probPropListFor r l)
  | [], st, _ => ⟨rfl, rfl, by simp [passPropList, probPropListFor]⟩
  | p :: rest, st, hd => by
    simp only [donePropListFor, Bool.and_eq_true] at hd
    obtain ⟨hp1, hpr, hpp⟩ := passProp_done_id r p st hd.1
    obtain ⟨hr1, hrr, hrp⟩ := passPropList_done_id r rest (passProp r p st).2 hd.2
    simp only [passPropList]
    refine ⟨?_, ?_, ?_⟩
    · rw [hp1, hr1]
    · rw [hrr, hpr]
    · rw [hrp, hpp]
      simp only [probPropListFor, Bool.or_assoc]

theorem passProp_done_id (r : Rule) : ∀ (p : JProp) (st : XfmState),
    donePropFor r p = true →
    (passProp r p st).1 = p
      ∧ (passProp r p st).2.registry = st.registry
      ∧ (passProp r p st).2.trulyProblematicSkipOccurred
          = (st.trulyProblematicSkipOccurred || probPropFor r p)
  | .spread a, st, _ => ⟨rfl, rfl, by simp [passProp, probPropFor]⟩
  | .prop k v, st, hd => by
    obtain ⟨hv1, hvr, hvp⟩ := passExpr_done_id r v st hd
    simp only [passProp]
    exact ⟨by rw [hv1], hvr, hvp⟩
end

/-! ### Statement- and body-level predicates and pass lemmas -/

/-- Tree component of `passStmt`. -/
def pastStmt (r : Rule) : Stmt → Stmt
  | .elemStmt e => .elemStmt (pastElem r e)
  | .importStmt src specs => .importStmt src specs
  | .otherStmt t => .otherStmt t

/-- Tree component of `passBody`. -/
def pastBody (r : Rule) (body : List Stmt) : List Stmt := body.map (pastStmt r)

/-- Safety of one statement: contained elements must be safe. -/
def safeStmt : Stmt → Bool
  | .elemStmt e => safeElem e
  | _ => true

/-- Safety of a whole program body. -/
def safeBody (body : List Stmt) : Bool := body.all safeStmt

/-- Doneness of one statement for one rule. -/
def doneStmtFor (r : Rule) : Stmt → Bool
  | .elemStmt e => doneElemFor r e
  | _ => true

/-- Doneness of a whole body for one rule. -/
def doneBodyFor (r : Rule) (body : List Stmt) : Bool := body.all (doneStmtFor r)

/-- Problem sources of one statement for one rule. -/
def probStmtFor (r : Rule) : Stmt → Bool
  | .elemStmt e => probElemFor r e
  | _ => false

/-- Problem sources of a whole body for one rule. -/
def probBodyFor (r : Rule) (body : List Stmt) : Bool := body.any (probStmtFor r)

theorem passStmt_fst (r : Rule) (s : Stmt) (st : XfmState) :
    (passStmt r s st).1 = pastStmt r s := by
  cases s with
  | elemStmt e => simp only [passStmt, pastStmt, passElem_fst]
  | importStmt src specs => rfl
  | otherStmt t => rfl

theorem passBody_fst (r : Rule) : ∀ (body : List Stmt) (st : XfmState),
    (passBody r body st).1 = pastBody r body
  | [], _ => rfl
  | s :: rest, st => by
    simp only [passBody, pastBody, List.map_cons]
    rw [passStmt_fst, passBody_fst r rest (passStmt r s st).2]
    rfl

theorem safeStmt_past (r : Rule) (s : Stmt) (h : safeStmt s = true) :
    safeStmt (pastStmt r s) = true := by
  cases s with
  | elemStmt e => exact safeElem_past r e h
  | importStmt src specs => rfl
  | otherStmt t => rfl

theorem safeBody_past (r : Rule) : ∀ body : List Stmt, safeBody body = true →
    safeBody (pastBody r body) = true := by
  intro body h
  unfold safeBody pastBody
  rw [List.all_map]
  exact allImp (fun s hs => safeStmt_past r s hs) body h

theorem doneStmt_past (r r2 : Rule) (s : Stmt) (hsafe : safeStmt s = true)
    (hd : r2 = r ∨ doneStmtFor r2 s = true) : doneStmtFor r2 (pastStmt r s) = true := by
  cases s with
  | elemStmt e => exact doneElem_past r r2 e hsafe hd
  | importStmt src specs => rfl
  | otherStmt t => rfl

theorem doneBody_past (r r2 : Rule) (body : List Stmt) (hsafe : safeBody body = true)
    (hd : r2 = r ∨ doneBodyFor r2 body = true) : doneBodyFor r2 (pastBody r body) = true := by
  unfold doneBodyFor pastBody
  rw [List.all_map]
  unfold safeBody at hsafe
  rw [List.all_eq_true] at hsafe ⊢
  intro s hs
  refine doneStmt_past r r2 s (hsafe s hs) ?_
  rcases hd with hd | hd
  · exact Or.inl hd
  · unfold doneBodyFor at hd
    rw [List.all_eq_true] at hd
    exact Or.inr (hd s hs)

theorem probStmt_past (r r2 : Rule) (s : Stmt) (hsafe : safeStmt s = true)
    (hnp : probStmtFor r2 s = false) : probStmtFor r2 (pastStmt r s) = false := by
  cases s with
  | elemStmt e => exact probElem_past r r2 e hsafe hnp
  | importStmt src specs => rfl
  | otherStmt t => rfl

theorem probBody_past (r r2 : Rule) (body : List Stmt) (hsafe : safeBody body = true)
    (hnp : probBodyFor r2 body = false) : probBodyFor r2 (pastBody r body) = false := by
  unfold probBodyFor pastBody
  rw [List.any_map, List.any_eq_false]
  unfold safeBody at hsafe
  rw [List.all_eq_true] at hsafe
  unfold probBodyFor at hnp
  rw [List.any_eq_false] at hnp
  intro s hs
  have h1 : probStmtFor r2 s = false := by
    have := hnp s hs
    simpa using this
  have h2 := probStmt_past r r2 s (hsafe s hs) h1
  simp [Function.comp, h2]

theorem passStmt_mono (r : Rule) (s : Stmt) (st : XfmState)
    (h : st.trulyProblematicSkipOccurred = true) :
    (passStmt r s st).2.trulyProblematicSkipOccurred = true := by
  cases s with
  | elemStmt e => exact passElem_mono r e st h
  | importStmt src specs => exact h
  | otherStmt t => exact h

theorem passBody_mono (r : Rule) : ∀ (body : List Stmt) (st : XfmState),
    st.trulyProblematicSkipOccurred = true →
    (passBody r body st).2.trulyProblematicSkipOccurred = true
  | [], _, h => h
  | s :: rest, st, h => by
    simp only [passBody]
    exact passBody_mono r rest _ (passStmt_mono r s st h)

theorem passStmt_cover (r : Rule) (s : Stmt) (st : XfmState) (hsafe : safeStmt s = true)
    (hp : probStmtFor r (pastStmt r s) = true) :
    (passStmt r s st).2.trulyProblematicSkipOccurred = true := by
  cases s with
  | elemStmt e => exact passElem_cover r e st hsafe hp
  | importStmt src specs => exact Bool.noConfusion hp
  | otherStmt t => exact Bool.noConfusion hp

theorem passBody_cover (r : Rule) : ∀ (body : List Stmt) (st : XfmState),
    safeBody body = true →
    probBodyFor r (pastBody r body) = true →
    (passBody r body st).2.trulyProblematicSkipOccurred = true
  | [], _, _, hp => Bool.noConfusion hp
  | s :: rest, st, hsafe, hp => by
    simp only [safeBody, List.all_cons, Bool.and_eq_true] at hsafe
    simp only [pastBody, List.map_cons, probBodyFor, List.any_cons, Bool.or_eq_true] at hp
    simp only [passBody]
    rcases hp with hp | hp
    · exact passBody_mono r rest _ (passStmt_cover r s st hsafe.1 hp)
    · exact passBody_cover r rest _ hsafe.2 hp

theorem passStmt_done_id (r : Rule) (s : Stmt) (st : XfmState) (hd : doneStmtFor r s = true) :
    (passStmt r s st).1 = s
      ∧ (passStmt r s st).2.registry = st.registry
      ∧ (passStmt r s st).2.trulyProblematicSkipOccurred
          = (st.trulyProblematicSkipOccurred || probStmtFor r s) := by
  cases s with
  | elemStmt e =>
    obtain ⟨h1, h2, h3⟩ := passElem_done_id r e st hd
    simp only [passStmt, probStmtFor]
    exact ⟨by rw [h1], h2, h3⟩
  | importStmt src specs => exact ⟨rfl, rfl, by simp [passStmt, probStmtFor]⟩
  | otherStmt t => exact ⟨rfl, rfl, by simp [passStmt, probStmtFor]⟩

theorem passBody_done_id (r : Rule) : ∀ (body : List Stmt) (st : XfmState),
    doneBodyFor r body = true →
    (passBody r body st).1 = body
      ∧ (passBody r body st).2.registry = st.registry
      ∧ (passBody r body st).2.trulyProblematicSkipOccurred
          = (st.trulyProblematicSkipOccurred || probBodyFor r body)
  | [], st, _ => ⟨rfl, rfl, by simp [passBody, probBodyFor]⟩
  | s :: rest, st, hd => by
    simp only [doneBodyFor, List.all_cons, Bool.and_eq_true] at hd
    obtain ⟨hs1, hsr, hsp⟩ := passStmt_done_id r s st hd.1
    obtain ⟨hr1, hrr, hrp⟩ := passBody_done_id r rest (passStmt r s st).2 hd.2
    simp only [passBody]
    refine ⟨?_, ?_, ?_⟩
    · rw [hs1, hr1]
    · rw [hrr, hsr]
    · rw [hrp, hsp]
      simp only [probBodyFor, List.any_cons, Bool.or_assoc]

/-! ### The full run: doneness established, problems covered -/

theorem runPasses_cover : ∀ (rules : List Rule) (body : List Stmt) (st : XfmState),
    safeBody body = true →
    safeBody (runPasses rules body st).1 = true
      ∧ (∀ r2, doneBodyFor r2 body = true →
          doneBodyFor r2 (runPasses rules body st).1 = true)
      ∧ (∀ r2, r2 ∈ rules → doneBodyFor r2 (runPasses rules body st).1 = true)
      ∧ (st.trulyProblematicSkipOccurred = true →
          (runPasses rules body st).2.trulyProblematicSkipOccurred = true)
      ∧ (∀ r2, probBodyFor r2 body = false →
          probBodyFor r2 (runPasses rules body st).1 = false)
      ∧ (∀ r2, r2 ∈ rules → probBodyFor r2 (runPasses rules body st).1 = true →
          (runPasses rules body st).2.trulyProblematicSkipOccurred = true)
  | [], body, st, hsafe =>
    ⟨hsafe, fun _ hd => hd, fun r2 hm => absurd hm (List.not_mem_nil r2), fun h => h,
     fun _ hnp => hnp, fun r2 hm _ => absurd hm (List.not_mem_nil r2)⟩
  | r0 :: rest, body, st, hsafe => by
    have hstep : runPasses (r0 :: rest) body st
        = runPasses rest (passBody r0 body st).1 (passBody r0 body st).2 := rfl
    rw [hstep, passBody_fst r0 body st]
    have hsafe1 : safeBody (pastBody r0 body) = true := safeBody_past r0 body hsafe
    have IH := runPasses_cover rest (pastBody r0 body) (passBody r0 body st).2 hsafe1
    refine ⟨IH.1, ?_, ?_, ?_, ?_, ?_⟩
    · intro r2 hd
      exact IH.2.1 r2 (doneBody_past r0 r2 body hsafe (Or.inr hd))
    · intro r2 hm
      rcases List.mem_cons.mp hm with he | hm2
    -- r2 is the freshly processed rule or one still to come
      · rw [he]
        exact IH.2.1 r0 (doneBody_past r0 r0 body hsafe (Or.inl rfl))
      · exact IH.2.2.1 r2 hm2
    · intro hst
      exact IH.2.2.2.1 (passBody_mono r0 body st hst)
    · intro r2 hnp
      exact IH.2.2.2.2.1 r2 (probBody_past r0 r2 body hsafe hnp)
    · intro r2 hm hp
      rcases List.mem_cons.mp hm with he | hm2
      · rw [he] at hp
        by_cases hpp : probBodyFor r0 (pastBody r0 body) = true
        · exact IH.2.2.2.1 (passBody_cover r0 body st hsafe hpp)
        · simp only [Bool.not_eq_true] at hpp
          rw [IH.2.2.2.2.1 r0 hpp] at hp
          exact Bool.noConfusion hp
      · exact IH.2.2.2.2.2 r2 hm2 hp

theorem runPasses_done_id : ∀ (rules : List Rule) (body : List Stmt) (st : XfmState),
    (∀ r2, r2 ∈ rules → doneBodyFor r2 body = true) →
    (runPasses rules body st).1 = body
      ∧ (runPasses rules body st).2.registry = st.registry
      ∧ ((runPasses rules body st).2.trulyProblematicSkipOccurred = true →
          st.trulyProblematicSkipOccurred = true
            ∨ ∃ r2, r2 ∈ rules ∧ probBodyFor r2 body = true)
  | [], _, _, _ => ⟨rfl, rfl, fun h => Or.inl h⟩
  | r0 :: rest, body, st, hd => by
    have h0 : doneBodyFor r0 body = true := hd r0 (List.mem_cons_self r0 rest)
    obtain ⟨hb1, hbr, hbp⟩ := passBody_done_id r0 body st h0
    have hstep : runPasses (r0 :: rest) body st
        = runPasses rest (passBody r0 body st).1 (passBody r0 body st).2 := rfl
    rw [hstep, hb1]
    have IH := runPasses_done_id rest body (passBody r0 body st).2
      (fun r2 hm => hd r2 (List.mem_cons_of_mem r0 hm))
    refine ⟨IH.1, IH.2.1.trans hbr, ?_⟩
    intro hp
    rcases IH.2.2 hp with h | ⟨r2, hm, hpb⟩
    · rw [hbp] at h
      simp only [Bool.or_eq_true] at h
      rcases h with h1 | h1
      · exact Or.inl h1
      · exact Or.inr ⟨r0, List.mem_cons_self r0 rest, h1⟩
    · exact Or.inr ⟨r2, List.mem_cons_of_mem r0 hm, hpb⟩

/-! ### Import finalization touches only import statements -/

theorem merge_preds (names : List String) : ∀ body : List Stmt,
    safeBody (mergeIntoFirstMystiqueImport names body) = safeBody body
      ∧ (∀ r2, doneBodyFor r2 (mergeIntoFirstMystiqueImport names body)
          = doneBodyFor r2 body)
      ∧ (∀ r2, probBodyFor r2 (mergeIntoFirstMystiqueImport names body)
          = probBodyFor r2 body)
  | [] => ⟨rfl, fun _ => rfl, fun _ => rfl⟩
  | s :: rest => by
    have IH := merge_preds names rest
    cases s with
    | importStmt src specs =>
      by_cases h : (src == mystiqueIconsPath) = true
      · simp only [mergeIntoFirstMystiqueImport, h, if_true]
        refine ⟨?_, fun r2 => ?_, fun r2 => ?_⟩
        · simp [safeBody, List.all_cons, safeStmt]
        · simp [doneBodyFor, List.all_cons, doneStmtFor]
        · simp [probBodyFor, List.any_cons, probStmtFor]
      · simp only [mergeIntoFirstMystiqueImport, h, Bool.false_eq_true, if_false]
        refine ⟨?_, fun r2 => ?_, fun r2 => ?_⟩
        · simp only [safeBody, List.all_cons]
          rw [show (mergeIntoFirstMystiqueImport names rest).all safeStmt
              = rest.all safeStmt from IH.1]
        · simp only [doneBodyFor, List.all_cons]
          rw [show (mergeIntoFirstMystiqueImport names rest).all (doneStmtFor r2)
              = rest.all (doneStmtFor r2) from IH.2.1 r2]
        · simp only [probBodyFor, List.any_cons]
          rw [show (mergeIntoFirstMystiqueImport names rest).any (probStmtFor r2)
              = rest.any (probStmtFor r2) from IH.2.2 r2]
    | elemStmt e =>
      simp only [mergeIntoFirstMystiqueImport]
      refine ⟨?_, fun r2 => ?_, fun r2 => ?_⟩
      · simp only [safeBody, List.all_cons]
        rw [show (mergeIntoFirstMystiqueImport names rest).all safeStmt
            = rest.all safeStmt from IH.1]
      · simp only [doneBodyFor, List.all_cons]
        rw [show (mergeIntoFirstMystiqueImport names rest).all (doneStmtFor r2)
            = rest.all (doneStmtFor r2) from IH.2.1 r2]
      · simp only [probBodyFor, List.any_cons]
        rw [show (mergeIntoFirstMystiqueImport names rest).any (probStmtFor r2)
            = rest.any (probStmtFor r2) from IH.2.2 r2]
    | otherStmt t =>
      simp only [mergeIntoFirstMystiqueImport]
      refine ⟨?_, fun r2 => ?_, fun r2 => ?_⟩
      · simp only [safeBody, List.all_cons]
        rw [show (mergeIntoFirstMystiqueImport names rest).all safeStmt
            = rest.all safeStmt from IH.1]
      · simp only [doneBodyFor, List.all_cons]
        rw [show (mergeIntoFirstMystiqueImport names rest).all (doneStmtFor r2)
            = rest.all (doneStmtFor r2) from IH.2.1 r2]
      · simp only [probBodyFor, List.any_cons]
        rw [show (mergeIntoFirstMystiqueImport names rest).any (probStmtFor r2)
            = rest.any (probStmtFor r2) from IH.2.2 r2]

theorem insertAfter_preds (src : String) (specs : List String) : ∀ body : List Stmt,
    safeBody (insertAfterLastImport (.importStmt src specs) body) = safeBody body
      ∧ (∀ r2, doneBodyFor r2 (insertAfterLastImport (.importStmt src specs) body)
          = doneBodyFor r2 body)
      ∧ (∀ r2, probBodyFor r2 (insertAfterLastImport (.importStmt src specs) body)
          = probBodyFor r2 body)
  | [] => by
    refine ⟨?_, fun r2 => ?_, fun r2 => ?_⟩ <;>
      simp [insertAfterLastImport, safeBody, doneBodyFor, probBodyFor,
        safeStmt, doneStmtFor, probStmtFor]
  | s :: rest => by
    have IH := insertAfter_preds src specs rest
    simp only [insertAfterLastImport]
    by_cases h1 : rest.any isImportStmt = true
    · simp only [h1, if_true]
      refine ⟨?_, fun r2 => ?_, fun r2 => ?_⟩
      · simp only [safeBody, List.all_cons]
        rw [show (insertAfterLastImport (.importStmt src specs) rest).all safeStmt
            = rest.all safeStmt from IH.1]
      · simp only [doneBodyFor, List.all_cons]
        rw [show (insertAfterLastImport (.importStmt src specs) rest).all (doneStmtFor r2)
            = rest.all (doneStmtFor r2) from IH.2.1 r2]
      · simp only [probBodyFor, List.any_cons]
        rw [show (insertAfterLastImport (.importStmt src specs) rest).any (probStmtFor r2)
            = rest.any (probStmtFor r2) from IH.2.2 r2]
    · simp only [h1, Bool.false_eq_true, if_false]
      by_cases h2 : isImportStmt s = true
      · simp only [h2, if_true]
        refine ⟨?_, fun r2 => ?_, fun r2 => ?_⟩
        · simp [safeBody, List.all_cons, safeStmt]
        · simp [doneBodyFor, List.all_cons, doneStmtFor]
        · simp [probBodyFor, List.any_cons, probStmtFor]
      · simp only [h2, Bool.false_eq_true, if_false]
        refine ⟨?_, fun r2 => ?_, fun r2 => ?_⟩
        · simp [safeBody, List.all_cons, safeStmt]
        · simp [doneBodyFor, List.all_cons, doneStmtFor]
        · simp [probBodyFor, List.any_cons, probStmtFor]

theorem finalize_preds (reg : List String) (body : List Stmt) :
    safeBody (finalizeImports reg body) = safeBody body
      ∧ (∀ r2, doneBodyFor r2 (finalizeImports reg body) = doneBodyFor r2 body)
      ∧ (∀ r2, probBodyFor r2 (finalizeImports reg body) = probBodyFor r2 body) := by
  unfold finalizeImports
  by_cases h : body.any isMystiqueImport = true
  · simp only [h, if_true]
    exact merge_preds reg body
  · simp only [h, Bool.false_eq_true, if_false]
    exact insertAfter_preds mystiqueIconsPath (sortStrs reg) body

/-! ### The review comment's guard makes it idempotent -/

theorem marker_in_comment :
    containsSub codemodMarker.data topLevelCommentText.data = true := by decide

theorem addReviewComment_idem (c : List String) :
    addReviewComment (addReviewComment c) = addReviewComment c := by
  unfold addReviewComment
  by_cases h : c.any (fun s => containsSub codemodMarker.data s.data) = true
  · simp [h]
  · simp only [h, Bool.false_eq_true, if_false]
    simp [List.any_cons, marker_in_comment, h]

/-! ### C3: idempotence on safe files -/

theorem transformer_body (g : SourceFile) : (transformer g).body
    = (if (runPasses engineRules g.body initialState).2.registry.length > 0
       then finalizeImports (runPasses engineRules g.body initialState).2.registry
         (runPasses engineRules g.body initialState).1
       else (runPasses engineRules g.body initialState).1) := rfl

theorem transformer_comments (g : SourceFile) : (transformer g).comments
    = (if (runPasses engineRules g.body initialState).2.trulyProblematicSkipOccurred
       then addReviewComment g.comments else g.comments) := rfl

theorem SourceFile_eta (g : SourceFile) :
    g = { body := g.body, comments := g.comments } := rfl

/-- C3 (amended): re-running the transformer on its own output changes nothing
further, PROVIDED the input is safe: in every icon-attribute object literal the
`icon` keys hold string literals and no `prefixIcon`/`suffixIcon` key occurs.
Without that restriction the claim fails (see the counterexample theorem): a
rewrite may synthesize a nested `TextButton` carrying a `prefixIcon` string,
which a second run rewrites further. -/
theorem C3_idempotent_on_safe (f : SourceFile) (hsafe : safeBody f.body = true) :
    transformer (transformer f) = transformer f := by
  have hc := runPasses_cover engineRules f.body initialState hsafe
  have hdone2 : ∀ r2, r2 ∈ engineRules → doneBodyFor r2 (transformer f).body = true := by
    intro r2 hm
    rw [transformer_body f]
    by_cases hrg : (runPasses engineRules f.body initialState).2.registry.length > 0
    · rw [if_pos hrg, (finalize_preds _ _).2.1 r2]
      exact hc.2.2.1 r2 hm
    · rw [if_neg hrg]
      exact hc.2.2.1 r2 hm
  have hprob1 : ∀ r2, r2 ∈ engineRules → probBodyFor r2 (transformer f).body = true →
      (runPasses engineRules f.body initialState).2.trulyProblematicSkipOccurred = true := by
    intro r2 hm hp
    rw [transformer_body f] at hp
    refine hc.2.2.2.2.2 r2 hm ?_
    by_cases hrg : (runPasses engineRules f.body initialState).2.registry.length > 0
    · rw [if_pos hrg, (finalize_preds _ _).2.2 r2] at hp
      exact hp
    · rw [if_neg hrg] at hp
      exact hp
  obtain ⟨h21, h2r, h2p⟩ :=
    runPasses_done_id engineRules (transformer f).body initialState hdone2
  have hreg2 : (runPasses engineRules (transformer f).body initialState).2.registry = [] := h2r
  have hb : (transformer (transformer f)).body = (transformer f).body := by
    rw [transformer_body (transformer f)]
    have hno : ¬ ((runPasses engineRules (transformer f).body
        initialState).2.registry.length > 0) := by
      rw [hreg2]
      simp
    rw [if_neg hno]
    exact h21
  have hcm : (transformer (transformer f)).comments = (transformer f).comments := by
    rw [transformer_comments (transformer f)]
    by_cases hp2 : (runPasses engineRules (transformer f).body
        initialState).2.trulyProblematicSkipOccurred = true
    · rw [if_pos hp2]
      rcases h2p hp2 with h | ⟨r2, hm, hpb⟩
      · exact Bool.noConfusion h
      · have hst1 := hprob1 r2 hm hpb
        have hcomm : (transformer f).comments = addReviewComment f.comments := by
          rw [transformer_comments f, if_pos hst1]
        rw [hcomm, addReviewComment_idem]
    · rw [if_neg hp2]
  rw [SourceFile_eta (transformer (transformer f)), hb, hcm]

/-- A concrete safe file for the idempotence witness: one `BottomNavItem` with
a plain string `icon` prop. -/
def c3SafeFile : SourceFile :=
  { body := [.elemStmt (.mk (.ident "BottomNavItem") [.attr "icon" (.str "ic_home")])],
    comments := [] }



/-- Witness: the amended C3 theorem applied at a concrete safe file. -/
theorem C3_idempotent_on_safe_witness :
    safeBody c3SafeFile.body = true
      ∧ transformer (transformer c3SafeFile) = transformer c3SafeFile :=
  ⟨by decide, C3_idempotent_on_safe c3SafeFile (by decide)⟩
